import Mathlib

/-! Path builder, metrics, interpolation, create animation and atlas cache of
`animation/Svg.cpp`

A shallow embedding of the contour/curve buffers, of the cursor based path
builder (`beginContour`, `moveTo`, `lineTo`, ..., `closeContour`, `copy`), of
the metrics (`calculateBBox`, `calculateApproximatePerimeter`, `normalize`), of
the path part and the rotation of `render2DInterpolation`, of the stroke and
fill pass of `renderCreateAnimation2D`, of the packer statics with
`SvgObject::renderCreateAnimation`, and of the groups (`pushSvgToGroup`, the
member loop of `SvgGroup::renderCreateAnimation`), followed by the properties
established about them.

Conventions of the embedding.

* Coordinates are exact rationals: `float` arithmetic is idealised.
* Counts and capacities are natural numbers; the width of the C integer fields
  is fixed in `animation/Svg.h`, which is not among the sources.
* Allocation always succeeds (the "Ran out of RAM" assertions never fire).
* A C array together with its element count is a list; `numContours` and
  `numCurves` are the lengths of those lists.  The capacity of a curve buffer
  (`maxCapacity`) is kept as a field, and a write at an index that is not below
  the capacity is the fault `Fault.bufferOverflow`.
* A failing `g_logger_assert` is the fault `Fault.assertion`.
* The file-scope statics `cursor` and `moveToP0` travel with the object that is
  being built in a `Builder` record.
* Values the code leaves indeterminate (fields of freshly allocated memory that
  are never written) are explicit arguments.
* A read of an array element beyond the stored elements is recorded as such
  (`CurveStep.overread`, `ContourStep.overread`); what the drawing backend is
  handed in that case is indeterminate.
-/

namespace MathAnim

/-! ## Data model -/

/-- Two dimensional vector with exact rational components. -/
structure Vec2 where
  x : ℚ
  y : ℚ
deriving DecidableEq

instance : Add Vec2 := ⟨fun a b => ⟨a.x + b.x, a.y + b.y⟩⟩

instance : Sub Vec2 := ⟨fun a b => ⟨a.x - b.x, a.y - b.y⟩⟩

instance : HMul ℚ Vec2 Vec2 := ⟨fun k a => ⟨k * a.x, k * a.y⟩⟩

/-- Axis aligned box. -/
structure BBox where
  min : Vec2
  max : Vec2
deriving DecidableEq

/-- The tag of a curve. -/
inductive CurveType
  | Line
  | Bezier2
  | Bezier3
deriving DecidableEq

/-- Modelled from the spec: the `as` member of a curve (declared in
`animation/Svg.h`, which is not among the sources), a variant over line,
quadratic and cubic, each with its own control and end points. -/
inductive CurveData
  | line (p1 : Vec2)
  | bezier2 (p1 p2 : Vec2)
  | bezier3 (p1 p2 p3 : Vec2)
deriving DecidableEq

/-- Modelled from the spec: a curve (declared in `animation/Svg.h`), the shared
start point `p0`, the variant data and the flag `moveToP0` ("starts a new
subpath").  The tag `type` is read off the variant. -/
structure Curve where
  p0 : Vec2
  as : CurveData
  moveToP0 : Bool
deriving DecidableEq

/-- The tag stored next to the variant data. -/
def Curve.type (c : Curve) : CurveType :=
  match c.as with
  | .line _ => .Line
  | .bezier2 _ _ => .Bezier2
  | .bezier3 _ _ _ => .Bezier3

/-- The last point of a curve (`line.p1`, `bezier2.p2`, `bezier3.p3`). -/
def Curve.endPoint (c : Curve) : Vec2 :=
  match c.as with
  | .line p1 => p1
  | .bezier2 _ p2 => p2
  | .bezier3 _ _ p3 => p3

/-- Modelled from the spec: a contour (declared in `animation/Svg.h`): the
curves stored so far (`curves[0 .. numCurves-1]`), the size of the buffer that
holds them and the hole flag. -/
structure Contour where
  curves : List Curve
  maxCapacity : Nat
  isHole : Bool
deriving DecidableEq

/-- The field `numCurves`. -/
def Contour.numCurves (c : Contour) : Nat := c.curves.length

/-- Modelled from the spec: the shape (declared in `animation/Svg.h`): its
contours (`contours[0 .. numContours-1]`) and the two cached metrics. -/
structure SvgObject where
  contours : List Contour
  approximatePerimeter : ℚ
  bbox : BBox
deriving DecidableEq

/-- The field `numContours`. -/
def SvgObject.numContours (o : SvgObject) : Nat := o.contours.length

/-- Replace `contours[numContours - 1]`. -/
def SvgObject.setLastContour (o : SvgObject) (c : Contour) : SvgObject :=
  { o with contours := o.contours.dropLast ++ [c] }

/-- The ways an operation stops without a result. -/
inductive Fault
  | assertion
  | bufferOverflow
deriving DecidableEq

/-- The routines of `utils/CMath.h` used by this file.  They are not part of
the sources and are taken as parameters. -/
structure CMath where
  compare : Vec2 → Vec2 → Bool
  compareFloat : ℚ → ℚ → Bool
  length : Vec2 → ℚ
  min : Vec2 → Vec2 → Vec2
  max : Vec2 → Vec2 → Vec2
  bezier1BBox : Vec2 → Vec2 → BBox
  bezier2BBox : Vec2 → Vec2 → Vec2 → BBox
  bezier3BBox : Vec2 → Vec2 → Vec2 → Vec2 → BBox
  mapRange : Vec2 → Vec2 → ℚ → ℚ

/-- The constant `FLT_MAX` of `<cfloat>`: `(2 - 2^-23) * 2^127`. -/
def FLT_MAX : ℚ := 340282346638528859811704183484516925440

/-- The constant `FLT_MIN` of `<cfloat>`: `2^-126`, the smallest positive
normal `float`. -/
def FLT_MIN : ℚ := 1 / 85070591730234615865843651857942052864

instance : HMul Vec2 ℚ Vec2 := ⟨fun a k => ⟨a.x * k, a.y * k⟩⟩

/-- Three dimensional vector with exact rational components. -/
structure Vec3 where
  x : ℚ
  y : ℚ
  z : ℚ
deriving DecidableEq

/-- A colour of four bytes (`glm::u8vec4`). -/
structure Color where
  r : ℕ
  g : ℕ
  b : ℕ
  a : ℕ
deriving DecidableEq

/-- The parent descriptor of a shape (`AnimObject`, declared in
`animation/Animation.h`, which is not among the sources), reduced to the
fields that the renderers of `Svg.cpp` read for stroke, fill and transform. -/
structure AnimObject where
  position : Vec3
  rotation : Vec3
  strokeWidth : ℚ
  strokeColor : Color
  fillColor : Color
deriving DecidableEq

/-! ## Metrics recomputed by `copy` -/

/-- The length estimate `calculateApproximatePerimeter` adds for one curve. -/
def Curve.approxLength (m : CMath) (curve : Curve) : ℚ :=
  match curve.as with
  | .bezier3 p1 p2 p3 =>
    let chordLength := m.length (p3 - curve.p0)
    let controlNetLength := m.length (p1 - curve.p0) + m.length (p2 - p1) + m.length (p3 - p2)
    (chordLength + controlNetLength) / 2
  | .bezier2 p1 p2 =>
    let chordLength := m.length (p2 - curve.p0)
    let controlNetLength := m.length (p1 - curve.p0) + m.length (p2 - p1)
    (chordLength + controlNetLength) / 2
  | .line p1 => m.length (p1 - curve.p0)

/-- `SvgObject::calculateApproximatePerimeter`. -/
def SvgObject.calculateApproximatePerimeter (m : CMath) (o : SvgObject) : SvgObject :=
  { o with
    approximatePerimeter :=
      o.contours.foldl
        (fun acc contour => contour.curves.foldl (fun a curve => a + curve.approxLength m) acc) 0 }

/-- The box `calculateBBox` merges in for one curve. -/
def Curve.subBBox (m : CMath) (curve : Curve) : BBox :=
  match curve.as with
  | .bezier3 p1 p2 p3 => m.bezier3BBox curve.p0 p1 p2 p3
  | .bezier2 p1 p2 => m.bezier2BBox curve.p0 p1 p2
  | .line p1 => m.bezier1BBox curve.p0 p1

/-- `SvgObject::calculateBBox`. -/
def SvgObject.calculateBBox (m : CMath) (o : SvgObject) : SvgObject :=
  { o with
    bbox :=
      o.contours.foldl
        (fun box contour =>
          contour.curves.foldl
            (fun b curve =>
              let subBbox := curve.subBBox m
              { min := m.min b.min subBbox.min, max := m.max b.max subBbox.max })
            box)
        { min := ⟨FLT_MAX, FLT_MAX⟩, max := ⟨FLT_MIN, FLT_MIN⟩ } }

/-! ## Normalization -/

/-- The part of the scan of `normalize` for one curve: the start point and the
control and end points of the variant are merged into the running `(min, max)`. -/
def Curve.scanRange (m : CMath) (range : Vec2 × Vec2) (curve : Curve) : Vec2 × Vec2 :=
  let min := m.min curve.p0 range.1
  let max := m.max curve.p0 range.2
  match curve.as with
  | .bezier3 p1 p2 p3 =>
    let min := m.min p1 min
    let max := m.max p1 max
    let min := m.min p2 min
    let max := m.max p2 max
    let min := m.min p3 min
    let max := m.max p3 max
    (min, max)
  | .bezier2 p1 p2 =>
    let min := m.min p1 min
    let max := m.max p1 max
    let min := m.min p2 min
    let max := m.max p2 max
    (min, max)
  | .line p1 =>
    let min := m.min p1 min
    let max := m.max p1 max
    (min, max)

/-- One point sent through `mapRange` on both axes, from the range `(min, max)`
to the output ranges `{0, 1}`. -/
def mapPointToUnit (m : CMath) (min max p : Vec2) : Vec2 :=
  let hzOutputRange : Vec2 := ⟨0, 1⟩
  let vtOutputRange : Vec2 := ⟨0, 1⟩
  ⟨m.mapRange ⟨min.x, max.x⟩ hzOutputRange p.x, m.mapRange ⟨min.y, max.y⟩ vtOutputRange p.y⟩

/-- The part of the second loop of `normalize` for one curve: every point of the
curve is mapped; type and flag stay. -/
def Curve.mapToUnit (m : CMath) (min max : Vec2) (curve : Curve) : Curve :=
  { curve with
    p0 := mapPointToUnit m min max curve.p0
    as :=
      match curve.as with
      | .bezier3 p1 p2 p3 =>
        .bezier3 (mapPointToUnit m min max p1) (mapPointToUnit m min max p2)
          (mapPointToUnit m min max p3)
      | .bezier2 p1 p2 => .bezier2 (mapPointToUnit m min max p1) (mapPointToUnit m min max p2)
      | .line p1 => .line (mapPointToUnit m min max p1) }

/-- The range `normalize` works with: the arguments, or the result of the scan
over all points when the arguments are the "unset" values
`(FLT_MAX, FLT_MAX)`, `(FLT_MIN, FLT_MIN)`. -/
def SvgObject.normalizeRange (m : CMath) (o : SvgObject) (inMin inMax : Vec2) : Vec2 × Vec2 :=
  if inMin.x = FLT_MAX ∧ inMin.y = FLT_MAX ∧ inMax.x = FLT_MIN ∧ inMax.y = FLT_MIN then
    o.contours.foldl (fun range contour => contour.curves.foldl (Curve.scanRange m) range)
      (inMin, inMax)
  else (inMin, inMax)

/-- `SvgObject::normalize`. -/
def SvgObject.normalize (m : CMath) (o : SvgObject) (inMin inMax : Vec2) : SvgObject :=
  let range := o.normalizeRange m inMin inMax
  { o with
    contours := o.contours.map fun contour =>
      { contour with curves := contour.curves.map (Curve.mapToUnit m range.1 range.2) } }

namespace Svg

/-! ## Geometry buffer -/

/-- The constant `initialMaxCapacity`. -/
def initialMaxCapacity : Nat := 5

/-- The file-scope statics `cursor` and `moveToP0` together with the object
under construction. -/
structure Builder where
  object : SvgObject
  cursor : Vec2
  moveToP0 : Bool
deriving DecidableEq

/-- `createDefault`: no contour, perimeter zero; `bbox` is not written by the
code, its indeterminate value is the argument. -/
def createDefault (bbox : BBox) : SvgObject :=
  { contours := [], approximatePerimeter := 0, bbox := bbox }

/-- `checkResize`, on the two fields it reads: the capacity after the call,
doubled when the count exceeds it. -/
def checkResize (numCurves maxCapacity : Nat) : Nat :=
  if numCurves > maxCapacity then maxCapacity * 2 else maxCapacity

/-- The sequence `contour.numCurves++; checkResize(contour);
contour.curves[contour.numCurves - 1] = curve` shared by the drawing commands
and by `copy`.  The write needs `numCurves - 1` below the capacity. -/
def appendCurve (contour : Contour) (curve : Curve) : Except Fault Contour :=
  let numCurves := contour.numCurves + 1
  let maxCapacity := checkResize numCurves contour.maxCapacity
  if numCurves - 1 < maxCapacity then
    .ok { contour with curves := contour.curves ++ [curve], maxCapacity := maxCapacity }
  else
    .error .bufferOverflow

/-! ## Path builder -/

/-- `beginContour`. -/
def beginContour (s : Builder) (firstPoint : Vec2) : Builder :=
  { object :=
      { s.object with
        contours := s.object.contours ++
          [{ curves := [], maxCapacity := initialMaxCapacity, isHole := false }] }
    cursor := firstPoint
    moveToP0 := false }

/-- `lineTo`. -/
def lineTo (s : Builder) (point : Vec2) (absolute : Bool) : Except Fault Builder :=
  match s.object.contours.getLast? with
  | none => .error .assertion
  | some contour =>
    let p1 := if absolute then point else point + s.cursor
    match appendCurve contour { p0 := s.cursor, as := .line p1, moveToP0 := s.moveToP0 } with
    | .error f => .error f
    | .ok contour1 =>
      .ok { object := s.object.setLastContour contour1, cursor := p1, moveToP0 := false }

/-- `closeContour`. -/
def closeContour (s : Builder) (lineToEndpoint isHole : Bool) : Except Fault Builder :=
  match s.object.contours.getLast? with
  | none => .error .assertion
  | some contour =>
    if contour.numCurves = 0 then .error .assertion
    else
      let s1 : Builder :=
        { s with object := s.object.setLastContour { contour with isHole := isHole } }
      let r : Except Fault Builder :=
        if lineToEndpoint then
          match contour.curves with
          | first :: _ => lineTo s1 first.p0 true
          | [] => .ok s1
        else .ok s1
      match r with
      | .error f => .error f
      | .ok s2 => .ok { s2 with cursor := ⟨0, 0⟩ }

/-- `moveTo`. -/
def moveTo (s : Builder) (point : Vec2) (absolute : Bool) : Builder :=
  if s.object.numContours = 0 then
    { beginContour s point with moveToP0 := false }
  else
    { s with cursor := if absolute then point else s.cursor + point, moveToP0 := true }

/-- `hzLineTo`. -/
def hzLineTo (s : Builder) (xPoint : ℚ) (absolute : Bool) : Except Fault Builder :=
  let position : Vec2 :=
    if absolute then ⟨xPoint, s.cursor.y⟩ else (⟨xPoint, 0⟩ : Vec2) + s.cursor
  lineTo s position true

/-- `vtLineTo`. -/
def vtLineTo (s : Builder) (yPoint : ℚ) (absolute : Bool) : Except Fault Builder :=
  let position : Vec2 :=
    if absolute then ⟨s.cursor.x, yPoint⟩ else (⟨0, yPoint⟩ : Vec2) + s.cursor
  lineTo s position true

/-- `bezier2To`. -/
def bezier2To (s : Builder) (control dest : Vec2) (absolute : Bool) : Except Fault Builder :=
  match s.object.contours.getLast? with
  | none => .error .assertion
  | some contour =>
    let p1 := if absolute then control else control + s.cursor
    let cursor1 := p1
    let p2 := if absolute then dest else dest + cursor1
    match appendCurve contour { p0 := s.cursor, as := .bezier2 p1 p2, moveToP0 := s.moveToP0 } with
    | .error f => .error f
    | .ok contour1 =>
      .ok { object := s.object.setLastContour contour1, cursor := p2, moveToP0 := false }

/-- `bezier3To`. -/
def bezier3To (s : Builder) (control0 control1 dest : Vec2) (absolute : Bool) :
    Except Fault Builder :=
  match s.object.contours.getLast? with
  | none => .error .assertion
  | some contour =>
    let p1 := if absolute then control0 else control0 + s.cursor
    let cursor1 := p1
    let p2 := if absolute then control1 else control1 + cursor1
    let cursor2 := p2
    let p3 := if absolute then dest else dest + cursor2
    match appendCurve contour
        { p0 := s.cursor, as := .bezier3 p1 p2 p3, moveToP0 := s.moveToP0 } with
    | .error f => .error f
    | .ok contour1 =>
      .ok { object := s.object.setLastContour contour1, cursor := p3, moveToP0 := false }

/-- The first control point of `smoothBezier2To`: the cursor, or the mirror
image of the previous quadratic's control point when `curves[numCurves - 2]`
exists and has type `Bezier2`. -/
def smoothControl2 (contour : Contour) (cursor : Vec2) : Vec2 :=
  match contour.curves.getLast? with
  | some prev =>
    match prev.as with
    | .bezier2 prevControl1 _ => ((-1 : ℚ) * (prevControl1 - cursor)) + cursor
    | _ => cursor
  | none => cursor

/-- The first control point of `smoothBezier3To`: the cursor, or the mirror
image of the previous cubic's second control point when `curves[numCurves - 2]`
exists and has type `Bezier3`. -/
def smoothControl3 (contour : Contour) (cursor : Vec2) : Vec2 :=
  match contour.curves.getLast? with
  | some prev =>
    match prev.as with
    | .bezier3 _ prevControl1 _ => ((-1 : ℚ) * (prevControl1 - cursor)) + cursor
    | _ => cursor
  | none => cursor

/-- `smoothBezier2To`. -/
def smoothBezier2To (s : Builder) (dest : Vec2) (absolute : Bool) : Except Fault Builder :=
  match s.object.contours.getLast? with
  | none => .error .assertion
  | some contour =>
    let control0 := smoothControl2 contour s.cursor
    let p1 := control0
    let cursor1 := p1
    let p2 := if absolute then dest else dest + cursor1
    match appendCurve contour { p0 := s.cursor, as := .bezier2 p1 p2, moveToP0 := s.moveToP0 } with
    | .error f => .error f
    | .ok contour1 =>
      .ok { object := s.object.setLastContour contour1, cursor := p2, moveToP0 := false }

/-- `smoothBezier3To`. -/
def smoothBezier3To (s : Builder) (control1 dest : Vec2) (absolute : Bool) :
    Except Fault Builder :=
  match s.object.contours.getLast? with
  | none => .error .assertion
  | some contour =>
    let control0 := smoothControl3 contour s.cursor
    let p1 := control0
    let cursor1 := p1
    let p2 := if absolute then control1 else control1 + cursor1
    let cursor2 := p2
    let p3 := if absolute then dest else dest + cursor2
    match appendCurve contour
        { p0 := s.cursor, as := .bezier3 p1 p2 p3, moveToP0 := s.moveToP0 } with
    | .error f => .error f
    | .ok contour1 =>
      .ok { object := s.object.setLastContour contour1, cursor := p3, moveToP0 := false }

set_option linter.unusedVariables false in
/-- `arcTo`. -/
def arcTo (m : CMath) (s : Builder) (radius : Vec2) (xAxisRot : ℚ) (largeArc sweep : Bool)
    (dst : Vec2) (absolute : Bool) : Except Fault Builder :=
  if m.compare s.cursor dst then .ok s
  else if m.compareFloat radius.x 0 || m.compareFloat radius.y 0 then lineTo s dst absolute
  else lineTo s dst absolute

/-! ## Deep copy -/

/-- The first part of `copy`, run when the contour counts differ: the surplus
contours of `dest` are released and dropped, the missing ones are allocated
with an empty buffer of the initial capacity.  `isHole` of an allocated contour
is not written; `uninit contouri` is its indeterminate value. -/
def copyReconcile (uninit : Nat → Bool) (dest src : SvgObject) : List Contour :=
  if dest.numContours ≠ src.numContours then
    dest.contours.take src.numContours ++
      (List.range' dest.numContours (src.numContours - dest.numContours)).map
        (fun contouri =>
          { curves := [], maxCapacity := initialMaxCapacity, isHole := uninit contouri })
  else dest.contours

/-- The inner loop of `copy`: every curve of the source contour is appended to
the destination contour. -/
def copyCurves (dstContour : Contour) : List Curve → Except Fault Contour
  | [] => .ok dstContour
  | srcCurve :: rest =>
    match appendCurve dstContour srcCurve with
    | .error f => .error f
    | .ok dstContour1 => copyCurves dstContour1 rest

/-- The outer loop of `copy` over `contouri < src->numContours`: the
destination contour restarts at `numCurves = 0` and receives the curves of the
source contour. -/
def copyContours : List Contour → List Contour → Except Fault (List Contour)
  | dsts, [] => .ok dsts
  | [], _ :: _ => .error .bufferOverflow
  | dstContour :: dsts, srcContour :: srcs =>
    match copyCurves { dstContour with curves := [] } srcContour.curves with
    | .error f => .error f
    | .ok dstContour1 =>
      match copyContours dsts srcs with
      | .error f => .error f
      | .ok rest => .ok (dstContour1 :: rest)

/-- `copy`. -/
def copy (m : CMath) (uninit : Nat → Bool) (dest src : SvgObject) : Except Fault SvgObject :=
  match copyContours (copyReconcile uninit dest src) src.contours with
  | .error f => .error f
  | .ok contours =>
    .ok (({ dest with contours := contours }.calculateApproximatePerimeter m).calculateBBox m)

/-! ## The builder, statement by statement

The functions above give the result of a call as the caller sees it.  The
versions below follow the statements of the same source functions in order and
keep the state that has been written when a fault stops the call. -/

/-- Where a call stops: the state written so far and the fault that stopped it,
if any. -/
structure Stopped where
  state : Builder
  fault : Option Fault

/-- Go on with `next` unless a fault has stopped the call. -/
def Stopped.andThen (o : Stopped) (next : Builder → Stopped) : Stopped :=
  match o.fault with
  | some _ => o
  | none => next o.state

/-- The result as the caller sees it. -/
def Stopped.result (o : Stopped) : Except Fault Builder :=
  match o.fault with
  | some f => .error f
  | none => .ok o.state

namespace Stmt

/-- `g_logger_assert(cond, ...)`: a fatal assertion, nothing is written. -/
def loggerAssert (cond : Bool) (s : Builder) : Stopped :=
  { state := s, fault := if cond then none else some .assertion }

/-- `numCurves` of `contours[numContours - 1]` (read only after the assertion
that a contour exists). -/
def lastNumCurves (s : Builder) : Nat :=
  match s.object.contours.getLast? with
  | some contour => contour.numCurves
  | none => 0

/-- `contour.numCurves++; checkResize(contour);` and the writes of the fields of
`contour.curves[contour.numCurves - 1]`, for the last contour.  When the slot
lies beyond the buffer the state is given as it was before these statements. -/
def store (curve : Curve) (s : Builder) : Stopped :=
  match s.object.contours.getLast? with
  | none => { state := s, fault := some .bufferOverflow }
  | some contour =>
    match appendCurve contour curve with
    | .error f => { state := s, fault := some f }
    | .ok contour1 =>
      { state := { s with object := s.object.setLastContour contour1 }, fault := none }

/-- `lineTo`, statement by statement. -/
def lineTo (s : Builder) (point : Vec2) (absolute : Bool) : Stopped :=
  (loggerAssert (decide (s.object.numContours > 0)) s).andThen fun s0 =>
    let p1 := if absolute then point else point + s0.cursor
    (store { p0 := s0.cursor, as := .line p1, moveToP0 := s0.moveToP0 } s0).andThen fun s1 =>
      { state := { s1 with cursor := p1, moveToP0 := false }, fault := none }

/-- `closeContour`, statement by statement. -/
def closeContour (s : Builder) (lineToEndpoint isHole : Bool) : Stopped :=
  (loggerAssert (decide (s.object.numContours > 0)) s).andThen fun s0 =>
    (loggerAssert (decide (lastNumCurves s0 > 0)) s0).andThen fun s1 =>
      let s2 : Builder :=
        match s1.object.contours.getLast? with
        | some contour =>
          { s1 with object := s1.object.setLastContour { contour with isHole := isHole } }
        | none => s1
      let closing : Stopped :=
        if lineToEndpoint then
          match s2.object.contours.getLast? with
          | some contour =>
            match contour.curves with
            | first :: _ => lineTo s2 first.p0 true
            | [] => { state := s2, fault := none }
          | none => { state := s2, fault := none }
        else { state := s2, fault := none }
      closing.andThen fun s3 =>
        { state := { s3 with cursor := ⟨0, 0⟩ }, fault := none }

/-- `bezier2To`, statement by statement. -/
def bezier2To (s : Builder) (control dest : Vec2) (absolute : Bool) : Stopped :=
  (loggerAssert (decide (s.object.numContours > 0)) s).andThen fun s0 =>
    let p1 := if absolute then control else control + s0.cursor
    let cursor1 := p1
    let p2 := if absolute then dest else dest + cursor1
    (store { p0 := s0.cursor, as := .bezier2 p1 p2, moveToP0 := s0.moveToP0 } s0).andThen
      fun s1 => { state := { s1 with cursor := p2, moveToP0 := false }, fault := none }

/-- `bezier3To`, statement by statement. -/
def bezier3To (s : Builder) (control0 control1 dest : Vec2) (absolute : Bool) : Stopped :=
  (loggerAssert (decide (s.object.numContours > 0)) s).andThen fun s0 =>
    let p1 := if absolute then control0 else control0 + s0.cursor
    let cursor1 := p1
    let p2 := if absolute then control1 else control1 + cursor1
    let cursor2 := p2
    let p3 := if absolute then dest else dest + cursor2
    (store { p0 := s0.cursor, as := .bezier3 p1 p2 p3, moveToP0 := s0.moveToP0 } s0).andThen
      fun s1 => { state := { s1 with cursor := p3, moveToP0 := false }, fault := none }

/-- `smoothBezier2To`, statement by statement. -/
def smoothBezier2To (s : Builder) (dest : Vec2) (absolute : Bool) : Stopped :=
  (loggerAssert (decide (s.object.numContours > 0)) s).andThen fun s0 =>
    let control0 :=
      match s0.object.contours.getLast? with
      | some contour => smoothControl2 contour s0.cursor
      | none => s0.cursor
    let p1 := control0
    let cursor1 := p1
    let p2 := if absolute then dest else dest + cursor1
    (store { p0 := s0.cursor, as := .bezier2 p1 p2, moveToP0 := s0.moveToP0 } s0).andThen
      fun s1 => { state := { s1 with cursor := p2, moveToP0 := false }, fault := none }

/-- `smoothBezier3To`, statement by statement. -/
def smoothBezier3To (s : Builder) (control1 dest : Vec2) (absolute : Bool) : Stopped :=
  (loggerAssert (decide (s.object.numContours > 0)) s).andThen fun s0 =>
    let control0 :=
      match s0.object.contours.getLast? with
      | some contour => smoothControl3 contour s0.cursor
      | none => s0.cursor
    let p1 := control0
    let cursor1 := p1
    let p2 := if absolute then control1 else control1 + cursor1
    let cursor2 := p2
    let p3 := if absolute then dest else dest + cursor2
    (store { p0 := s0.cursor, as := .bezier3 p1 p2 p3, moveToP0 := s0.moveToP0 } s0).andThen
      fun s1 => { state := { s1 with cursor := p3, moveToP0 := false }, fault := none }

end Stmt

/-! ## Interpolation between two objects

The path part of `render2DInterpolation`: from the choice of `lessContours` and
`moreContours` to the end of the `while` loop.  The calls that set colours and
stroke width and that stroke, fill and close each path do not depend on the
contours and are left out; what is recorded is, for every turn of the `while`
loop, the two contour indices, the `nvgMoveTo` and, for every turn of the curve
loop, the curve index and the `nvgBezierTo`. -/

/-- The value `(b - a) * t + a`, per component. -/
def interpolate (a b : Vec2) (t : ℚ) : Vec2 :=
  ⟨(b.x - a.x) * t + a.x, (b.y - a.y) * t + a.y⟩

/-- The two `switch` statements of the curve loop: the points `p1`, `p2`, `p3`
a curve is given when it is treated as a cubic. -/
def asBezier3 (curve : Curve) : Vec2 × Vec2 × Vec2 :=
  match curve.as with
  | .bezier3 p1 p2 p3 => (p1, p2, p3)
  | .bezier2 p1 p2 =>
    (((1 : ℚ) / 3) * curve.p0 + ((2 : ℚ) / 3) * p1, ((2 : ℚ) / 3) * p1 + ((1 : ℚ) / 3) * p2, p2)
  | .line p1 => (curve.p0, p1, p1)

/-- One turn of the curve loop. -/
inductive CurveStep
  /-- Both `curves[curvei]` are stored curves; `nvgBezierTo` gets the
  interpolated points. -/
  | bezierTo (curvei : Nat) (p1 p2 p3 : Vec2)
  /-- The loop went on although `curves[curvei]` lies beyond the stored curves
  of a contour; `nvgBezierTo` gets indeterminate points. -/
  | overread (curvei : Nat)
  /-- The bound check fired: `g_logger_error` and `break`. -/
  | logError (curvei : Nat)
deriving DecidableEq

/-- The curve loop `for (curvei = 0; curvei < maxNumCurves; curvei++)`, with
`remaining = maxNumCurves - curvei` turns to go. -/
def curveLoop (lessCurves moreCurves : Contour) (t : ℚ) : Nat → Nat → List CurveStep
  | 0, _ => []
  | remaining + 1, curvei =>
    if curvei > lessCurves.numCurves ∨ curvei > moreCurves.numCurves then
      [.logError curvei]
    else
      (match lessCurves.curves[curvei]?, moreCurves.curves[curvei]? with
        | some lessCurve, some moreCurve =>
          .bezierTo curvei
            (interpolate (asBezier3 lessCurve).1 (asBezier3 moreCurve).1 t)
            (interpolate (asBezier3 lessCurve).2.1 (asBezier3 moreCurve).2.1 t)
            (interpolate (asBezier3 lessCurve).2.2 (asBezier3 moreCurve).2.2 t)
        | _, _ => .overread curvei)
      :: curveLoop lessCurves moreCurves t remaining (curvei + 1)

/-- One turn of the `while` loop over the contours. -/
inductive ContourStep
  /-- The contours `lessContours->contours[lessContouri]` and
  `moreContours->contours[moreContouri]` exist; `moveTo` is the point of
  `nvgMoveTo` when it is called. -/
  | path (lessContouri moreContouri : Nat) (moveTo : Option Vec2) (curves : List CurveStep)
  /-- One of the two indices lies beyond the contours of its object. -/
  | overread (lessContouri moreContouri : Nat)
deriving DecidableEq

/-- The body of the `while` loop up to `nvgClosePath`, for two existing
contours. -/
def interpolateContour (lessCurves moreCurves : Contour) (t : ℚ) :
    Option Vec2 × List CurveStep :=
  let moveTo : Option Vec2 :=
    match lessCurves.curves, moreCurves.curves with
    | lessFirst :: _, moreFirst :: _ => some (interpolate lessFirst.p0 moreFirst.p0 t)
    | _, _ => none
  let maxNumCurves := Max.max lessCurves.numCurves moreCurves.numCurves
  (moveTo, curveLoop lessCurves moreCurves t maxNumCurves 0)

/-- The loop `while (lessContouri < lessContours->numContours)`, with
`remaining = lessContours->numContours - lessContouri` turns to go
(`lessContouri` changes only by the `lessContouri++` that ends a turn). -/
def contourLoop (lessContours moreContours : SvgObject) (numContoursToSkip : Nat) (t : ℚ) :
    Nat → Nat → Nat → List ContourStep
  | 0, _, _ => []
  | remaining + 1, lessContouri, moreContouri =>
    (match lessContours.contours[lessContouri]?, moreContours.contours[moreContouri]? with
      | some lessCurves, some moreCurves =>
        .path lessContouri moreContouri (interpolateContour lessCurves moreCurves t).1
          (interpolateContour lessCurves moreCurves t).2
      | _, _ => .overread lessContouri moreContouri)
    :: contourLoop lessContours moreContours numContoursToSkip t remaining (lessContouri + 1)
        (if moreContouri + numContoursToSkip ≥ moreContours.numContours then
          moreContours.numContours - 1
        else moreContouri + numContoursToSkip)

/-- The path part of `render2DInterpolation`.  There is no result when the
object with fewer contours has none: the integer division that computes
`numContoursToSkip` divides by zero. -/
def render2DInterpolationPaths (interpolationSrc interpolationDst : SvgObject) (t : ℚ) :
    Option (List ContourStep) :=
  let lessContours :=
    if interpolationSrc.numContours ≤ interpolationDst.numContours then interpolationSrc
    else interpolationDst
  let moreContours :=
    if interpolationSrc.numContours > interpolationDst.numContours then interpolationSrc
    else interpolationDst
  if lessContours.numContours = 0 then none
  else
    let numContoursToSkip := Max.max (moreContours.numContours / lessContours.numContours) 1
    some (contourLoop lessContours moreContours numContoursToSkip t lessContours.numContours 0 0)

/-! ## Interpolation: the rotation of the transform

Source lines 547 to 562 of `render2DInterpolation`. -/

/-- The vector `interpolatedRotation` of `render2DInterpolation`, component by
component as the source computes it. -/
def interpolatedRotation (animObjectSrc animObjectDst : AnimObject) (t : ℚ) : Vec3 :=
  let dstRotation := animObjectDst.rotation
  let srcRotation := animObjectSrc.rotation
  ⟨(dstRotation.x - srcRotation.x) * t + srcRotation.x,
   (dstRotation.x - srcRotation.y) * t + srcRotation.y,
   (dstRotation.x - srcRotation.z) * t + srcRotation.z⟩

/-- The call of `nvgRotate` in `render2DInterpolation`: `none` when the call is
skipped, otherwise the angle in degrees that is handed to `glm::radians` and
from there to the drawing backend. -/
def interpolationRotate (animObjectSrc animObjectDst : AnimObject) (t : ℚ) : Option ℚ :=
  let r := interpolatedRotation animObjectSrc animObjectDst t
  if r.z ≠ 0 then some r.z else none

/-! ## The atlas cache

The statics `cacheLineHeight`, `cacheCurrentPos` and the size of the frame
buffer `svgCache`, with the functions that write them (source lines 15 to 18,
60 to 133 and 718 to 744). -/

/-- The packer state: the three statics that the placement of a shape reads and
writes.  Of the frame buffer only the size is kept. -/
structure SvgCache where
  cacheLineHeight : ℚ
  cacheCurrentPos : Vec2
  width : ℕ
  height : ℕ
deriving DecidableEq

/-- The static `cachePadding`. -/
def cachePadding : Vec2 := ⟨3, 3⟩

/-- The statics before `init`: objects of static storage duration are zero. -/
def staticStart : SvgCache :=
  { cacheLineHeight := 0, cacheCurrentPos := ⟨0, 0⟩, width := 0, height := 0 }

/-- The size part of `generateSvgCache`: a request above 4096 on either axis is
replaced by 4096 on both, then the frame buffer is built with that size. -/
def generateSvgCache (width height : ℕ) (s : SvgCache) : SvgCache :=
  if width > 4096 ∨ height > 4096 then { s with width := 4096, height := 4096 }
  else { s with width := width, height := height }

/-- The function `init`: a frame buffer of 4096 by 4096 and the cursor at the
origin.  The row height is not written. -/
def init (s : SvgCache) : SvgCache :=
  { generateSvgCache 4096 4096 s with cacheCurrentPos := ⟨0, 0⟩ }

/-- The function `endFrame`: the cursor goes back to the origin (and the
frame buffer is cleared, which the model does not hold). -/
def endFrame (s : SvgCache) : SvgCache :=
  { s with cacheCurrentPos := ⟨0, 0⟩ }

/-- The function `incrementCacheCurrentY`. -/
def incrementCacheCurrentY (s : SvgCache) : SvgCache :=
  { s with
    cacheCurrentPos := ⟨0, s.cacheCurrentPos.y + (s.cacheLineHeight + cachePadding.y)⟩
    cacheLineHeight := 0 }

/-- The function `incrementCacheCurrentX`. -/
def incrementCacheCurrentX (distance : ℚ) (s : SvgCache) : SvgCache :=
  { s with cacheCurrentPos := ⟨s.cacheCurrentPos.x + distance, s.cacheCurrentPos.y⟩ }

/-- The function `checkLineHeight`. -/
def checkLineHeight (newLineHeight : ℚ) (s : SvgCache) : SvgCache :=
  { s with cacheLineHeight := Max.max s.cacheLineHeight newLineHeight }

/-- The function `growCache`: both edges doubled (in 32 bit unsigned
arithmetic, the type of the parameters of `generateSvgCache`) and handed to
`generateSvgCache`. -/
def growCache (s : SvgCache) : SvgCache :=
  generateSvgCache (s.width * 2 % 2 ^ 32) (s.height * 2 % 2 ^ 32) s

/-- What one call of `SvgObject::renderCreateAnimation` did to the packer:
the statics afterwards, whether `incrementCacheCurrentY` and `growCache` were
called, and the texture offset handed to the drawing routine. -/
structure Reservation where
  cache : SvgCache
  newRow : Bool
  grew : Bool
  svgTextureOffset : Vec2
deriving DecidableEq

/-- The packer part of `SvgObject::renderCreateAnimation` (source lines 955 to
1034): the two edge checks, the texture offset, and for a shape that is not a
member of a group the advance of the cursor and of the row height. -/
def renderCreateAnimation (s : SvgCache) (obj : SvgObject) (parent : AnimObject)
    (offset svgScale : Vec2) (isSvgGroup : Bool) : Reservation :=
  let svgTextureOffset : Vec2 :=
    ⟨s.cacheCurrentPos.x + parent.strokeWidth * (1 / 2),
     s.cacheCurrentPos.y + parent.strokeWidth * (1 / 2)⟩
  let svgTotalWidth := (obj.bbox.max.x - obj.bbox.min.x) * svgScale.x + parent.strokeWidth
  let svgTotalHeight := (obj.bbox.max.y - obj.bbox.min.y) * svgScale.y + parent.strokeWidth
  let newRightX := svgTextureOffset.x + svgTotalWidth
  let newRow := decide (newRightX ≥ (s.width : ℚ))
  let s1 := if newRow then incrementCacheCurrentY s else s
  let newBottomY := svgTextureOffset.y + svgTotalHeight
  let grew := decide (newBottomY ≥ (s1.height : ℚ))
  let s2 := if grew then growCache s1 else s1
  let svgTextureOffset : Vec2 :=
    ⟨s2.cacheCurrentPos.x + parent.strokeWidth * (1 / 2),
     s2.cacheCurrentPos.y + parent.strokeWidth * (1 / 2)⟩
  if isSvgGroup then
    { cache := s2
      newRow := newRow
      grew := grew
      svgTextureOffset :=
        ⟨svgTextureOffset.x + offset.x * svgScale.x, svgTextureOffset.y + offset.y * svgScale.y⟩ }
  else
    { cache := checkLineHeight svgTotalHeight (incrementCacheCurrentX (svgTotalWidth + cachePadding.x) s2)
      newRow := newRow
      grew := grew
      svgTextureOffset := svgTextureOffset }

/-- One request to place a single shape: the shape, its parent descriptor and
the scale. -/
structure Request where
  obj : SvgObject
  parent : AnimObject
  svgScale : Vec2

/-- One placement of a sequence: the statics before the call, the total heights
of the shapes placed so far in the row that is current before the call, the
request and what the call did. -/
structure Placed where
  before : SvgCache
  row : List ℚ
  request : Request
  outcome : Reservation

/-- The total width of a request, `svgTotalWidth` of the source. -/
def Request.totalWidth (r : Request) : ℚ :=
  (r.obj.bbox.max.x - r.obj.bbox.min.x) * r.svgScale.x + r.parent.strokeWidth

/-- The total height of a request, `svgTotalHeight` of the source. -/
def Request.totalHeight (r : Request) : ℚ :=
  (r.obj.bbox.max.y - r.obj.bbox.min.y) * r.svgScale.y + r.parent.strokeWidth

/-- A sequence of calls of `SvgObject::renderCreateAnimation` for shapes that
are not members of a group, each on the statics left by the one before.  The
list `row` is bookkeeping of the model: the total heights placed in the current
row, started afresh by a call that moves to a new row. -/
def placeAll : SvgCache → List ℚ → List Request → List Placed
  | _, _, [] => []
  | s, row, r :: rest =>
    let outcome := renderCreateAnimation s r.obj r.parent ⟨0, 0⟩ r.svgScale false
    { before := s, row := row, request := r, outcome := outcome } ::
      placeAll outcome.cache (if outcome.newRow then [r.totalHeight] else row ++ [r.totalHeight]) rest

/-- The writers of the packer statics, as steps of a run. -/
inductive CacheOp
  | init
  | endFrame
  | incrementCacheCurrentY
  | incrementCacheCurrentX (distance : ℚ)
  | checkLineHeight (newLineHeight : ℚ)
  | growCache
  | renderCreateAnimation (obj : SvgObject) (parent : AnimObject) (offset svgScale : Vec2)
      (isSvgGroup : Bool)

/-- One step of a run. -/
def CacheOp.run (s : SvgCache) : CacheOp → SvgCache
  | .init => Svg.init s
  | .endFrame => Svg.endFrame s
  | .incrementCacheCurrentY => Svg.incrementCacheCurrentY s
  | .incrementCacheCurrentX distance => Svg.incrementCacheCurrentX distance s
  | .checkLineHeight newLineHeight => Svg.checkLineHeight newLineHeight s
  | .growCache => Svg.growCache s
  | .renderCreateAnimation obj parent offset svgScale isSvgGroup =>
    (Svg.renderCreateAnimation s obj parent offset svgScale isSvgGroup).cache

/-- A run of packer steps, first step first. -/
def runCache (s : SvgCache) (ops : List CacheOp) : SvgCache :=
  ops.foldl CacheOp.run s

/-! ## The members of a group

The loop over the members in `SvgGroup::renderCreateAnimation` (source lines
1184 to 1202). -/

/-- The loop over the members, on the indices still to visit and the counter
`numObjectsDrawn`: the list of the calls of the member renderer, each with the
index of the member and the fraction `percentOfLetterToDraw` it is given. -/
def groupLoop (numberObjectsToDraw : ℚ) (numObjects : ℕ) : List ℕ → ℚ → List (ℕ × ℚ)
  | [], _ => []
  | i :: rest, numObjectsDrawn =>
    let denominator : ℚ := if i = numObjects - 1 then 1 else 2
    let percentOfLetterToDraw := (numberObjectsToDraw - numObjectsDrawn) / denominator
    (i, percentOfLetterToDraw) ::
      (if numObjectsDrawn + 1 ≥ numberObjectsToDraw then [] else
        groupLoop numberObjectsToDraw numObjects rest (numObjectsDrawn + 1))

/-- The member calls of `SvgGroup::renderCreateAnimation` for a group of
`numObjects` members at time `t`. -/
def groupMemberCalls (t : ℚ) (numObjects : ℕ) : List (ℕ × ℚ) :=
  groupLoop (t * numObjects) numObjects (List.range numObjects) 0

/-! ## The create animation of one shape

The function `renderCreateAnimation2D` (source lines 1364 to 1772): the values
computed first, the stroke pass and the fill pass.  The commands to the
drawing backend are the result; the pass that draws the debug boxes is not
part of the model. -/

/-- The calls of the drawing backend made by the create animation. -/
inductive NvgCmd
  | beginPath
  | strokeColor (r g b a : ℕ)
  | strokeWidth (width : ℚ)
  | moveTo (p : Vec2)
  | lineTo (p : Vec2)
  | bezierTo (p1 p2 p3 : Vec2)
  | stroke
  | fillColor (r g b a : ℕ)
  | fill
  | pathWindingHole
deriving DecidableEq

/-- The same command with every point sent through `f`. -/
def NvgCmd.mapPoints (f : Vec2 → Vec2) : NvgCmd → NvgCmd
  | .moveTo p => .moveTo (f p)
  | .lineTo p => .lineTo (f p)
  | .bezierTo p1 p2 p3 => .bezierTo (f p1) (f p2) (f p3)
  | c => c

/-- The routine `glm::epsilonEqual` on scalars: `|x - y| < epsilon`. -/
def epsilonEqual (x y epsilon : ℚ) : Bool := decide (|x - y| < epsilon)

/-- The conversion of a `float` between 0 and 255 to `unsigned char`: the
fraction is dropped. -/
def toUnsignedChar (x : ℚ) : ℕ := (Int.floor x).toNat

/-- The values that `renderCreateAnimation2D` computes before it draws (source
lines 1366 to 1399). -/
structure RenderSetup where
  t : ℚ
  lengthToDraw : ℚ
  amountToFadeIn : ℚ
  percentToFadeIn : ℚ
  minCoord : Vec2
  maxCoord : Vec2
  inXRange : Vec2
  inYRange : Vec2
  outXRange : Vec2
  outYRange : Vec2
deriving DecidableEq

/-- The first part of `renderCreateAnimation2D`: the time after the optional
reversal, the length to draw, the progress of the fade, and the ranges of the
coordinate mapping. -/
def renderSetup (m : CMath) (t : ℚ) (textureOffset svgScale : Vec2) (reverse : Bool)
    (obj : SvgObject) (isSvgGroup : Bool) : RenderSetup :=
  let t := if reverse then 1 - t else t
  let fadeInStart : ℚ := 8 / 10
  let lengthToDraw := t * obj.approximatePerimeter
  let amountToFadeIn := (t - fadeInStart) / (1 - fadeInStart)
  let percentToFadeIn := Max.max (Min.min amountToFadeIn 1) 0
  let scaledBboxMin : Vec2 := ⟨obj.bbox.min.x * svgScale.x, obj.bbox.min.y * svgScale.y⟩
  let scaledBboxMin := if ¬ isSvgGroup then m.max scaledBboxMin ⟨0, 0⟩ else scaledBboxMin
  let minCoord := textureOffset + scaledBboxMin
  let bboxSize := obj.bbox.max - obj.bbox.min
  let bboxSize : Vec2 := ⟨bboxSize.x * svgScale.x, bboxSize.y * svgScale.y⟩
  let maxCoord := minCoord + bboxSize
  { t := t
    lengthToDraw := lengthToDraw
    amountToFadeIn := amountToFadeIn
    percentToFadeIn := percentToFadeIn
    minCoord := minCoord
    maxCoord := maxCoord
    inXRange := ⟨obj.bbox.min.x * svgScale.x, obj.bbox.max.x * svgScale.x⟩
    inYRange := ⟨obj.bbox.min.y * svgScale.y, obj.bbox.max.y * svgScale.y⟩
    outXRange := ⟨minCoord.x, maxCoord.x⟩
    outYRange := ⟨minCoord.y, maxCoord.y⟩ }

/-- The treatment of every point before it is handed to the backend: scaled,
then sent through `mapRange` on each axis. -/
def toTexture (m : CMath) (svgScale : Vec2) (v : RenderSetup) (p : Vec2) : Vec2 :=
  ⟨m.mapRange v.inXRange v.outXRange (p.x * svgScale.x),
   m.mapRange v.inYRange v.outYRange (p.y * svgScale.y)⟩

/-- The four points `q0`, `q1`, `q2`, `q3` of the part of a cubic between the
parameters `t0 = 0` and `t1 = percentOfCurveToDraw`, as both curve cases of the
stroke pass write them. -/
def partialBezier3 (p0 p1 p2 p3 : Vec2) (percentOfCurveToDraw : ℚ) : Vec2 × Vec2 × Vec2 × Vec2 :=
  let t0 : ℚ := 0
  let t1 : ℚ := percentOfCurveToDraw
  let u0 : ℚ := 1
  let u1 : ℚ := 1 - t1
  let q0 := ((u0 * u0 * u0) * p0) +
    ((t0 * u0 * u0 + u0 * t0 * u0 + u0 * u0 * t0) * p1) +
    ((t0 * t0 * u0 + u0 * t0 * t0 + t0 * u0 * t0) * p2) +
    ((t0 * t0 * t0) * p3)
  let q1 := ((u0 * u0 * u1) * p0) +
    ((t0 * u0 * u1 + u0 * t0 * u1 + u0 * u0 * t1) * p1) +
    ((t0 * t0 * u1 + u0 * t0 * t1 + t0 * u0 * t1) * p2) +
    ((t0 * t0 * t1) * p3)
  let q2 := ((u0 * u1 * u1) * p0) +
    ((t0 * u1 * u1 + u0 * t1 * u1 + u0 * u1 * t1) * p1) +
    ((t0 * t1 * u1 + u0 * t1 * t1 + t0 * u1 * t1) * p2) +
    ((t0 * t1 * t1) * p3)
  let q3 := ((u1 * u1 * u1) * p0) +
    ((t1 * u1 * u1 + u1 * t1 * u1 + u1 * u1 * t1) * p1) +
    ((t1 * t1 * u1 + u1 * t1 * t1 + t1 * u1 * t1) * p2) +
    ((t1 * t1 * t1) * p3)
  (q0, q1, q2, q3)

/-- One curve of the stroke pass, in the coordinates of the shape: the drawing
command before the coordinate mapping, and the length added to `lengthDrawn`. -/
def strokeCurve (m : CMath) (curve : Curve) (lengthLeft : ℚ) : NvgCmd × ℚ :=
  let p0 := curve.p0
  match curve.as with
  | .bezier3 p1 p2 p3 =>
    let chordLength := m.length (p3 - p0)
    let controlNetLength := m.length (p1 - p0) + m.length (p2 - p1) + m.length (p3 - p2)
    let approxLength := (chordLength + controlNetLength) / 2
    if lengthLeft < approxLength then
      let percentOfCurveToDraw := lengthLeft / approxLength
      let q := partialBezier3 p0 p1 p2 p3 percentOfCurveToDraw
      (.bezierTo q.2.1 q.2.2.1 q.2.2.2, approxLength)
    else
      (.bezierTo p1 p2 p3, approxLength)
  | .bezier2 c e =>
    let p1 := c
    let p2 := c
    let p3 := e
    let pr0 := p0
    let pr1 := ((1 : ℚ) / 3) * p0 + ((2 : ℚ) / 3) * p1
    let pr2 := ((2 : ℚ) / 3) * p1 + ((1 : ℚ) / 3) * p2
    let pr3 := p3
    let chordLength := m.length (pr3 - pr0)
    let controlNetLength := m.length (pr1 - pr0) + m.length (pr2 - pr1) + m.length (pr3 - pr2)
    let approxLength := (chordLength + controlNetLength) / 2
    if lengthLeft < approxLength then
      let percentOfCurveToDraw := lengthLeft / approxLength
      let p1 := (pr1 - pr0) * percentOfCurveToDraw + pr0
      let p2 := (pr2 - pr1) * percentOfCurveToDraw + pr1
      let p3 := (pr3 - pr2) * percentOfCurveToDraw + pr2
      let q := partialBezier3 p0 p1 p2 p3 percentOfCurveToDraw
      (.bezierTo q.2.1 q.2.2.1 q.2.2.2, approxLength)
    else
      (.bezierTo pr1 pr2 pr3, approxLength)
  | .line p1 =>
    let curveLength := m.length (p1 - p0)
    if lengthLeft < curveLength then
      let percentOfCurveToDraw := lengthLeft / curveLength
      (.lineTo ((p1 - p0) * percentOfCurveToDraw + p0), curveLength)
    else
      (.lineTo p1, curveLength)

/-- The loop over the curves of one contour in the stroke pass, on the curves
still to visit and the running `lengthDrawn`: the commands before the
coordinate mapping, and `lengthDrawn` when the loop ends. -/
def strokeCurves (m : CMath) (lengthToDraw : ℚ) : List Curve → ℚ → List NvgCmd × ℚ
  | [], lengthDrawn => ([], lengthDrawn)
  | curve :: rest, lengthDrawn =>
    let lengthLeft := lengthToDraw - lengthDrawn
    if lengthLeft < 0 then ([], lengthDrawn)
    else
      let move := if curve.moveToP0 then [NvgCmd.moveTo curve.p0] else []
      let step := strokeCurve m curve lengthLeft
      let tail := strokeCurves m lengthToDraw rest (lengthDrawn + step.2)
      (move ++ step.1 :: tail.1, tail.2)

/-- The two commands that set the stroke for a contour: with a parent stroke
width within 0.01 of zero the alpha fades and the width is 5, otherwise colour
and width are those of the parent. -/
def strokeStyle (parent : AnimObject) (percentToFadeIn : ℚ) : List NvgCmd :=
  let strokeColor := parent.strokeColor
  if epsilonEqual parent.strokeWidth 0 (1 / 100) then
    [.strokeColor strokeColor.r strokeColor.g strokeColor.b
        (toUnsignedChar ((strokeColor.a : ℚ) * (1 - percentToFadeIn))),
      .strokeWidth 5]
  else
    [.strokeColor strokeColor.r strokeColor.g strokeColor.b strokeColor.a,
      .strokeWidth parent.strokeWidth]

/-- The loop over the contours in the stroke pass, on the contours still to
visit and the running `lengthDrawn`. -/
def strokeContours (m : CMath) (parent : AnimObject) (percentToFadeIn lengthToDraw : ℚ) :
    List Contour → ℚ → List NvgCmd
  | [], _ => []
  | contour :: rest, lengthDrawn =>
    let body : List NvgCmd × ℚ :=
      match contour.curves with
      | [] => ([], lengthDrawn)
      | first :: _ =>
        let curves := strokeCurves m lengthToDraw contour.curves lengthDrawn
        (.beginPath :: strokeStyle parent percentToFadeIn ++ .moveTo first.p0 :: curves.1,
          curves.2)
    body.1 ++ .stroke ::
      (if body.2 > lengthToDraw then []
       else strokeContours m parent percentToFadeIn lengthToDraw rest body.2)

/-- The stroke pass in the coordinates of the shape, before the coordinate
mapping: nothing unless `lengthToDraw` is positive. -/
def strokePassLocal (m : CMath) (parent : AnimObject) (v : RenderSetup) (obj : SvgObject) :
    List NvgCmd :=
  if v.lengthToDraw > 0 then
    strokeContours m parent v.percentToFadeIn v.lengthToDraw obj.contours 0
  else []

/-- One curve of the fill pass, in the coordinates of the shape. -/
def fillCurve (curve : Curve) : NvgCmd :=
  let p0 := curve.p0
  match curve.as with
  | .bezier3 p1 p2 p3 => .bezierTo p1 p2 p3
  | .bezier2 c e =>
    let p1 := c
    let p2 := c
    let p3 := e
    let pr1 := ((1 : ℚ) / 3) * p0 + ((2 : ℚ) / 3) * p1
    let pr2 := ((2 : ℚ) / 3) * p1 + ((1 : ℚ) / 3) * p2
    let pr3 := p3
    .bezierTo pr1 pr2 pr3
  | .line p1 => .lineTo p1

/-- The commands of the stroke pass of `renderCreateAnimation2D` as the
backend receives them. -/
def strokePass (m : CMath) (t : ℚ) (parent : AnimObject) (textureOffset svgScale : Vec2)
    (reverse : Bool) (obj : SvgObject) (isSvgGroup : Bool) : List NvgCmd :=
  let v := renderSetup m t textureOffset svgScale reverse obj isSvgGroup
  (strokePassLocal m parent v obj).map (NvgCmd.mapPoints (toTexture m svgScale v))

/-- The curve loop of the stroke pass once more, recording instead of the
commands the turns that reach the `switch`: the curve and the value of
`lengthLeft` in that turn. -/
def strokeCalls (m : CMath) (lengthToDraw : ℚ) : List Curve → ℚ → List (Curve × ℚ)
  | [], _ => []
  | curve :: rest, lengthDrawn =>
    let lengthLeft := lengthToDraw - lengthDrawn
    if lengthLeft < 0 then []
    else
      (curve, lengthLeft) ::
        strokeCalls m lengthToDraw rest (lengthDrawn + (strokeCurve m curve lengthLeft).2)

/-- The contour loop of the stroke pass once more, recording the turns of the
curve loops. -/
def strokeContourCalls (m : CMath) (lengthToDraw : ℚ) : List Contour → ℚ → List (Curve × ℚ)
  | [], _ => []
  | contour :: rest, lengthDrawn =>
    strokeCalls m lengthToDraw contour.curves lengthDrawn ++
      (if (strokeCurves m lengthToDraw contour.curves lengthDrawn).2 > lengthToDraw then []
       else strokeContourCalls m lengthToDraw rest
          (strokeCurves m lengthToDraw contour.curves lengthDrawn).2)

/-- The turns of the curve loops of the whole stroke pass. -/
def strokePassCalls (m : CMath) (v : RenderSetup) (obj : SvgObject) : List (Curve × ℚ) :=
  if v.lengthToDraw > 0 then strokeContourCalls m v.lengthToDraw obj.contours 0 else []

/-! ## Groups of shapes

The functions `createDefaultGroup` and `pushSvgToGroup` (source lines 46 to 58
and 150 to 183).  The arrays of a group are lists of their stored elements;
`numObjects` and `numUniqueObjects` are their lengths.  That `realloc` may fail
is not part of the model. -/

/-- Four dimensional vector with exact rational components. -/
structure Vec4 where
  x : ℚ
  y : ℚ
  z : ℚ
  w : ℚ
deriving DecidableEq

/-- The structure `SvgGroup` (declared in `animation/Svg.h`, which is not among
the sources): the members with their offsets, the registry of unique shapes
with their names, the viewbox and the box. -/
structure SvgGroup where
  objects : List SvgObject
  objectOffsets : List Vec2
  uniqueObjects : List SvgObject
  uniqueObjectNames : List String
  viewbox : Vec4
  bbox : BBox

/-- The field `numObjects`. -/
def SvgGroup.numObjects (g : SvgGroup) : ℕ := g.objects.length

/-- The field `numUniqueObjects`. -/
def SvgGroup.numUniqueObjects (g : SvgGroup) : ℕ := g.uniqueObjectNames.length

/-- The function `createDefaultGroup`: no member, no unique shape, viewbox
`(0, 0, 1, 1)`; `bbox` is not written by the code, its indeterminate value is
the argument. -/
def createDefaultGroup (bbox : BBox) : SvgGroup :=
  { objects := [], objectOffsets := [], uniqueObjects := [], uniqueObjectNames := []
    viewbox := ⟨0, 0, 1, 1⟩, bbox := bbox }

/-- What `strcmp` and every other reader of a `char*` see of a string: the
characters before the first zero character. -/
def cString (id : String) : List Char := id.toList.takeWhile fun c => c ≠ Char.ofNat 0

/-- The function `pushSvgToGroup`: the member and its offset are stored at the
end; the loop over the registry clears `isUnique` when `strcmp` finds the name;
a name not found is stored at the end of the registry with the shape. -/
def pushSvgToGroup (group : SvgGroup) (obj : SvgObject) (id : String) (offset : Vec2) :
    SvgGroup :=
  let group1 : SvgGroup :=
    { group with
      objects := group.objects ++ [obj]
      objectOffsets := group.objectOffsets ++ [offset] }
  let isUnique : Bool :=
    group1.uniqueObjectNames.foldl
      (fun isUnique name => if cString name = cString id then false else isUnique) true
  if isUnique then
    { group1 with
      uniqueObjects := group1.uniqueObjects ++ [obj]
      uniqueObjectNames := group1.uniqueObjectNames ++ [id] }
  else group1

/-- One call of `pushSvgToGroup` with its arguments. -/
structure Push where
  obj : SvgObject
  id : String
  offset : Vec2

/-- A sequence of calls of `pushSvgToGroup`, first call first. -/
def pushAll (group : SvgGroup) (calls : List Push) : SvgGroup :=
  calls.foldl (fun g call => pushSvgToGroup g call.obj call.id call.offset) group

/-! ## Sequences of builder calls -/

/-- One call of the builder interface with its arguments. -/
inductive Call
  | beginContour (firstPoint : Vec2)
  | closeContour (lineToEndpoint isHole : Bool)
  | moveTo (point : Vec2) (absolute : Bool)
  | lineTo (point : Vec2) (absolute : Bool)
  | hzLineTo (xPoint : ℚ) (absolute : Bool)
  | vtLineTo (yPoint : ℚ) (absolute : Bool)
  | bezier2To (control dest : Vec2) (absolute : Bool)
  | bezier3To (control0 control1 dest : Vec2) (absolute : Bool)
  | smoothBezier2To (dest : Vec2) (absolute : Bool)
  | smoothBezier3To (control1 dest : Vec2) (absolute : Bool)
  | arcTo (radius : Vec2) (xAxisRot : ℚ) (largeArc sweep : Bool) (dst : Vec2) (absolute : Bool)

/-- Perform one call. -/
def Call.run (m : CMath) (s : Builder) : Call → Except Fault Builder
  | .beginContour firstPoint => .ok (Svg.beginContour s firstPoint)
  | .closeContour lineToEndpoint isHole => Svg.closeContour s lineToEndpoint isHole
  | .moveTo point absolute => .ok (Svg.moveTo s point absolute)
  | .lineTo point absolute => Svg.lineTo s point absolute
  | .hzLineTo xPoint absolute => Svg.hzLineTo s xPoint absolute
  | .vtLineTo yPoint absolute => Svg.vtLineTo s yPoint absolute
  | .bezier2To control dest absolute => Svg.bezier2To s control dest absolute
  | .bezier3To control0 control1 dest absolute => Svg.bezier3To s control0 control1 dest absolute
  | .smoothBezier2To dest absolute => Svg.smoothBezier2To s dest absolute
  | .smoothBezier3To control1 dest absolute => Svg.smoothBezier3To s control1 dest absolute
  | .arcTo radius xAxisRot largeArc sweep dst absolute =>
    Svg.arcTo m s radius xAxisRot largeArc sweep dst absolute

/-- Perform the calls in order; the first fault ends the run. -/
def runCalls (m : CMath) (s : Builder) : List Call → Except Fault Builder
  | [] => .ok s
  | call :: rest =>
    match call.run m s with
    | .error f => .error f
    | .ok s1 => runCalls m s1 rest

/-! ## Sample data for evaluation -/

/-- Modelled from the spec: one instance of the external math utilities, used
to evaluate the definitions on concrete inputs.  `compare` is equality within
`eps` per component, the line box is the componentwise minimum and maximum of
the two end points; the curve boxes are those of the control polygons and the
length is the taxicab one (the exact routines need square roots); `mapRange` is
the linear map that sends the input range onto the output range. -/
def sampleCMath (eps : ℚ) : CMath where
  compare a b := decide (|a.x - b.x| ≤ eps) && decide (|a.y - b.y| ≤ eps)
  compareFloat a b := decide (|a - b| ≤ eps)
  length v := |v.x| + |v.y|
  min a b := ⟨Min.min a.x b.x, Min.min a.y b.y⟩
  max a b := ⟨Max.max a.x b.x, Max.max a.y b.y⟩
  bezier1BBox p0 p1 :=
    { min := ⟨Min.min p0.x p1.x, Min.min p0.y p1.y⟩, max := ⟨Max.max p0.x p1.x, Max.max p0.y p1.y⟩ }
  bezier2BBox p0 p1 p2 :=
    { min := ⟨Min.min p0.x (Min.min p1.x p2.x), Min.min p0.y (Min.min p1.y p2.y)⟩
      max := ⟨Max.max p0.x (Max.max p1.x p2.x), Max.max p0.y (Max.max p1.y p2.y)⟩ }
  bezier3BBox p0 p1 p2 p3 :=
    { min := ⟨Min.min p0.x (Min.min p1.x (Min.min p2.x p3.x)),
              Min.min p0.y (Min.min p1.y (Min.min p2.y p3.y))⟩
      max := ⟨Max.max p0.x (Max.max p1.x (Max.max p2.x p3.x)),
              Max.max p0.y (Max.max p1.y (Max.max p2.y p3.y))⟩ }
  mapRange inputRange outputRange value :=
    (value - inputRange.x) / (inputRange.y - inputRange.x) * (outputRange.y - outputRange.x)
      + outputRange.x

/-! ## Vocabulary of the properties -/

/-- A curve buffer in a usable condition: the stored curves fit and the
capacity is not zero. -/
def WellFormed (c : Contour) : Prop := c.numCurves ≤ c.maxCapacity ∧ 1 ≤ c.maxCapacity

instance (c : Contour) : Decidable (WellFormed c) := by
  unfold WellFormed; infer_instance

/-- The capacity invariant of a contour: the capacity is `5 * 2 ^ k` and the
stored curves fit. -/
def CapacityInv (c : Contour) : Prop :=
  (∃ k : ℕ, c.maxCapacity = initialMaxCapacity * 2 ^ k) ∧ c.numCurves ≤ c.maxCapacity

/-- The contour after a successful `appendCurve`. -/
def appended (contour : Contour) (curve : Curve) : Contour :=
  { contour with
    curves := contour.curves ++ [curve]
    maxCapacity := checkResize (contour.numCurves + 1) contour.maxCapacity }

/-- The state after a drawing command stored `curve` in the last contour
`contour`: the cursor is the end point of the curve and nothing is pending. -/
def drawn (s : Builder) (contour : Contour) (curve : Curve) : Builder :=
  { object := s.object.setLastContour (appended contour curve)
    cursor := curve.endPoint
    moveToP0 := false }

/-- The seven commands that always store a curve. -/
def Call.isDrawing : Call → Bool
  | .lineTo _ _ => true
  | .hzLineTo _ _ => true
  | .vtLineTo _ _ => true
  | .bezier2To _ _ _ => true
  | .bezier3To _ _ _ _ => true
  | .smoothBezier2To _ _ => true
  | .smoothBezier3To _ _ _ => true
  | _ => false

/-- Modelled from the spec: what the claims take the external routines to be,
namely `min` and `max` componentwise, the box of a line the minimum and the
maximum of its two end points, `mapRange` the linear map sending the input
range onto the output range. -/
structure StandardCMath (m : CMath) : Prop where
  min_eq : ∀ a b : Vec2, m.min a b = ⟨Min.min a.x b.x, Min.min a.y b.y⟩
  max_eq : ∀ a b : Vec2, m.max a b = ⟨Max.max a.x b.x, Max.max a.y b.y⟩
  bezier1BBox_eq : ∀ p0 p1 : Vec2, m.bezier1BBox p0 p1 =
    { min := ⟨Min.min p0.x p1.x, Min.min p0.y p1.y⟩, max := ⟨Max.max p0.x p1.x, Max.max p0.y p1.y⟩ }
  mapRange_eq : ∀ (inputRange outputRange : Vec2) (value : ℚ),
    m.mapRange inputRange outputRange value =
      (value - inputRange.x) / (inputRange.y - inputRange.x) * (outputRange.y - outputRange.x)
        + outputRange.x

/-- The length estimate of one curve in the words of the specification: the
distance of the end points for a line, half of chord plus control polygon for
a quadratic and a cubic, with `|v|` the external `length`. -/
def specCurveEstimate (m : CMath) (curve : Curve) : ℚ :=
  match curve.as with
  | .line p1 => m.length (p1 - curve.p0)
  | .bezier2 p1 p2 =>
    (m.length (p2 - curve.p0) + m.length (p1 - curve.p0) + m.length (p2 - p1)) / 2
  | .bezier3 p1 p2 p3 =>
    (m.length (p3 - curve.p0) + m.length (p1 - curve.p0) + m.length (p2 - p1)
      + m.length (p3 - p2)) / 2

/-- The maximum of the total heights placed in a row: a member of the row that
no member exceeds, and 0 for a row without members. -/
def IsRowMaximum (row : List ℚ) (M : ℚ) : Prop :=
  (row = [] ∧ M = 0) ∨ (M ∈ row ∧ ∀ h ∈ row, h ≤ M)

/-- The length of the control polygon of a curve, with the external `length`:
the sum of the lengths of the steps from `p0` through the control points to the
end point. -/
def polygonLength (m : CMath) (curve : Curve) : ℚ :=
  match curve.as with
  | .line p1 => m.length (p1 - curve.p0)
  | .bezier2 p1 p2 => m.length (p1 - curve.p0) + m.length (p2 - p1)
  | .bezier3 p1 p2 p3 => m.length (p1 - curve.p0) + m.length (p2 - p1) + m.length (p3 - p2)

/-- The corner of the rectangle of a placement: the texture offset less half
the stroke width, the point the texture coordinates are computed from. -/
def Placed.origin (e : Placed) : Vec2 :=
  ⟨e.outcome.svgTextureOffset.x - e.request.parent.strokeWidth / 2,
   e.outcome.svgTextureOffset.y - e.request.parent.strokeWidth / 2⟩

/-- A point in the interior of the rectangle of a placement, which spans the
total width and the total height from the corner. -/
def Placed.interior (e : Placed) (p : Vec2) : Prop :=
  e.origin.x < p.x ∧ p.x < e.origin.x + e.request.totalWidth
    ∧ e.origin.y < p.y ∧ p.y < e.origin.y + e.request.totalHeight

/-- The earlier placement `a` and the later placement `b` are apart by the
padding: side by side in one row, or `b` in a row below. -/
def Placed.apart (a b : Placed) : Prop :=
  (a.origin.y = b.origin.y ∧ a.origin.x + a.request.totalWidth + 3 ≤ b.origin.x)
    ∨ a.origin.y + a.request.totalHeight + 3 ≤ b.origin.y

/-! ## Sample inputs -/

/-- A builder state as it is before the first call: a default object, the
cursor at the origin, nothing pending. -/
def sampleStart : Builder :=
  { object := createDefault ⟨⟨0, 0⟩, ⟨0, 0⟩⟩, cursor := ⟨0, 0⟩, moveToP0 := false }

/-- A staircase of six lines; the sixth exceeds the initial capacity. -/
def sampleSixLines : List Call :=
  [.beginContour ⟨0, 0⟩, .lineTo ⟨1, 0⟩ true, .lineTo ⟨1, 1⟩ true, .lineTo ⟨2, 1⟩ true,
    .lineTo ⟨2, 2⟩ true, .lineTo ⟨3, 2⟩ true, .lineTo ⟨3, 3⟩ true]

/-- The state the staircase ends in. -/
def sampleSixLinesResult : Builder :=
  { object :=
      { contours :=
          [{ curves :=
               [⟨⟨0, 0⟩, .line ⟨1, 0⟩, false⟩, ⟨⟨1, 0⟩, .line ⟨1, 1⟩, false⟩,
                ⟨⟨1, 1⟩, .line ⟨2, 1⟩, false⟩, ⟨⟨2, 1⟩, .line ⟨2, 2⟩, false⟩,
                ⟨⟨2, 2⟩, .line ⟨3, 2⟩, false⟩, ⟨⟨3, 2⟩, .line ⟨3, 3⟩, false⟩]
             maxCapacity := 10
             isHole := false }]
        approximatePerimeter := 0
        bbox := ⟨⟨0, 0⟩, ⟨0, 0⟩⟩ }
    cursor := ⟨3, 3⟩
    moveToP0 := false }

/-- An empty contour as `beginContour` creates it. -/
def sampleEmptyContour : Contour :=
  { curves := [], maxCapacity := initialMaxCapacity, isHole := false }

/-- A contour holding one line from (0,0) to (4,0). -/
def sampleLineContour : Contour :=
  { curves := [⟨⟨0, 0⟩, .line ⟨4, 0⟩, false⟩], maxCapacity := initialMaxCapacity, isHole := false }

/-- A builder state whose object consists of the given contours. -/
def sampleBuilder (contours : List Contour) (cursor : Vec2) (pending : Bool) : Builder :=
  { object := { contours := contours, approximatePerimeter := 0, bbox := ⟨⟨0, 0⟩, ⟨0, 0⟩⟩ }
    cursor := cursor
    moveToP0 := pending }

/-- A two-contour destination for `copy`: a contour with one line (hole flag
clear) and an empty one. -/
def sampleCopyDest : SvgObject :=
  { contours := [sampleLineContour, sampleEmptyContour]
    approximatePerimeter := 0
    bbox := ⟨⟨0, 0⟩, ⟨0, 0⟩⟩ }

/-- A one-contour source for `copy`: two lines, closed as a hole. -/
def sampleCopySrc : SvgObject :=
  { contours :=
      [{ curves := [⟨⟨1, 1⟩, .line ⟨2, 1⟩, false⟩, ⟨⟨2, 1⟩, .line ⟨1, 1⟩, false⟩]
         maxCapacity := initialMaxCapacity
         isHole := true }]
    approximatePerimeter := 2
    bbox := ⟨⟨1, 1⟩, ⟨2, 1⟩⟩ }

/-- A point argument taken as it is (absolute) or added to a base point
(relative). -/
def resolve (absolute : Bool) (base arg : Vec2) : Vec2 :=
  if absolute then arg else base + arg

/-- A builder state with one empty contour and the cursor at (1,1). -/
def sampleAtOneOne : Builder := sampleBuilder [sampleEmptyContour] ⟨1, 1⟩ false

/-- What relative `bezier3To (1,0) (2,0) (3,0)` makes of `sampleAtOneOne`. -/
def sampleRelativeCubicResult : Builder :=
  sampleBuilder
    [{ curves := [⟨⟨1, 1⟩, .bezier3 ⟨2, 1⟩ ⟨4, 1⟩ ⟨7, 1⟩, false⟩]
       maxCapacity := initialMaxCapacity
       isHole := false }]
    ⟨7, 1⟩ false

/-- A contour holding one cubic whose second control point is (8,0) and which
ends at (5,0). -/
def sampleCubicContour : Contour :=
  { curves := [⟨⟨0, 0⟩, .bezier3 ⟨1, 3⟩ ⟨8, 0⟩ ⟨5, 0⟩, false⟩]
    maxCapacity := initialMaxCapacity
    isHole := false }

/-- The builder state after that cubic: the cursor is at (5,0). -/
def sampleAfterCubic : Builder := sampleBuilder [sampleCubicContour] ⟨5, 0⟩ false

/-- What absolute `smoothBezier3To (3,-2) (1,0)` makes of `sampleAfterCubic`. -/
def sampleSmoothResult : Builder :=
  sampleBuilder
    [{ curves :=
         [⟨⟨0, 0⟩, .bezier3 ⟨1, 3⟩ ⟨8, 0⟩ ⟨5, 0⟩, false⟩,
          ⟨⟨5, 0⟩, .bezier3 ⟨2, 0⟩ ⟨3, -2⟩ ⟨1, 0⟩, false⟩]
       maxCapacity := initialMaxCapacity
       isHole := false }]
    ⟨1, 0⟩ false

/-- The tolerance used with `sampleCMath` where one is needed. -/
def sampleEps : ℚ := 1 / 1000000

/-- A builder state with one empty contour and the cursor at (5,5). -/
def sampleAtFiveFive : Builder := sampleBuilder [sampleEmptyContour] ⟨5, 5⟩ false

/-- What relative `lineTo (5,5)` makes of `sampleAtFiveFive`. -/
def sampleLineFromFiveFive : Builder :=
  sampleBuilder
    [{ curves := [⟨⟨5, 5⟩, .line ⟨10, 10⟩, false⟩]
       maxCapacity := initialMaxCapacity
       isHole := false }]
    ⟨10, 10⟩ false

/-- The builder state after the line (0,0)-(4,0) and a `moveTo (4,3)`. -/
def sampleOpenContour : Builder := sampleBuilder [sampleEmptyContour, sampleLineContour] ⟨4, 3⟩ true

/-- An object consisting of the given contours, with cleared metrics. -/
def sampleObject (contours : List Contour) : SvgObject :=
  { contours := contours, approximatePerimeter := 0, bbox := ⟨⟨0, 0⟩, ⟨0, 0⟩⟩ }

/-- A contour holding the single line from `a` to `b`. -/
def sampleSegment (a b : Vec2) : Contour :=
  { curves := [⟨a, .line b, false⟩], maxCapacity := initialMaxCapacity, isHole := false }

/-- A length that is Euclidean wherever the squared length is the square of a
rational number: the integer square roots of numerator and denominator of
`x * x + y * y`. -/
def sampleLength (v : Vec2) : ℚ :=
  (Nat.sqrt (v.x * v.x + v.y * v.y).num.toNat : ℚ) / (Nat.sqrt (v.x * v.x + v.y * v.y).den : ℚ)

/-- The sample routines with `sampleLength` as length. -/
def sampleEuclid : CMath := { sampleCMath 0 with length := sampleLength }

/-- A contour holding the two lines from `a` to `b` and from `b` to `c`. -/
def sampleTwoSegments (a b c : Vec2) : Contour :=
  { curves := [⟨a, .line b, false⟩, ⟨b, .line c, false⟩]
    maxCapacity := initialMaxCapacity
    isHole := false }

/-- An object with one contour: the line from (10,10) to (20,20). -/
def sampleOneContour : SvgObject := sampleObject [sampleSegment ⟨10, 10⟩ ⟨20, 20⟩]

/-- An object with two contours: the lines (0,0)-(4,0) and (0,1)-(4,1). -/
def sampleTwoContours : SvgObject :=
  sampleObject [sampleSegment ⟨0, 0⟩ ⟨4, 0⟩, sampleSegment ⟨0, 1⟩ ⟨4, 1⟩]

/-- An object with three contours: the lines (0,0)-(4,0), (0,1)-(4,1) and
(0,2)-(4,2). -/
def sampleThreeContours : SvgObject :=
  sampleObject [sampleSegment ⟨0, 0⟩ ⟨4, 0⟩, sampleSegment ⟨0, 1⟩ ⟨4, 1⟩,
    sampleSegment ⟨0, 2⟩ ⟨4, 2⟩]

/-- The quadratic Bézier polynomial of the points `p0`, `p1`, `p2` at the
parameter `s`. -/
def bezier2Point (p0 p1 p2 : Vec2) (s : ℚ) : Vec2 :=
  ((1 - s) ^ 2) * p0 + (2 * s * (1 - s)) * p1 + (s ^ 2) * p2

/-- The cubic Bézier polynomial of the points `p0`, `p1`, `p2`, `p3` at the
parameter `s`. -/
def bezier3Point (p0 p1 p2 p3 : Vec2) (s : ℚ) : Vec2 :=
  ((1 - s) ^ 3) * p0 + (3 * s * (1 - s) ^ 2) * p1 + (3 * s ^ 2 * (1 - s)) * p2 + (s ^ 3) * p3

/-- A parent descriptor at the origin with the given rotation, stroke width
5, opaque white stroke and fill. -/
def sampleParent (rotation : Vec3) : AnimObject :=
  { position := ⟨0, 0, 0⟩
    rotation := rotation
    strokeWidth := 5
    strokeColor := ⟨255, 255, 255, 255⟩
    fillColor := ⟨255, 255, 255, 255⟩ }

/-- A parent descriptor with the given stroke width, no rotation, opaque
white stroke and fill. -/
def sampleStroke (strokeWidth : ℚ) : AnimObject :=
  { sampleParent ⟨0, 0, 0⟩ with strokeWidth := strokeWidth }

/-- The statics after `init` at program start. -/
def sampleInitial : SvgCache := init staticStart

/-- A shape without contours whose box is `(0,0)` to `(w,h)`. -/
def sampleBox (w h : ℚ) : SvgObject :=
  { contours := [], approximatePerimeter := 0, bbox := ⟨⟨0, 0⟩, ⟨w, h⟩⟩ }

/-- A request for a box of the given size at scale one without stroke width. -/
def sampleRequest (w h : ℚ) : Request :=
  { obj := sampleBox w h, parent := sampleStroke 0, svgScale := ⟨1, 1⟩ }

/-- The two requests of the sample row: a box of 4000 by 10, then a box of 200
by 20 that no longer fits beside it. -/
def sampleRequests : List Request := [sampleRequest 4000 10, sampleRequest 200 20]

/-- The second placement of `sampleRequests` from the initial state: cursor at
`(4003, 0)` and row height 10 before, cursor at `(203, 13)` and row height 20
after, drawn at `(0, 13)` in a new row. -/
def samplePlaced : Placed :=
  { before := { cacheLineHeight := 10, cacheCurrentPos := ⟨4003, 0⟩, width := 4096, height := 4096 }
    row := [10]
    request := sampleRequest 200 20
    outcome :=
      { cache :=
          { cacheLineHeight := 20, cacheCurrentPos := ⟨203, 13⟩, width := 4096, height := 4096 }
        newRow := true
        grew := false
        svgTextureOffset := ⟨0, 13⟩ } }

/-- The target points of the `lineTo` commands of a list of commands, in
order. -/
def lineTargets : List NvgCmd → List Vec2
  | [] => []
  | .lineTo p :: rest => p :: lineTargets rest
  | _ :: rest => lineTargets rest

/-- The commands of a list that draw a curve (`lineTo` and `bezierTo`), in
order. -/
def drawCommands : List NvgCmd → List NvgCmd
  | [] => []
  | .lineTo p :: rest => .lineTo p :: drawCommands rest
  | .bezierTo p1 p2 p3 :: rest => .bezierTo p1 p2 p3 :: drawCommands rest
  | _ :: rest => drawCommands rest

/-- All curves of an object, contour after contour. -/
def allCurves (obj : SvgObject) : List Curve :=
  (obj.contours.map fun contour => contour.curves).flatten

/-- The length of the straight line between the end points of a curve, with
the external `length`. -/
def lineLength (m : CMath) (curve : Curve) : ℚ := m.length (curve.endPoint - curve.p0)

/-- The point at the fraction `f` of the way from the start point of a curve
to its end point. -/
def pointAt (curve : Curve) (f : ℚ) : Vec2 := (curve.endPoint - curve.p0) * f + curve.p0

/-- The reveal of a sequence of lines in the words of the specification: walk
the lines in order with the length that is left; a line that fits is drawn
whole (fraction 1), a line that only partially fits is drawn up to the fraction
`left / length`, and the walk ends once the length left is negative. -/
def revealFractions (m : CMath) : List Curve → ℚ → List ℚ
  | [], _ => []
  | curve :: rest, left =>
    if left < 0 then []
    else
      (if left < lineLength m curve then left / lineLength m curve else 1) ::
        revealFractions m rest (left - lineLength m curve)

/-- A shape of two lines, `(0,0)` to `(3,0)` to `(3,7)`, with its perimeter 10
and its box. -/
def samplePath : SvgObject :=
  { contours := [sampleTwoSegments ⟨0, 0⟩ ⟨3, 0⟩ ⟨3, 7⟩]
    approximatePerimeter := 10
    bbox := ⟨⟨0, 0⟩, ⟨3, 7⟩⟩ }

/-- A shape whose box `(5,5)` to `(15,15)` lies away from the origin: the
line from `(5,5)` to `(15,15)`. -/
def sampleShifted : SvgObject :=
  { contours := [sampleSegment ⟨5, 5⟩ ⟨15, 15⟩]
    approximatePerimeter := 20
    bbox := ⟨⟨5, 5⟩, ⟨15, 15⟩⟩ }

/-- A curve of the sample kinds, for evaluation: the quadratic from `(0,0)`
over the control point `(1,1)` to `(2,0)`. -/
def sampleQuadratic : Curve := ⟨⟨0, 0⟩, .bezier2 ⟨1, 1⟩ ⟨2, 0⟩, false⟩

/-- The cubic from `(0,0)` over the control points `(0,3)` and `(3,3)` to
`(3,0)`. -/
def sampleCubic : Curve := ⟨⟨0, 0⟩, .bezier3 ⟨0, 3⟩ ⟨3, 3⟩ ⟨3, 0⟩, false⟩

/-- A shape of the quadratic `(0,0)`, `(1,1)`, `(2,0)` followed by the line to
`(2,3)`, with its perimeter 6 (sample length) and a box around it. -/
def sampleMixed : SvgObject :=
  { contours :=
      [{ curves := [sampleQuadratic, ⟨⟨2, 0⟩, .line ⟨2, 3⟩, false⟩]
         maxCapacity := initialMaxCapacity
         isHole := false }]
    approximatePerimeter := 6
    bbox := ⟨⟨0, 0⟩, ⟨2, 3⟩⟩ }

/-- Three calls of `pushSvgToGroup`: the names `a`, `b` and `a` again, with
three different shapes. -/
def samplePushes : List Push :=
  [⟨sampleBox 1 1, "a", ⟨0, 0⟩⟩, ⟨sampleBox 2 2, "b", ⟨1, 0⟩⟩, ⟨sampleBox 3 3, "a", ⟨2, 0⟩⟩]

/-- A contour whose curves follow one another: every curve after the first
whose flag `moveToP0` is not set starts at the end point of the curve before
it. -/
def Continuous (contour : Contour) : Prop :=
  List.Chain' (fun prev cur : Curve => cur.moveToP0 = false → cur.p0 = prev.endPoint)
    contour.curves

/-- The cursor in step with the last contour: unless a `moveTo` is pending, the
cursor is the end point of the last curve of the last contour, if there is
one. -/
def Synced (s : Builder) : Prop :=
  s.moveToP0 = false → ∀ contour last, s.object.contours.getLast? = some contour →
    contour.curves.getLast? = some last → s.cursor = last.endPoint

/-- The condition on a sequence of calls that every `closeContour` is followed
by `beginContour` or `moveTo` before the next call that stores a curve: the
seven curve commands, `arcTo`, and `closeContour` with `lineToEndpoint`.  The
flag tells whether a `closeContour` is still unanswered. -/
def closesAnswered : Bool → List Call → Bool
  | _, [] => true
  | _, .beginContour _ :: rest => closesAnswered false rest
  | _, .moveTo _ _ :: rest => closesAnswered false rest
  | closed, .closeContour lineToEndpoint _ :: rest =>
    !(closed && lineToEndpoint) && closesAnswered true rest
  | closed, _ :: rest => !closed && closesAnswered false rest

/-- A run with a closed contour and a second subpath: two lines, the closing
line, a `moveTo` and one more line. -/
def sampleClosedRun : List Call :=
  [.beginContour ⟨0, 0⟩, .lineTo ⟨4, 0⟩ true, .lineTo ⟨4, 3⟩ true, .closeContour true false,
    .moveTo ⟨10, 10⟩ true, .lineTo ⟨12, 10⟩ true]

/-- The state `sampleClosedRun` ends in. -/
def sampleClosedRunResult : Builder :=
  { object :=
      { contours :=
          [{ curves :=
               [⟨⟨0, 0⟩, .line ⟨4, 0⟩, false⟩, ⟨⟨4, 0⟩, .line ⟨4, 3⟩, false⟩,
                ⟨⟨4, 3⟩, .line ⟨0, 0⟩, false⟩, ⟨⟨10, 10⟩, .line ⟨12, 10⟩, true⟩]
             maxCapacity := 5
             isHole := false }]
        approximatePerimeter := 0
        bbox := ⟨⟨0, 0⟩, ⟨0, 0⟩⟩ }
    cursor := ⟨12, 10⟩
    moveToP0 := false }

/-- The pen of the drawing backend after a list of commands: `nvgBeginPath`
leaves no current point, `nvgMoveTo`, `nvgLineTo` and `nvgBezierTo` leave their
last point. -/
def penAfter : Option Vec2 → List NvgCmd → Option Vec2
  | pen, [] => pen
  | _, .beginPath :: rest => penAfter none rest
  | _, .moveTo p :: rest => penAfter (some p) rest
  | _, .lineTo p :: rest => penAfter (some p) rest
  | _, .bezierTo _ _ p3 :: rest => penAfter (some p3) rest
  | pen, _ :: rest => penAfter pen rest

/-- The straight segments a list of commands draws, each from the pen to the
point of its `nvgLineTo`, in order.  An `nvgLineTo` without a current point
starts the path there and draws nothing. -/
def lineSegments : Option Vec2 → List NvgCmd → List (Vec2 × Vec2)
  | _, [] => []
  | _, .beginPath :: rest => lineSegments none rest
  | _, .moveTo p :: rest => lineSegments (some p) rest
  | some q, .lineTo p :: rest => (q, p) :: lineSegments (some p) rest
  | none, .lineTo p :: rest => lineSegments (some p) rest
  | _, .bezierTo _ _ p3 :: rest => lineSegments (some p3) rest
  | pen, _ :: rest => lineSegments pen rest

/-- A run of builder calls that draws on after `closeContour` without a
`moveTo`: the line to `(4,0)`, `closeContour`, the line to `(0,3)`. -/
def sampleJumpRun : List Call :=
  [.beginContour ⟨0, 0⟩, .lineTo ⟨4, 0⟩ true, .closeContour false false, .lineTo ⟨0, 3⟩ true]

/-- The state `sampleJumpRun` ends in: the second line starts at the origin,
where `closeContour` left the cursor, and carries no flag. -/
def sampleJumpResult : Builder :=
  { object :=
      { contours :=
          [{ curves := [⟨⟨0, 0⟩, .line ⟨4, 0⟩, false⟩, ⟨⟨0, 0⟩, .line ⟨0, 3⟩, false⟩]
             maxCapacity := 5
             isHole := false }]
        approximatePerimeter := 0
        bbox := ⟨⟨0, 0⟩, ⟨0, 0⟩⟩ }
    cursor := ⟨0, 3⟩
    moveToP0 := false }

/-- The shape of `sampleJumpResult` with its perimeter `4 + 3 = 7` and its
box. -/
def sampleJump : SvgObject :=
  { sampleJumpResult.object with approximatePerimeter := 7, bbox := ⟨⟨0, 0⟩, ⟨4, 3⟩⟩ }

/-! # Properties -/

/-! ## Basic facts about the buffer -/

theorem appendCurve_eq_ok {contour c1 : Contour} {curve : Curve}
    (h : appendCurve contour curve = .ok c1) :
    c1 = appended contour curve ∧ contour.numCurves < c1.maxCapacity := by
  unfold appendCurve at h
  simp only [Nat.add_sub_cancel] at h
  split at h
  · injection h with h
    subst h
    exact ⟨rfl, by assumption⟩
  · cases h

theorem appendCurve_of_wellFormed {contour : Contour} (hw : WellFormed contour) (curve : Curve) :
    appendCurve contour curve = .ok (appended contour curve) := by
  obtain ⟨h1, h2⟩ := hw
  unfold appendCurve
  simp only [Nat.add_sub_cancel]
  rw [if_pos]
  · rfl
  · unfold checkResize
    split <;> omega

theorem wellFormed_appended {contour : Contour} (hw : WellFormed contour) (curve : Curve) :
    WellFormed (appended contour curve) := by
  obtain ⟨h1, h2⟩ := hw
  unfold WellFormed appended checkResize Contour.numCurves at *
  simp only [List.length_append, List.length_singleton]
  split <;> constructor <;> omega

theorem CapacityInv.wellFormed {c : Contour} (h : CapacityInv c) : WellFormed c := by
  obtain ⟨⟨k, hk⟩, h2⟩ := h
  refine ⟨h2, ?_⟩
  rw [hk]
  have : 0 < 2 ^ k := Nat.two_pow_pos k
  unfold initialMaxCapacity
  omega

theorem capacityInv_appended {contour : Contour} (h : CapacityInv contour) (curve : Curve) :
    CapacityInv (appended contour curve) := by
  have hw := wellFormed_appended h.wellFormed curve
  obtain ⟨⟨k, hk⟩, _⟩ := h
  refine ⟨?_, hw.1⟩
  show ∃ j, checkResize (contour.numCurves + 1) contour.maxCapacity = initialMaxCapacity * 2 ^ j
  unfold checkResize
  split
  · exact ⟨k + 1, by rw [hk, pow_succ, Nat.mul_assoc]⟩
  · exact ⟨k, hk⟩

theorem contours_eq_of_getLast? {o : SvgObject} {contour : Contour}
    (h : o.contours.getLast? = some contour) : o.contours = o.contours.dropLast ++ [contour] :=
  (List.dropLast_append_getLast? contour (by simp [h])).symm

theorem lineTo_eq_ok {s s1 : Builder} {point : Vec2} {absolute : Bool}
    (h : lineTo s point absolute = .ok s1) :
    ∃ contour, s.object.contours.getLast? = some contour ∧
      contour.numCurves < checkResize (contour.numCurves + 1) contour.maxCapacity ∧
      s1 = drawn s contour
        { p0 := s.cursor, as := .line (if absolute then point else point + s.cursor),
          moveToP0 := s.moveToP0 } := by
  cases hl : s.object.contours.getLast? with
  | none => simp [lineTo, hl] at h
  | some contour =>
    simp only [lineTo, hl] at h
    generalize hr : appendCurve contour _ = r at h
    cases r with
    | error f => simp at h
    | ok c1 =>
      obtain ⟨rfl, hlt⟩ := appendCurve_eq_ok hr
      injection h with h
      exact ⟨contour, rfl, hlt, h.symm⟩

theorem lineTo_of_wellFormed (s : Builder) (point : Vec2) (absolute : Bool) {contour : Contour}
    (hl : s.object.contours.getLast? = some contour) (hw : WellFormed contour) :
    lineTo s point absolute = .ok (drawn s contour
        { p0 := s.cursor, as := .line (if absolute then point else point + s.cursor),
          moveToP0 := s.moveToP0 }) := by
  unfold lineTo
  simp only [hl, appendCurve_of_wellFormed hw]
  rfl

theorem bezier2To_eq_ok {s s1 : Builder} {control dest : Vec2} {absolute : Bool}
    (h : bezier2To s control dest absolute = .ok s1) :
    ∃ contour, s.object.contours.getLast? = some contour ∧
      contour.numCurves < checkResize (contour.numCurves + 1) contour.maxCapacity ∧
      s1 = drawn s contour
        { p0 := s.cursor
          as := .bezier2 (if absolute then control else control + s.cursor)
            (if absolute then dest else dest + (if absolute then control else control + s.cursor))
          moveToP0 := s.moveToP0 } := by
  cases hl : s.object.contours.getLast? with
  | none => simp [bezier2To, hl] at h
  | some contour =>
    simp only [bezier2To, hl] at h
    generalize hr : appendCurve contour _ = r at h
    cases r with
    | error f => simp at h
    | ok c1 =>
      obtain ⟨rfl, hlt⟩ := appendCurve_eq_ok hr
      injection h with h
      exact ⟨contour, rfl, hlt, h.symm⟩

theorem bezier2To_of_wellFormed (s : Builder) (control dest : Vec2) (absolute : Bool)
    {contour : Contour} (hl : s.object.contours.getLast? = some contour)
    (hw : WellFormed contour) :
    bezier2To s control dest absolute = .ok (drawn s contour
        { p0 := s.cursor
          as := .bezier2 (if absolute then control else control + s.cursor)
            (if absolute then dest else dest + (if absolute then control else control + s.cursor))
          moveToP0 := s.moveToP0 }) := by
  unfold bezier2To
  simp only [hl, appendCurve_of_wellFormed hw]
  rfl

theorem bezier3To_eq_ok {s s1 : Builder} {control0 control1 dest : Vec2} {absolute : Bool}
    (h : bezier3To s control0 control1 dest absolute = .ok s1) :
    ∃ contour, s.object.contours.getLast? = some contour ∧
      contour.numCurves < checkResize (contour.numCurves + 1) contour.maxCapacity ∧
      s1 = drawn s contour
        { p0 := s.cursor
          as := .bezier3 (if absolute then control0 else control0 + s.cursor)
            (if absolute then control1
              else control1 + (if absolute then control0 else control0 + s.cursor))
            (if absolute then dest
              else dest + (if absolute then control1
                else control1 + (if absolute then control0 else control0 + s.cursor)))
          moveToP0 := s.moveToP0 } := by
  cases hl : s.object.contours.getLast? with
  | none => simp [bezier3To, hl] at h
  | some contour =>
    simp only [bezier3To, hl] at h
    generalize hr : appendCurve contour _ = r at h
    cases r with
    | error f => simp at h
    | ok c1 =>
      obtain ⟨rfl, hlt⟩ := appendCurve_eq_ok hr
      injection h with h
      exact ⟨contour, rfl, hlt, h.symm⟩

theorem bezier3To_of_wellFormed (s : Builder) (control0 control1 dest : Vec2) (absolute : Bool)
    {contour : Contour} (hl : s.object.contours.getLast? = some contour)
    (hw : WellFormed contour) :
    bezier3To s control0 control1 dest absolute = .ok (drawn s contour
        { p0 := s.cursor
          as := .bezier3 (if absolute then control0 else control0 + s.cursor)
            (if absolute then control1
              else control1 + (if absolute then control0 else control0 + s.cursor))
            (if absolute then dest
              else dest + (if absolute then control1
                else control1 + (if absolute then control0 else control0 + s.cursor)))
          moveToP0 := s.moveToP0 }) := by
  unfold bezier3To
  simp only [hl, appendCurve_of_wellFormed hw]
  rfl

theorem smoothBezier2To_eq_ok {s s1 : Builder} {dest : Vec2} {absolute : Bool}
    (h : smoothBezier2To s dest absolute = .ok s1) :
    ∃ contour, s.object.contours.getLast? = some contour ∧
      contour.numCurves < checkResize (contour.numCurves + 1) contour.maxCapacity ∧
      s1 = drawn s contour
        { p0 := s.cursor
          as := .bezier2 (smoothControl2 contour s.cursor)
            (if absolute then dest else dest + smoothControl2 contour s.cursor)
          moveToP0 := s.moveToP0 } := by
  cases hl : s.object.contours.getLast? with
  | none => simp [smoothBezier2To, hl] at h
  | some contour =>
    simp only [smoothBezier2To, hl] at h
    generalize hr : appendCurve contour _ = r at h
    cases r with
    | error f => simp at h
    | ok c1 =>
      obtain ⟨rfl, hlt⟩ := appendCurve_eq_ok hr
      injection h with h
      exact ⟨contour, rfl, hlt, h.symm⟩

theorem smoothBezier2To_of_wellFormed (s : Builder) (dest : Vec2) (absolute : Bool)
    {contour : Contour} (hl : s.object.contours.getLast? = some contour)
    (hw : WellFormed contour) :
    smoothBezier2To s dest absolute = .ok (drawn s contour
        { p0 := s.cursor
          as := .bezier2 (smoothControl2 contour s.cursor)
            (if absolute then dest else dest + smoothControl2 contour s.cursor)
          moveToP0 := s.moveToP0 }) := by
  unfold smoothBezier2To
  simp only [hl, appendCurve_of_wellFormed hw]
  rfl

theorem smoothBezier3To_eq_ok {s s1 : Builder} {control1 dest : Vec2} {absolute : Bool}
    (h : smoothBezier3To s control1 dest absolute = .ok s1) :
    ∃ contour, s.object.contours.getLast? = some contour ∧
      contour.numCurves < checkResize (contour.numCurves + 1) contour.maxCapacity ∧
      s1 = drawn s contour
        { p0 := s.cursor
          as := .bezier3 (smoothControl3 contour s.cursor)
            (if absolute then control1 else control1 + smoothControl3 contour s.cursor)
            (if absolute then dest
              else dest + (if absolute then control1
                else control1 + smoothControl3 contour s.cursor))
          moveToP0 := s.moveToP0 } := by
  cases hl : s.object.contours.getLast? with
  | none => simp [smoothBezier3To, hl] at h
  | some contour =>
    simp only [smoothBezier3To, hl] at h
    generalize hr : appendCurve contour _ = r at h
    cases r with
    | error f => simp at h
    | ok c1 =>
      obtain ⟨rfl, hlt⟩ := appendCurve_eq_ok hr
      injection h with h
      exact ⟨contour, rfl, hlt, h.symm⟩

theorem smoothBezier3To_of_wellFormed (s : Builder) (control1 dest : Vec2) (absolute : Bool)
    {contour : Contour} (hl : s.object.contours.getLast? = some contour)
    (hw : WellFormed contour) :
    smoothBezier3To s control1 dest absolute = .ok (drawn s contour
        { p0 := s.cursor
          as := .bezier3 (smoothControl3 contour s.cursor)
            (if absolute then control1 else control1 + smoothControl3 contour s.cursor)
            (if absolute then dest
              else dest + (if absolute then control1
                else control1 + smoothControl3 contour s.cursor))
          moveToP0 := s.moveToP0 }) := by
  unfold smoothBezier3To
  simp only [hl, appendCurve_of_wellFormed hw]
  rfl

theorem run_drawing_eq_ok {m : CMath} {s s1 : Builder} {call : Call}
    (hd : call.isDrawing = true) (h : call.run m s = .ok s1) :
    ∃ contour curve, s.object.contours.getLast? = some contour ∧
      contour.numCurves < checkResize (contour.numCurves + 1) contour.maxCapacity ∧
      curve.p0 = s.cursor ∧ curve.moveToP0 = s.moveToP0 ∧ s1 = drawn s contour curve := by
  cases call with
  | lineTo point absolute =>
    obtain ⟨contour, hl, hlt, rfl⟩ := lineTo_eq_ok h
    exact ⟨contour, _, hl, hlt, rfl, rfl, rfl⟩
  | hzLineTo xPoint absolute =>
    obtain ⟨contour, hl, hlt, rfl⟩ := lineTo_eq_ok h
    exact ⟨contour, _, hl, hlt, rfl, rfl, rfl⟩
  | vtLineTo yPoint absolute =>
    obtain ⟨contour, hl, hlt, rfl⟩ := lineTo_eq_ok h
    exact ⟨contour, _, hl, hlt, rfl, rfl, rfl⟩
  | bezier2To control dest absolute =>
    obtain ⟨contour, hl, hlt, rfl⟩ := bezier2To_eq_ok h
    exact ⟨contour, _, hl, hlt, rfl, rfl, rfl⟩
  | bezier3To control0 control1 dest absolute =>
    obtain ⟨contour, hl, hlt, rfl⟩ := bezier3To_eq_ok h
    exact ⟨contour, _, hl, hlt, rfl, rfl, rfl⟩
  | smoothBezier2To dest absolute =>
    obtain ⟨contour, hl, hlt, rfl⟩ := smoothBezier2To_eq_ok h
    exact ⟨contour, _, hl, hlt, rfl, rfl, rfl⟩
  | smoothBezier3To control1 dest absolute =>
    obtain ⟨contour, hl, hlt, rfl⟩ := smoothBezier3To_eq_ok h
    exact ⟨contour, _, hl, hlt, rfl, rfl, rfl⟩
  | beginContour _ => cases hd
  | closeContour _ _ => cases hd
  | moveTo _ _ => cases hd
  | arcTo _ _ _ _ _ _ => cases hd

theorem run_drawing_of_wellFormed (m : CMath) (s : Builder) {call : Call} {contour : Contour}
    (hd : call.isDrawing = true) (hl : s.object.contours.getLast? = some contour)
    (hw : WellFormed contour) :
    ∃ curve, curve.p0 = s.cursor ∧ curve.moveToP0 = s.moveToP0 ∧
      call.run m s = .ok (drawn s contour curve) := by
  cases call with
  | lineTo point absolute => exact ⟨_, rfl, rfl, lineTo_of_wellFormed s point absolute hl hw⟩
  | hzLineTo xPoint absolute => exact ⟨_, rfl, rfl, lineTo_of_wellFormed s _ true hl hw⟩
  | vtLineTo yPoint absolute => exact ⟨_, rfl, rfl, lineTo_of_wellFormed s _ true hl hw⟩
  | bezier2To control dest absolute =>
    exact ⟨_, rfl, rfl, bezier2To_of_wellFormed s control dest absolute hl hw⟩
  | bezier3To control0 control1 dest absolute =>
    exact ⟨_, rfl, rfl, bezier3To_of_wellFormed s control0 control1 dest absolute hl hw⟩
  | smoothBezier2To dest absolute =>
    exact ⟨_, rfl, rfl, smoothBezier2To_of_wellFormed s dest absolute hl hw⟩
  | smoothBezier3To control1 dest absolute =>
    exact ⟨_, rfl, rfl, smoothBezier3To_of_wellFormed s control1 dest absolute hl hw⟩
  | beginContour _ => cases hd
  | closeContour _ _ => cases hd
  | moveTo _ _ => cases hd
  | arcTo _ _ _ _ _ _ => cases hd

theorem getLast?_setLastContour (o : SvgObject) (c : Contour) :
    (o.setLastContour c).contours.getLast? = some c := by
  simp [SvgObject.setLastContour]

theorem setLastContour_setLastContour (o : SvgObject) (a b : Contour) :
    (o.setLastContour a).setLastContour b = o.setLastContour b := by
  simp [SvgObject.setLastContour]

theorem mem_setLastContour {o : SvgObject} {c x : Contour}
    (h : x ∈ (o.setLastContour c).contours) : x ∈ o.contours ∨ x = c := by
  simp only [SvgObject.setLastContour, List.mem_append, List.mem_singleton] at h
  rcases h with h | h
  · exact Or.inl (List.mem_of_mem_dropLast h)
  · exact Or.inr h

theorem mem_of_getLast? {o : SvgObject} {contour : Contour}
    (h : o.contours.getLast? = some contour) : contour ∈ o.contours :=
  List.mem_of_mem_getLast? h

/-- What a successful `closeContour` leaves: the last contour carries the hole
flag, a closing line is stored when asked for, the cursor is the origin. -/
theorem closeContour_eq_ok {s s1 : Builder} {lineToEndpoint isHole : Bool}
    (h : closeContour s lineToEndpoint isHole = .ok s1) :
    ∃ contour first rest, s.object.contours.getLast? = some contour ∧
      contour.curves = first :: rest ∧
      ((lineToEndpoint = false ∧
          s1 = { object := s.object.setLastContour { contour with isHole := isHole }
                 cursor := ⟨0, 0⟩
                 moveToP0 := s.moveToP0 }) ∨
       (lineToEndpoint = true ∧
          contour.numCurves < checkResize (contour.numCurves + 1) contour.maxCapacity ∧
          s1 = { object := s.object.setLastContour
                    (appended { contour with isHole := isHole }
                      { p0 := s.cursor, as := .line first.p0, moveToP0 := s.moveToP0 })
                 cursor := ⟨0, 0⟩
                 moveToP0 := false })) := by
  cases hl : s.object.contours.getLast? with
  | none => simp [closeContour, hl] at h
  | some contour =>
    obtain ⟨curves, cap, hole⟩ := contour
    simp only [closeContour, hl] at h
    cases curves with
    | nil => simp [Contour.numCurves] at h
    | cons first rest =>
      refine ⟨_, first, rest, rfl, rfl, ?_⟩
      simp only [Contour.numCurves, List.length_cons, Nat.add_one_ne_zero, if_false] at h
      cases lineToEndpoint with
      | false =>
        simp only [Bool.false_eq_true, if_false] at h
        injection h with h
        exact Or.inl ⟨rfl, h.symm⟩
      | true =>
        simp only [if_true] at h
        generalize hr : lineTo _ first.p0 true = r at h
        cases r with
        | error f => simp at h
        | ok s2 =>
          obtain ⟨c2, hl2, hlt, rfl⟩ := lineTo_eq_ok hr
          simp only [getLast?_setLastContour, Option.some.injEq] at hl2
          subst hl2
          injection h with h
          refine Or.inr ⟨rfl, ?_, ?_⟩
          · simpa [Contour.numCurves] using hlt
          · rw [← h]
            simp [drawn, setLastContour_setLastContour]

/-! ## Capacity of the curve buffers -/

theorem capacityInv_setLastContour {o : SvgObject} {c : Contour}
    (hall : ∀ x ∈ o.contours, CapacityInv x) (hc : CapacityInv c) :
    ∀ x ∈ (o.setLastContour c).contours, CapacityInv x := by
  intro x hx
  rcases mem_setLastContour hx with h | h
  · exact hall x h
  · exact h ▸ hc

theorem capacityInv_beginContour {s : Builder} (firstPoint : Vec2)
    (hall : ∀ x ∈ s.object.contours, CapacityInv x) :
    ∀ x ∈ (beginContour s firstPoint).object.contours, CapacityInv x := by
  intro x hx
  simp only [beginContour, List.mem_append, List.mem_singleton] at hx
  rcases hx with h | h
  · exact hall x h
  · subst h
    exact ⟨⟨0, by simp⟩, by simp [Contour.numCurves]⟩

theorem capacityInv_drawn {s : Builder} {contour : Contour} (curve : Curve)
    (hl : s.object.contours.getLast? = some contour)
    (hall : ∀ x ∈ s.object.contours, CapacityInv x) :
    ∀ x ∈ (drawn s contour curve).object.contours, CapacityInv x :=
  capacityInv_setLastContour hall (capacityInv_appended (hall _ (mem_of_getLast? hl)) curve)

theorem capacityInv_isHole {c : Contour} (h : CapacityInv c) (isHole : Bool) :
    CapacityInv { c with isHole := isHole } := h

/-- One call keeps the capacity invariant of every contour. -/
theorem capacityInv_run {m : CMath} {s s1 : Builder} {call : Call}
    (h : call.run m s = .ok s1) (hall : ∀ x ∈ s.object.contours, CapacityInv x) :
    ∀ x ∈ s1.object.contours, CapacityInv x := by
  by_cases hd : call.isDrawing = true
  · obtain ⟨contour, curve, hl, _, _, _, rfl⟩ := run_drawing_eq_ok hd h
    exact capacityInv_drawn curve hl hall
  · cases call with
    | beginContour firstPoint =>
      injection h with h
      subst h
      exact capacityInv_beginContour firstPoint hall
    | moveTo point absolute =>
      injection h with h
      subst h
      unfold moveTo
      split
      · exact capacityInv_beginContour point hall
      · exact hall
    | closeContour lineToEndpoint isHole =>
      obtain ⟨contour, first, rest, hl, _, h1 | h1⟩ := closeContour_eq_ok h
      · obtain ⟨_, rfl⟩ := h1
        exact capacityInv_setLastContour hall
          (capacityInv_isHole (hall _ (mem_of_getLast? hl)) isHole)
      · obtain ⟨_, _, rfl⟩ := h1
        exact capacityInv_setLastContour hall
          (capacityInv_appended (capacityInv_isHole (hall _ (mem_of_getLast? hl)) isHole) _)
    | arcTo radius xAxisRot largeArc sweep dst absolute =>
      simp only [Call.run, arcTo] at h
      split at h
      · injection h with h
        exact h ▸ hall
      · have h2 : lineTo s dst absolute = .ok s1 := by
          split at h <;> exact h
        obtain ⟨contour, hl, _, rfl⟩ := lineTo_eq_ok h2
        exact capacityInv_drawn _ hl hall
    | lineTo _ _ => exact absurd rfl hd
    | hzLineTo _ _ => exact absurd rfl hd
    | vtLineTo _ _ => exact absurd rfl hd
    | bezier2To _ _ _ => exact absurd rfl hd
    | bezier3To _ _ _ _ => exact absurd rfl hd
    | smoothBezier2To _ _ => exact absurd rfl hd
    | smoothBezier3To _ _ _ => exact absurd rfl hd

theorem capacityInv_runCalls {m : CMath} (calls : List Call) :
    ∀ {s s1 : Builder}, runCalls m s calls = .ok s1 →
      (∀ x ∈ s.object.contours, CapacityInv x) → ∀ x ∈ s1.object.contours, CapacityInv x := by
  induction calls with
  | nil =>
    intro s s1 h hall
    injection h with h
    exact h ▸ hall
  | cons call rest ih =>
    intro s s1 h hall
    simp only [runCalls] at h
    cases hc : call.run m s with
    | error f => simp [hc] at h
    | ok s2 =>
      simp only [hc] at h
      exact ih h (capacityInv_run hc hall)

/-- C1: after any sequence of builder calls on a shape from `createDefault`
(whatever the cursor and the pending flag were), every contour has a capacity
of the form `5 * 2 ^ k` that is at least its number of curves. -/
theorem capacity_power_of_two_multiple (m : CMath) (bbox : BBox) (cursor : Vec2) (pending : Bool)
    (calls : List Call) (s : Builder)
    (h : runCalls m { object := createDefault bbox, cursor := cursor, moveToP0 := pending } calls
      = .ok s) :
    ∀ c ∈ s.object.contours,
      (∃ k : ℕ, c.maxCapacity = 5 * 2 ^ k) ∧ c.numCurves ≤ c.maxCapacity := by
  intro c hc
  exact capacityInv_runCalls calls h (by simp [createDefault]) c hc

/-- Witness of C1: the staircase of six lines doubles the buffer once. -/
theorem capacity_power_of_two_multiple_witness :
    runCalls (sampleCMath 0) sampleStart sampleSixLines = .ok sampleSixLinesResult ∧
      ∀ c ∈ sampleSixLinesResult.object.contours,
        (∃ k : ℕ, c.maxCapacity = 5 * 2 ^ k) ∧ c.numCurves ≤ c.maxCapacity :=
  ⟨rfl, capacity_power_of_two_multiple (sampleCMath 0) ⟨⟨0, 0⟩, ⟨0, 0⟩⟩ ⟨0, 0⟩ false
    sampleSixLines sampleSixLinesResult rfl⟩

/-! ## Drawing commands store exactly one curve -/

theorem contours_drawn {s : Builder} {others : List Contour} {contour : Contour}
    (hs : s.object.contours = others ++ [contour]) (c : Contour) :
    (s.object.setLastContour c).contours = others ++ [c] := by
  simp [SvgObject.setLastContour, hs]

theorem getLast?_of_eq_append {s : Builder} {others : List Contour} {contour : Contour}
    (hs : s.object.contours = others ++ [contour]) :
    s.object.contours.getLast? = some contour := by
  simp [hs]

/-- C2: each of `lineTo`, `hzLineTo`, `vtLineTo`, `bezier2To`, `bezier3To`,
`smoothBezier2To`, `smoothBezier3To`, on an object whose last contour has a
usable buffer, succeeds, raises `numCurves` of the last contour by exactly one,
keeps the curves stored there, keeps every other contour and keeps the number
of contours. -/
theorem drawing_command_appends_one_curve (m : CMath) (s : Builder) (call : Call)
    (others : List Contour) (contour : Contour)
    (hd : call.isDrawing = true)
    (hs : s.object.contours = others ++ [contour])
    (hw : WellFormed contour) :
    ∃ s1 contour1, call.run m s = .ok s1 ∧
      s1.object.contours = others ++ [contour1] ∧
      s1.object.numContours = s.object.numContours ∧
      contour1.numCurves = contour.numCurves + 1 ∧
      ∀ i, i < contour.numCurves → contour1.curves[i]? = contour.curves[i]? := by
  obtain ⟨curve, _, _, hrun⟩ := run_drawing_of_wellFormed m s hd (getLast?_of_eq_append hs) hw
  refine ⟨_, appended contour curve, hrun, contours_drawn hs _, ?_, ?_, ?_⟩
  · simp [SvgObject.numContours, drawn, contours_drawn hs, hs]
  · simp [appended, Contour.numCurves]
  · intro i hi
    exact List.getElem?_append_left hi

/-- Witness of C2: a quadratic stored after one line. -/
theorem drawing_command_appends_one_curve_witness :
    (Call.bezier2To ⟨5, 1⟩ ⟨6, 0⟩ true).isDrawing = true ∧
      (sampleBuilder [sampleEmptyContour, sampleLineContour] ⟨4, 0⟩ false).object.contours
        = [sampleEmptyContour] ++ [sampleLineContour] ∧
      WellFormed sampleLineContour ∧
      ∃ s1 contour1,
        (Call.bezier2To ⟨5, 1⟩ ⟨6, 0⟩ true).run (sampleCMath 0)
          (sampleBuilder [sampleEmptyContour, sampleLineContour] ⟨4, 0⟩ false) = .ok s1 ∧
        s1.object.contours = [sampleEmptyContour] ++ [contour1] ∧
        s1.object.numContours
          = (sampleBuilder [sampleEmptyContour, sampleLineContour] ⟨4, 0⟩ false).object.numContours ∧
        contour1.numCurves = sampleLineContour.numCurves + 1 ∧
        ∀ i, i < sampleLineContour.numCurves → contour1.curves[i]? = sampleLineContour.curves[i]? :=
  ⟨rfl, rfl, by decide,
    drawing_command_appends_one_curve (sampleCMath 0) _ _ _ _ rfl rfl (by decide)⟩

/-! ## Deep copy -/

theorem copyCurves_of_wellFormed (srcCurves : List Curve) :
    ∀ dst : Contour, WellFormed dst →
      ∃ d, copyCurves dst srcCurves = .ok d ∧ d.curves = dst.curves ++ srcCurves ∧
        d.isHole = dst.isHole := by
  induction srcCurves with
  | nil =>
    intro dst _
    exact ⟨dst, rfl, by simp, rfl⟩
  | cons srcCurve rest ih =>
    intro dst hw
    obtain ⟨d, hd, hcurves, hhole⟩ := ih (appended dst srcCurve) (wellFormed_appended hw srcCurve)
    refine ⟨d, ?_, ?_, ?_⟩
    · simp only [copyCurves, appendCurve_of_wellFormed hw]
      exact hd
    · simpa [appended] using hcurves
    · simpa [appended] using hhole

theorem copyContours_of_capacity (dsts : List Contour) :
    ∀ srcs : List Contour, dsts.length = srcs.length → (∀ c ∈ dsts, 1 ≤ c.maxCapacity) →
      ∃ r, copyContours dsts srcs = .ok r ∧
        r.map Contour.curves = srcs.map Contour.curves ∧
        r.map Contour.isHole = dsts.map Contour.isHole := by
  induction dsts with
  | nil =>
    intro srcs hlen _
    cases srcs with
    | nil => exact ⟨[], rfl, rfl, rfl⟩
    | cons _ _ => simp at hlen
  | cons dst dsts ih =>
    intro srcs hlen hcap
    cases srcs with
    | nil => simp at hlen
    | cons src srcs =>
      have hw : WellFormed { dst with curves := [] } :=
        ⟨Nat.zero_le _, hcap dst (List.mem_cons_self _ _)⟩
      obtain ⟨d, hd, hcurves, hhole⟩ := copyCurves_of_wellFormed src.curves _ hw
      obtain ⟨r, hr, hrc, hrh⟩ := ih srcs (by simpa using hlen)
        (fun c hc => hcap c (List.mem_cons_of_mem _ hc))
      refine ⟨d :: r, ?_, ?_, ?_⟩
      · simp only [copyContours, hd, hr]
      · simpa [hrc] using hcurves
      · simpa [hrh] using hhole

theorem length_copyReconcile (uninit : Nat → Bool) (dest src : SvgObject) :
    (copyReconcile uninit dest src).length = src.contours.length := by
  unfold copyReconcile SvgObject.numContours
  split
  · simp only [List.length_append, List.length_take, List.length_map, List.length_range']
    omega
  · rename_i h
    simpa using h

theorem capacity_copyReconcile (uninit : Nat → Bool) (dest src : SvgObject)
    (hcap : ∀ c ∈ dest.contours, 1 ≤ c.maxCapacity) :
    ∀ c ∈ copyReconcile uninit dest src, 1 ≤ c.maxCapacity := by
  intro c hc
  unfold copyReconcile at hc
  split at hc
  · simp only [List.mem_append, List.mem_map] at hc
    rcases hc with h | ⟨i, _, rfl⟩
    · exact hcap c (List.mem_of_mem_take h)
    · simp [initialMaxCapacity]
  · exact hcap c hc

/-- C3: when every contour of `dest` has a capacity of at least one, `copy`
succeeds and `dest` ends with as many contours as `src`, contour by contour
with the same curves (same count, and each curve equal in start point, variant
data and flag), whatever the number of contours `dest` started with. -/
theorem copy_curves_exact (m : CMath) (uninit : Nat → Bool) (dest src : SvgObject)
    (hcap : ∀ c ∈ dest.contours, 1 ≤ c.maxCapacity) :
    ∃ d, copy m uninit dest src = .ok d ∧
      d.numContours = src.numContours ∧
      d.contours.map Contour.curves = src.contours.map Contour.curves := by
  obtain ⟨r, hr, hrc, _⟩ := copyContours_of_capacity (copyReconcile uninit dest src) src.contours
    (length_copyReconcile uninit dest src) (capacity_copyReconcile uninit dest src hcap)
  refine ⟨(({ dest with contours := r }.calculateApproximatePerimeter m).calculateBBox m),
    by simp only [copy, hr], ?_, ?_⟩
  · have := congrArg List.length hrc
    simpa [SvgObject.numContours, SvgObject.calculateBBox,
      SvgObject.calculateApproximatePerimeter] using this
  · simpa [SvgObject.calculateBBox, SvgObject.calculateApproximatePerimeter] using hrc

/-- Witness of C3: a destination with more contours than the source. -/
theorem copy_curves_exact_witness :
    (∀ c ∈ sampleCopyDest.contours, 1 ≤ c.maxCapacity) ∧
      ∃ d, copy (sampleCMath 0) (fun _ => false) sampleCopyDest sampleCopySrc = .ok d ∧
        d.numContours = sampleCopySrc.numContours ∧
        d.contours.map Contour.curves = sampleCopySrc.contours.map Contour.curves :=
  ⟨by decide, copy_curves_exact (sampleCMath 0) (fun _ => false) sampleCopyDest sampleCopySrc
    (by decide)⟩

/-- C4, the code at the failing input: `copy` does not write `isHole`; the
destination contour keeps its own flag (`false`) although the source contour is
a hole. -/
theorem copy_leaves_isHole_of_dest :
    (copy (sampleCMath 0) (fun _ => false) sampleCopyDest sampleCopySrc).toOption.map
        (fun d => d.contours.map Contour.isHole) = some [false] ∧
      sampleCopySrc.contours.map Contour.isHole = [true] :=
  ⟨rfl, rfl⟩

/-! ## Cursor commands -/

theorem vec2_add_comm (a b : Vec2) : a + b = b + a := by
  show (⟨a.x + b.x, a.y + b.y⟩ : Vec2) = ⟨b.x + a.x, b.y + a.y⟩
  rw [add_comm a.x, add_comm a.y]

/-- C5: on an object without contour `moveTo` is `beginContour` (one new empty
contour, cursor at the point, nothing pending, whatever `absolute` is); on an
object with a contour it leaves the object alone, puts the cursor at the point
(absolute) or at cursor + point (relative) and sets the pending flag, so that
the curve stored by the next drawing command starts at that cursor and carries
`moveToP0 = true`. -/
theorem moveTo_semantics (m : CMath) (s : Builder) (point : Vec2) (absolute : Bool) :
    (s.object.numContours = 0 →
      moveTo s point absolute = beginContour s point ∧
      (moveTo s point absolute).object.contours
        = [{ curves := [], maxCapacity := 5, isHole := false }] ∧
      (moveTo s point absolute).cursor = point ∧
      (moveTo s point absolute).moveToP0 = false) ∧
    (0 < s.object.numContours →
      (moveTo s point absolute).object = s.object ∧
      (moveTo s point absolute).cursor = (if absolute then point else s.cursor + point) ∧
      (moveTo s point absolute).moveToP0 = true ∧
      ∀ (call : Call) (contour : Contour), call.isDrawing = true →
        s.object.contours.getLast? = some contour → WellFormed contour →
        ∃ curve, call.run m (moveTo s point absolute)
            = .ok (drawn (moveTo s point absolute) contour curve) ∧
          curve.p0 = (if absolute then point else s.cursor + point) ∧
          curve.moveToP0 = true) := by
  constructor
  · intro h0
    have hnil : s.object.contours = [] := List.length_eq_zero.mp h0
    simp [moveTo, h0, beginContour, hnil, initialMaxCapacity]
  · intro hpos
    have hne : ¬ s.object.numContours = 0 := by omega
    refine ⟨by simp [moveTo, hne], by simp [moveTo, hne], by simp [moveTo, hne], ?_⟩
    intro call contour hd hl hw
    have hl1 : (moveTo s point absolute).object.contours.getLast? = some contour := by
      simpa [moveTo, hne] using hl
    obtain ⟨curve, hp0, hflag, hrun⟩ :=
      run_drawing_of_wellFormed m (moveTo s point absolute) hd hl1 hw
    refine ⟨curve, hrun, ?_, ?_⟩
    · rw [hp0]; simp [moveTo, hne]
    · rw [hflag]; simp [moveTo, hne]

/-- Witness of C5: `moveTo` on the default object, and on an object with one
contour. -/
theorem moveTo_semantics_witness :
    (sampleStart.object.numContours = 0 ∧
        moveTo sampleStart ⟨1, 2⟩ false = beginContour sampleStart ⟨1, 2⟩) ∧
      (0 < (sampleBuilder [sampleLineContour] ⟨4, 0⟩ false).object.numContours ∧
        (moveTo (sampleBuilder [sampleLineContour] ⟨4, 0⟩ false) ⟨1, 2⟩ false).moveToP0 = true) :=
  ⟨⟨rfl, ((moveTo_semantics (sampleCMath 0) sampleStart ⟨1, 2⟩ false).1 rfl).1⟩,
    ⟨by decide,
      ((moveTo_semantics (sampleCMath 0) (sampleBuilder [sampleLineContour] ⟨4, 0⟩ false)
        ⟨1, 2⟩ false).2 (by decide)).2.2.1⟩⟩

/-! ## `lineTo` -/

/-- C6: on an object whose last contour has a usable buffer, `lineTo` stores as
last curve of the last contour a line from the cursor to the point (absolute)
or to cursor + point (relative), flagged with the pending flag; afterwards the
cursor is that end point and nothing is pending. -/
theorem lineTo_appends_line (s : Builder) (point : Vec2) (absolute : Bool)
    (others : List Contour) (contour : Contour)
    (hs : s.object.contours = others ++ [contour])
    (hw : WellFormed contour) :
    ∃ s1 contour1, lineTo s point absolute = .ok s1 ∧
      s1.object.contours = others ++ [contour1] ∧
      contour1.curves = contour.curves ++
        [{ p0 := s.cursor
           as := .line (if absolute then point else s.cursor + point)
           moveToP0 := s.moveToP0 }] ∧
      s1.cursor = (if absolute then point else s.cursor + point) ∧
      s1.moveToP0 = false := by
  refine ⟨_, _, lineTo_of_wellFormed s point absolute (getLast?_of_eq_append hs) hw,
    contours_drawn hs _, ?_, ?_, rfl⟩
  · simp [appended, vec2_add_comm s.cursor point]
  · simp [drawn, Curve.endPoint, vec2_add_comm s.cursor point]

/-- Witness of C6: a relative line after the line (0,0)-(4,0). -/
theorem lineTo_appends_line_witness :
    (sampleBuilder [sampleLineContour] ⟨4, 0⟩ true).object.contours = [] ++ [sampleLineContour] ∧
      WellFormed sampleLineContour ∧
      ∃ s1 contour1,
        lineTo (sampleBuilder [sampleLineContour] ⟨4, 0⟩ true) ⟨1, 2⟩ false = .ok s1 ∧
        s1.object.contours = [] ++ [contour1] ∧
        contour1.curves = sampleLineContour.curves ++
          [{ p0 := (sampleBuilder [sampleLineContour] ⟨4, 0⟩ true).cursor
             as := .line (if false then ⟨1, 2⟩
               else (sampleBuilder [sampleLineContour] ⟨4, 0⟩ true).cursor + ⟨1, 2⟩)
             moveToP0 := (sampleBuilder [sampleLineContour] ⟨4, 0⟩ true).moveToP0 }] ∧
        s1.cursor = (if false then ⟨1, 2⟩
          else (sampleBuilder [sampleLineContour] ⟨4, 0⟩ true).cursor + ⟨1, 2⟩) ∧
        s1.moveToP0 = false :=
  ⟨rfl, by decide,
    lineTo_appends_line (sampleBuilder [sampleLineContour] ⟨4, 0⟩ true) ⟨1, 2⟩ false []
      sampleLineContour rfl (by decide)⟩

/-! ## `bezier2To` and `bezier3To` -/

theorem vec2_add_mk (a b c d : ℚ) : (⟨a, b⟩ : Vec2) + ⟨c, d⟩ = ⟨a + c, b + d⟩ := rfl

theorem vec2_sub_mk (a b c d : ℚ) : (⟨a, b⟩ : Vec2) - ⟨c, d⟩ = ⟨a - c, b - d⟩ := rfl

theorem vec2_mul_mk (k a b : ℚ) : k * (⟨a, b⟩ : Vec2) = ⟨k * a, k * b⟩ := rfl

/-- C7 as stated fails: relative `bezier3To (1,0) (2,0) (3,0)` with the cursor
at (1,1) stores the control point (4,1) and the end point (7,1), not
cursor + control1 = (3,1) and cursor + dest = (4,1). -/
theorem bezier3To_relative_not_from_start_cursor :
    bezier3To sampleAtOneOne ⟨1, 0⟩ ⟨2, 0⟩ ⟨3, 0⟩ false = .ok sampleRelativeCubicResult ∧
      (⟨4, 1⟩ : Vec2) ≠ sampleAtOneOne.cursor + ⟨2, 0⟩ ∧
      (⟨7, 1⟩ : Vec2) ≠ sampleAtOneOne.cursor + ⟨3, 0⟩ := by
  refine ⟨?_, ?_, ?_⟩
  · simp [bezier3To, sampleAtOneOne, sampleRelativeCubicResult, sampleBuilder,
      sampleEmptyContour, appendCurve, checkResize, Contour.numCurves, initialMaxCapacity,
      SvgObject.setLastContour, vec2_add_mk]
    norm_num
  · simp [sampleAtOneOne, sampleBuilder, vec2_add_mk]
    norm_num
  · simp [sampleAtOneOne, sampleBuilder, vec2_add_mk]
    norm_num

/-- C7 amended: `bezier2To` and `bezier3To` store a curve whose first control
point is the first argument resolved against the cursor before the call and
whose every later point is resolved against the point before it (the argument
itself when absolute, that point plus the argument when relative); afterwards
the cursor is the end point of the curve. -/
theorem bezier_points_resolved_in_chain (s : Builder) (control0 control1 dest : Vec2)
    (absolute : Bool) (others : List Contour) (contour : Contour)
    (hs : s.object.contours = others ++ [contour])
    (hw : WellFormed contour) :
    (∃ s1 contour1, bezier2To s control0 dest absolute = .ok s1 ∧
      s1.object.contours = others ++ [contour1] ∧
      contour1.curves = contour.curves ++
        [{ p0 := s.cursor
           as := .bezier2 (resolve absolute s.cursor control0)
             (resolve absolute (resolve absolute s.cursor control0) dest)
           moveToP0 := s.moveToP0 }] ∧
      s1.cursor = resolve absolute (resolve absolute s.cursor control0) dest) ∧
    (∃ s1 contour1, bezier3To s control0 control1 dest absolute = .ok s1 ∧
      s1.object.contours = others ++ [contour1] ∧
      contour1.curves = contour.curves ++
        [{ p0 := s.cursor
           as := .bezier3 (resolve absolute s.cursor control0)
             (resolve absolute (resolve absolute s.cursor control0) control1)
             (resolve absolute
               (resolve absolute (resolve absolute s.cursor control0) control1) dest)
           moveToP0 := s.moveToP0 }] ∧
      s1.cursor = resolve absolute
        (resolve absolute (resolve absolute s.cursor control0) control1) dest) := by
  have hl := getLast?_of_eq_append hs
  constructor
  · refine ⟨_, _, bezier2To_of_wellFormed s control0 dest absolute hl hw,
      contours_drawn hs _, ?_, ?_⟩
    · cases absolute <;> simp [appended, resolve, vec2_add_comm]
    · cases absolute <;> simp [drawn, Curve.endPoint, resolve, vec2_add_comm]
  · refine ⟨_, _, bezier3To_of_wellFormed s control0 control1 dest absolute hl hw,
      contours_drawn hs _, ?_, ?_⟩
    · cases absolute <;> simp [appended, resolve, vec2_add_comm]
    · cases absolute <;> simp [drawn, Curve.endPoint, resolve, vec2_add_comm]

/-- Witness of C7 amended: the relative cubic of the counterexample. -/
theorem bezier_points_resolved_in_chain_witness :
    sampleAtOneOne.object.contours = [] ++ [sampleEmptyContour] ∧
      WellFormed sampleEmptyContour ∧
      ∃ s1 contour1, bezier3To sampleAtOneOne ⟨1, 0⟩ ⟨2, 0⟩ ⟨3, 0⟩ false = .ok s1 ∧
        s1.object.contours = [] ++ [contour1] ∧
        contour1.curves = sampleEmptyContour.curves ++
          [{ p0 := sampleAtOneOne.cursor
             as := .bezier3 (resolve false sampleAtOneOne.cursor ⟨1, 0⟩)
               (resolve false (resolve false sampleAtOneOne.cursor ⟨1, 0⟩) ⟨2, 0⟩)
               (resolve false
                 (resolve false (resolve false sampleAtOneOne.cursor ⟨1, 0⟩) ⟨2, 0⟩) ⟨3, 0⟩)
             moveToP0 := sampleAtOneOne.moveToP0 }] ∧
        s1.cursor = resolve false
          (resolve false (resolve false sampleAtOneOne.cursor ⟨1, 0⟩) ⟨2, 0⟩) ⟨3, 0⟩ :=
  ⟨rfl, by decide,
    (bezier_points_resolved_in_chain sampleAtOneOne ⟨1, 0⟩ ⟨2, 0⟩ ⟨3, 0⟩ false []
      sampleEmptyContour rfl (by decide)).2⟩

/-! ## Smooth curves -/

theorem reflect_eq (c cursor : Vec2) :
    ((-1 : ℚ) * (c - cursor)) + cursor = (2 : ℚ) * cursor - c := by
  obtain ⟨cx, cy⟩ := c
  obtain ⟨ux, uy⟩ := cursor
  simp only [vec2_sub_mk, vec2_mul_mk, vec2_add_mk, Vec2.mk.injEq]
  constructor <;> ring

theorem smoothControl3_cubic {contour : Contour} {prev : Curve} {a c b : Vec2} (cursor : Vec2)
    (hl : contour.curves.getLast? = some prev) (hp : prev.as = .bezier3 a c b) :
    smoothControl3 contour cursor = (2 : ℚ) * cursor - c := by
  simp [smoothControl3, hl, hp, reflect_eq]

theorem smoothControl3_other {contour : Contour} (cursor : Vec2)
    (h : ∀ prev, contour.curves.getLast? = some prev → prev.type ≠ .Bezier3) :
    smoothControl3 contour cursor = cursor := by
  unfold smoothControl3
  cases hl : contour.curves.getLast? with
  | none => rfl
  | some prev =>
    have := h prev hl
    obtain ⟨p0, dat, flag⟩ := prev
    cases dat <;> simp_all [Curve.type]

theorem smoothControl2_quadratic {contour : Contour} {prev : Curve} {c b : Vec2} (cursor : Vec2)
    (hl : contour.curves.getLast? = some prev) (hp : prev.as = .bezier2 c b) :
    smoothControl2 contour cursor = (2 : ℚ) * cursor - c := by
  simp [smoothControl2, hl, hp, reflect_eq]

theorem smoothControl2_other {contour : Contour} (cursor : Vec2)
    (h : ∀ prev, contour.curves.getLast? = some prev → prev.type ≠ .Bezier2) :
    smoothControl2 contour cursor = cursor := by
  unfold smoothControl2
  cases hl : contour.curves.getLast? with
  | none => rfl
  | some prev =>
    have := h prev hl
    obtain ⟨p0, dat, flag⟩ := prev
    cases dat <;> simp_all [Curve.type]

/-- C8: `smoothBezier3To` stores a cubic whose first control point is
`2 * cursor - c` when the curve stored last in the contour is a cubic with
second control point `c`, and is the cursor when the contour is empty or that
curve is not a cubic; `smoothBezier2To` stores a quadratic whose control point
is `2 * cursor - c` when the curve stored last is a quadratic with control
point `c`, and is the cursor when the contour is empty or that curve is not a
quadratic. -/
theorem smooth_first_control_point (s : Builder) (control1 dest : Vec2) (absolute : Bool)
    (others : List Contour) (contour : Contour)
    (hs : s.object.contours = others ++ [contour])
    (hw : WellFormed contour) :
    (∃ s1 contour1 p1 p2 p3, smoothBezier3To s control1 dest absolute = .ok s1 ∧
      s1.object.contours = others ++ [contour1] ∧
      contour1.curves = contour.curves ++
        [{ p0 := s.cursor, as := .bezier3 p1 p2 p3, moveToP0 := s.moveToP0 }] ∧
      (∀ prev a c b, contour.curves.getLast? = some prev → prev.as = .bezier3 a c b →
        p1 = (2 : ℚ) * s.cursor - c) ∧
      (contour.curves = [] → p1 = s.cursor) ∧
      (∀ prev, contour.curves.getLast? = some prev → prev.type ≠ .Bezier3 → p1 = s.cursor)) ∧
    (∃ s1 contour1 p1 p2, smoothBezier2To s dest absolute = .ok s1 ∧
      s1.object.contours = others ++ [contour1] ∧
      contour1.curves = contour.curves ++
        [{ p0 := s.cursor, as := .bezier2 p1 p2, moveToP0 := s.moveToP0 }] ∧
      (∀ prev c b, contour.curves.getLast? = some prev → prev.as = .bezier2 c b →
        p1 = (2 : ℚ) * s.cursor - c) ∧
      (contour.curves = [] → p1 = s.cursor) ∧
      (∀ prev, contour.curves.getLast? = some prev → prev.type ≠ .Bezier2 → p1 = s.cursor)) := by
  have hl := getLast?_of_eq_append hs
  constructor
  · refine ⟨_, _, smoothControl3 contour s.cursor, _, _,
      smoothBezier3To_of_wellFormed s control1 dest absolute hl hw, contours_drawn hs _, rfl,
      ?_, ?_, ?_⟩
    · intro prev a c b hp has
      exact smoothControl3_cubic s.cursor hp has
    · intro hnil
      exact smoothControl3_other s.cursor (by simp [hnil])
    · intro prev hp hty
      exact smoothControl3_other s.cursor
        (fun q hq => by rw [hp] at hq; injection hq with hq; exact hq ▸ hty)
  · refine ⟨_, _, smoothControl2 contour s.cursor, _,
      smoothBezier2To_of_wellFormed s dest absolute hl hw, contours_drawn hs _, rfl,
      ?_, ?_, ?_⟩
    · intro prev c b hp has
      exact smoothControl2_quadratic s.cursor hp has
    · intro hnil
      exact smoothControl2_other s.cursor (by simp [hnil])
    · intro prev hp hty
      exact smoothControl2_other s.cursor
        (fun q hq => by rw [hp] at hq; injection hq with hq; exact hq ▸ hty)

/-- Witness of C8, with the example of the claim: after a cubic whose second
control point is (8,0), with the cursor at (5,0), `smoothBezier3To` stores the
first control point (2,0). -/
theorem smooth_first_control_point_witness :
    sampleAfterCubic.object.contours = [] ++ [sampleCubicContour] ∧
      WellFormed sampleCubicContour ∧
      smoothBezier3To sampleAfterCubic ⟨3, -2⟩ ⟨1, 0⟩ true = .ok sampleSmoothResult ∧
      ∃ s1 contour1 p1 p2 p3,
        smoothBezier3To sampleAfterCubic ⟨3, -2⟩ ⟨1, 0⟩ true = .ok s1 ∧
        s1.object.contours = [] ++ [contour1] ∧
        contour1.curves = sampleCubicContour.curves ++
          [{ p0 := sampleAfterCubic.cursor, as := .bezier3 p1 p2 p3
             moveToP0 := sampleAfterCubic.moveToP0 }] ∧
        (∀ prev a c b, sampleCubicContour.curves.getLast? = some prev →
          prev.as = .bezier3 a c b → p1 = (2 : ℚ) * sampleAfterCubic.cursor - c) ∧
        (sampleCubicContour.curves = [] → p1 = sampleAfterCubic.cursor) ∧
        (∀ prev, sampleCubicContour.curves.getLast? = some prev → prev.type ≠ .Bezier3 →
          p1 = sampleAfterCubic.cursor) := by
  refine ⟨rfl, by decide, ?_,
    (smooth_first_control_point sampleAfterCubic ⟨3, -2⟩ ⟨1, 0⟩ true [] sampleCubicContour rfl
      (by decide)).1⟩
  simp [smoothBezier3To, smoothControl3, sampleAfterCubic, sampleSmoothResult, sampleBuilder,
    sampleCubicContour, appendCurve, checkResize, Contour.numCurves, initialMaxCapacity,
    SvgObject.setLastContour, vec2_add_mk, vec2_sub_mk, vec2_mul_mk]
  norm_num

/-! ## `arcTo` -/

/-- What `arcTo` does: nothing when `compare(cursor, dst)` holds for the
argument `dst` as passed, `lineTo(object, dst, absolute)` otherwise. -/
theorem arcTo_eq (m : CMath) (s : Builder) (radius : Vec2) (xAxisRot : ℚ)
    (largeArc sweep : Bool) (dst : Vec2) (absolute : Bool) :
    arcTo m s radius xAxisRot largeArc sweep dst absolute
      = if m.compare s.cursor dst then .ok s else lineTo s dst absolute := by
  unfold arcTo
  split
  · rfl
  · split <;> rfl

/-- C9, the code at the failing input: with the cursor at (5,5), relative
`arcTo` with `dst = (5,5)` stores nothing, although its destination point
cursor + dst = (10,10) is not within the tolerance of the cursor and
`lineTo(object, dst, false)` stores the line (5,5)-(10,10). -/
theorem arcTo_relative_compares_offset :
    arcTo (sampleCMath sampleEps) sampleAtFiveFive ⟨1, 1⟩ 0 false false ⟨5, 5⟩ false
        = .ok sampleAtFiveFive ∧
      (sampleCMath sampleEps).compare sampleAtFiveFive.cursor
        (sampleAtFiveFive.cursor + ⟨5, 5⟩) = false ∧
      lineTo sampleAtFiveFive ⟨5, 5⟩ false = .ok sampleLineFromFiveFive := by
  refine ⟨?_, ?_, ?_⟩
  · rw [arcTo_eq, if_pos]
    simp [sampleCMath, sampleAtFiveFive, sampleBuilder, sampleEps]
  · simp [sampleCMath, sampleAtFiveFive, sampleBuilder, sampleEps, vec2_add_mk]
    norm_num [abs_le]
  · simp [lineTo, sampleAtFiveFive, sampleLineFromFiveFive, sampleBuilder, sampleEmptyContour,
      appendCurve, checkResize, Contour.numCurves, initialMaxCapacity,
      SvgObject.setLastContour, vec2_add_mk]
    norm_num

/-! ## `closeContour` -/

/-- C10: on an object whose last contour holds at least one curve,
`closeContour` sets the hole flag of that contour and keeps the other contours;
with `lineToEndpoint` it stores exactly one more curve, a line from the cursor
to the start point of the first curve of the contour (so the contour ends where
it starts), without it the curves stay as they are; the cursor ends at (0,0). -/
theorem closeContour_semantics (s : Builder) (lineToEndpoint isHole : Bool)
    (others : List Contour) (contour : Contour) (first : Curve) (rest : List Curve)
    (hs : s.object.contours = others ++ [contour])
    (hc : contour.curves = first :: rest)
    (hw : lineToEndpoint = true → WellFormed contour) :
    ∃ s1 contour1, closeContour s lineToEndpoint isHole = .ok s1 ∧
      s1.object.contours = others ++ [contour1] ∧
      contour1.isHole = isHole ∧
      s1.cursor = ⟨0, 0⟩ ∧
      (lineToEndpoint = true →
        contour1.curves = contour.curves ++
          [{ p0 := s.cursor, as := .line first.p0, moveToP0 := s.moveToP0 }] ∧
        ∃ last head, contour1.curves.getLast? = some last ∧ contour1.curves.head? = some head ∧
          last.endPoint = head.p0) ∧
      (lineToEndpoint = false → contour1.curves = contour.curves) := by
  obtain ⟨curves, cap, hole⟩ := contour
  simp only at hc
  subst hc
  have hl := getLast?_of_eq_append hs
  have hn : Contour.numCurves ⟨first :: rest, cap, hole⟩ ≠ 0 := by simp [Contour.numCurves]
  cases lineToEndpoint with
  | false =>
    refine ⟨{ object := s.object.setLastContour (⟨first :: rest, cap, isHole⟩ : Contour)
              cursor := ⟨0, 0⟩
              moveToP0 := s.moveToP0 },
      (⟨first :: rest, cap, isHole⟩ : Contour), ?_, contours_drawn hs _, rfl, rfl, ?_, ?_⟩
    · simp only [closeContour, hl, hn, if_false, Bool.false_eq_true]
    · intro h; cases h
    · intro _; rfl
  | true =>
    have hw1 : WellFormed (⟨first :: rest, cap, isHole⟩ : Contour) := hw rfl
    refine ⟨{ object := s.object.setLastContour (appended (⟨first :: rest, cap, isHole⟩ : Contour)
                { p0 := s.cursor, as := .line first.p0, moveToP0 := s.moveToP0 })
              cursor := ⟨0, 0⟩
              moveToP0 := false },
      appended (⟨first :: rest, cap, isHole⟩ : Contour)
        { p0 := s.cursor, as := .line first.p0, moveToP0 := s.moveToP0 }, ?_,
      contours_drawn hs _, rfl, rfl, ?_, ?_⟩
    · simp only [closeContour, hl, hn, if_false, if_true]
      rw [lineTo_of_wellFormed _ first.p0 true (getLast?_setLastContour _ _) hw1]
      simp [drawn, setLastContour_setLastContour]
    · intro _
      refine ⟨rfl, { p0 := s.cursor, as := .line first.p0, moveToP0 := s.moveToP0 }, first,
        ?_, ?_, ?_⟩
      · exact List.getLast?_concat (first :: rest)
      · simp [appended]
      · rfl
    · intro h; cases h

/-- Witness of C10: closing the contour (0,0)-(4,0) from the cursor (4,3) with a
line back to (0,0). -/
theorem closeContour_semantics_witness :
    sampleOpenContour.object.contours = [sampleEmptyContour] ++ [sampleLineContour] ∧
      sampleLineContour.curves = ⟨⟨0, 0⟩, .line ⟨4, 0⟩, false⟩ :: [] ∧
      ((true : Bool) = true → WellFormed sampleLineContour) ∧
      ∃ s1 contour1, closeContour sampleOpenContour true true = .ok s1 ∧
        s1.object.contours = [sampleEmptyContour] ++ [contour1] ∧
        contour1.isHole = true ∧
        s1.cursor = ⟨0, 0⟩ ∧
        ((true : Bool) = true →
          contour1.curves = sampleLineContour.curves ++
            [{ p0 := sampleOpenContour.cursor
               as := .line (⟨⟨0, 0⟩, .line ⟨4, 0⟩, false⟩ : Curve).p0
               moveToP0 := sampleOpenContour.moveToP0 }] ∧
          ∃ last head, contour1.curves.getLast? = some last ∧
            contour1.curves.head? = some head ∧ last.endPoint = head.p0) ∧
        ((true : Bool) = false → contour1.curves = sampleLineContour.curves) :=
  ⟨rfl, rfl, fun _ => by decide,
    closeContour_semantics sampleOpenContour true true [sampleEmptyContour] sampleLineContour
      ⟨⟨0, 0⟩, .line ⟨4, 0⟩, false⟩ [] rfl rfl (fun _ => by decide)⟩

/-! ## No write beyond a buffer -/

theorem closeContour_ne_bufferOverflow {s : Builder} (lineToEndpoint isHole : Bool)
    (hall : ∀ x ∈ s.object.contours, CapacityInv x) :
    closeContour s lineToEndpoint isHole ≠ .error .bufferOverflow := by
  cases hl : s.object.contours.getLast? with
  | none => simp [closeContour, hl]
  | some contour =>
    have hw := (hall _ (mem_of_getLast? hl)).wellFormed
    obtain ⟨curves, cap, hole⟩ := contour
    cases curves with
    | nil => simp [closeContour, hl, Contour.numCurves]
    | cons first rest =>
      cases lineToEndpoint with
      | false => simp [closeContour, hl, Contour.numCurves]
      | true =>
        have hw1 : WellFormed ⟨first :: rest, cap, isHole⟩ := hw
        simp only [closeContour, hl, Contour.numCurves, List.length_cons, Nat.add_one_ne_zero,
          if_false, if_true]
        rw [lineTo_of_wellFormed _ first.p0 true (getLast?_setLastContour _ _) hw1]
        simp

/-- From a state whose contours satisfy the capacity invariant, no call writes
beyond a curve buffer. -/
theorem run_ne_bufferOverflow {m : CMath} {s : Builder} (call : Call)
    (hall : ∀ x ∈ s.object.contours, CapacityInv x) :
    call.run m s ≠ .error .bufferOverflow := by
  by_cases hd : call.isDrawing = true
  · cases hl : s.object.contours.getLast? with
    | none =>
      cases call <;>
        simp [Call.run, Call.isDrawing, lineTo, hzLineTo, vtLineTo, bezier2To, bezier3To,
          smoothBezier2To, smoothBezier3To, hl] at hd ⊢
    | some contour =>
      obtain ⟨curve, _, _, hrun⟩ :=
        run_drawing_of_wellFormed m s hd hl (hall _ (mem_of_getLast? hl)).wellFormed
      simp [hrun]
  · cases call with
    | beginContour firstPoint => simp [Call.run]
    | moveTo point absolute => simp [Call.run]
    | closeContour lineToEndpoint isHole =>
      exact closeContour_ne_bufferOverflow lineToEndpoint isHole hall
    | arcTo radius xAxisRot largeArc sweep dst absolute =>
      simp only [Call.run, arcTo_eq]
      split
      · simp
      · cases hl : s.object.contours.getLast? with
        | none => simp [lineTo, hl]
        | some contour =>
          rw [lineTo_of_wellFormed s dst absolute hl (hall _ (mem_of_getLast? hl)).wellFormed]
          simp
    | lineTo _ _ => exact absurd rfl hd
    | hzLineTo _ _ => exact absurd rfl hd
    | vtLineTo _ _ => exact absurd rfl hd
    | bezier2To _ _ _ => exact absurd rfl hd
    | bezier3To _ _ _ _ => exact absurd rfl hd
    | smoothBezier2To _ _ => exact absurd rfl hd
    | smoothBezier3To _ _ _ => exact absurd rfl hd

/-- A run from a state whose contours satisfy the capacity invariant ends in a
state or at a failed assertion, never at a write beyond a curve buffer. -/
theorem runCalls_ne_bufferOverflow {m : CMath} (calls : List Call) :
    ∀ {s : Builder}, (∀ x ∈ s.object.contours, CapacityInv x) →
      runCalls m s calls ≠ .error .bufferOverflow := by
  induction calls with
  | nil => intro s _; simp [runCalls]
  | cons call rest ih =>
    intro s hall
    simp only [runCalls]
    cases hc : call.run m s with
    | error f =>
      have := run_ne_bufferOverflow (m := m) call hall
      rw [hc] at this
      simpa using this
    | ok s2 => exact ih (capacityInv_run hc hall)

/-! ## Failed assertions -/

theorem numContours_eq_zero_iff (s : Builder) :
    s.object.numContours = 0 ↔ s.object.contours.getLast? = none := by
  simp [SvgObject.numContours]

theorem numContours_pos_of_getLast? {s : Builder} {contour : Contour}
    (hl : s.object.contours.getLast? = some contour) : 0 < s.object.numContours := by
  have h : s.object.contours ≠ [] := by
    intro h
    simp [h] at hl
  exact List.length_pos.mpr h

theorem appendCurve_eq_error {contour : Contour} {curve : Curve} {f : Fault}
    (h : appendCurve contour curve = .error f) : f = .bufferOverflow := by
  unfold appendCurve at h
  simp only at h
  split at h
  · cases h
  · injection h with h
    exact h.symm

/-- The statement-level `lineTo` on an object without contour: the assertion
fails and nothing has been written. -/
theorem Stmt.lineTo_none {s : Builder} (point : Vec2) (absolute : Bool)
    (hl : s.object.contours.getLast? = none) :
    Stmt.lineTo s point absolute = { state := s, fault := some .assertion } := by
  have h0 := (numContours_eq_zero_iff s).mpr hl
  simp [Stmt.lineTo, Stmt.loggerAssert, Stopped.andThen, h0]

/-- The statement-level `lineTo` on an object with a contour. -/
theorem Stmt.lineTo_some {s : Builder} {contour : Contour} (point : Vec2) (absolute : Bool)
    (hl : s.object.contours.getLast? = some contour) :
    Stmt.lineTo s point absolute =
      match appendCurve contour
          { p0 := s.cursor, as := .line (if absolute then point else point + s.cursor),
            moveToP0 := s.moveToP0 } with
      | .error f => { state := s, fault := some f }
      | .ok contour1 =>
        { state := { object := s.object.setLastContour contour1
                     cursor := if absolute then point else point + s.cursor
                     moveToP0 := false }
          fault := none } := by
  have hpos := numContours_pos_of_getLast? hl
  simp only [Stmt.lineTo, Stmt.loggerAssert, Stopped.andThen, hpos, gt_iff_lt, decide_True,
    if_true, Stmt.store, hl]
  cases appendCurve contour _ <;> rfl

theorem Stmt.lineTo_result (s : Builder) (point : Vec2) (absolute : Bool) :
    (Stmt.lineTo s point absolute).result = Svg.lineTo s point absolute := by
  cases hl : s.object.contours.getLast? with
  | none => simp [Stmt.lineTo_none _ _ hl, Stopped.result, Svg.lineTo, hl]
  | some contour =>
    simp only [Stmt.lineTo_some _ _ hl, Svg.lineTo, hl]
    cases appendCurve contour _ <;> rfl

theorem Stmt.lineTo_fault_assertion_iff (s : Builder) (point : Vec2) (absolute : Bool) :
    (Stmt.lineTo s point absolute).fault = some .assertion ↔ s.object.numContours = 0 := by
  rw [numContours_eq_zero_iff]
  cases hl : s.object.contours.getLast? with
  | none => simp [Stmt.lineTo_none _ _ hl]
  | some contour =>
    simp only [Stmt.lineTo_some _ _ hl]
    cases h : appendCurve contour _ with
    | ok c1 => simp
    | error f =>
      simp [appendCurve_eq_error h]

theorem Stmt.bezier2To_none {s : Builder} (control dest : Vec2) (absolute : Bool)
    (hl : s.object.contours.getLast? = none) :
    Stmt.bezier2To s control dest absolute = { state := s, fault := some .assertion } := by
  have h0 := (numContours_eq_zero_iff s).mpr hl
  simp [Stmt.bezier2To, Stmt.loggerAssert, Stopped.andThen, h0]

theorem Stmt.bezier2To_some {s : Builder} {contour : Contour} (control dest : Vec2) (absolute : Bool)
    (hl : s.object.contours.getLast? = some contour) :
    Stmt.bezier2To s control dest absolute =
      match appendCurve contour
          { p0 := s.cursor
            as := .bezier2 (if absolute then control else control + s.cursor)
              (if absolute then dest
                else dest + (if absolute then control else control + s.cursor))
            moveToP0 := s.moveToP0 } with
      | .error f => { state := s, fault := some f }
      | .ok contour1 =>
        { state := { object := s.object.setLastContour contour1
                     cursor := if absolute then dest
                       else dest + (if absolute then control else control + s.cursor)
                     moveToP0 := false }
          fault := none } := by
  have hpos := numContours_pos_of_getLast? hl
  simp only [Stmt.bezier2To, Stmt.loggerAssert, Stopped.andThen, hpos, gt_iff_lt, decide_True,
    if_true, Stmt.store, hl]
  cases appendCurve contour _ <;> rfl

theorem Stmt.bezier2To_result (s : Builder) (control dest : Vec2) (absolute : Bool) :
    (Stmt.bezier2To s control dest absolute).result = Svg.bezier2To s control dest absolute := by
  cases hl : s.object.contours.getLast? with
  | none => simp [Stmt.bezier2To_none _ _ _ hl, Stopped.result, Svg.bezier2To, hl]
  | some contour =>
    simp only [Stmt.bezier2To_some _ _ _ hl, Svg.bezier2To, hl]
    cases appendCurve contour _ <;> rfl

theorem Stmt.bezier2To_fault_assertion_iff (s : Builder) (control dest : Vec2) (absolute : Bool) :
    (Stmt.bezier2To s control dest absolute).fault = some .assertion ↔ s.object.numContours = 0 := by
  rw [numContours_eq_zero_iff]
  cases hl : s.object.contours.getLast? with
  | none => simp [Stmt.bezier2To_none _ _ _ hl]
  | some contour =>
    simp only [Stmt.bezier2To_some _ _ _ hl]
    cases h : appendCurve contour _ with
    | ok c1 => simp
    | error f => simp [appendCurve_eq_error h]

theorem Stmt.bezier3To_none {s : Builder} (control0 control1 dest : Vec2) (absolute : Bool)
    (hl : s.object.contours.getLast? = none) :
    Stmt.bezier3To s control0 control1 dest absolute = { state := s, fault := some .assertion } := by
  have h0 := (numContours_eq_zero_iff s).mpr hl
  simp [Stmt.bezier3To, Stmt.loggerAssert, Stopped.andThen, h0]

theorem Stmt.bezier3To_some {s : Builder} {contour : Contour} (control0 control1 dest : Vec2) (absolute : Bool)
    (hl : s.object.contours.getLast? = some contour) :
    Stmt.bezier3To s control0 control1 dest absolute =
      match appendCurve contour
          { p0 := s.cursor
            as := .bezier3 (if absolute then control0 else control0 + s.cursor)
              (if absolute then control1
                else control1 + (if absolute then control0 else control0 + s.cursor))
              (if absolute then dest
                else dest + (if absolute then control1
                  else control1 + (if absolute then control0 else control0 + s.cursor)))
            moveToP0 := s.moveToP0 } with
      | .error f => { state := s, fault := some f }
      | .ok contour1 =>
        { state := { object := s.object.setLastContour contour1
                     cursor := if absolute then dest
                       else dest + (if absolute then control1
                         else control1 + (if absolute then control0 else control0 + s.cursor))
                     moveToP0 := false }
          fault := none } := by
  have hpos := numContours_pos_of_getLast? hl
  simp only [Stmt.bezier3To, Stmt.loggerAssert, Stopped.andThen, hpos, gt_iff_lt, decide_True,
    if_true, Stmt.store, hl]
  cases appendCurve contour _ <;> rfl

theorem Stmt.bezier3To_result (s : Builder) (control0 control1 dest : Vec2) (absolute : Bool) :
    (Stmt.bezier3To s control0 control1 dest absolute).result = Svg.bezier3To s control0 control1 dest absolute := by
  cases hl : s.object.contours.getLast? with
  | none => simp [Stmt.bezier3To_none _ _ _ _ hl, Stopped.result, Svg.bezier3To, hl]
  | some contour =>
    simp only [Stmt.bezier3To_some _ _ _ _ hl, Svg.bezier3To, hl]
    cases appendCurve contour _ <;> rfl

theorem Stmt.bezier3To_fault_assertion_iff (s : Builder) (control0 control1 dest : Vec2) (absolute : Bool) :
    (Stmt.bezier3To s control0 control1 dest absolute).fault = some .assertion ↔ s.object.numContours = 0 := by
  rw [numContours_eq_zero_iff]
  cases hl : s.object.contours.getLast? with
  | none => simp [Stmt.bezier3To_none _ _ _ _ hl]
  | some contour =>
    simp only [Stmt.bezier3To_some _ _ _ _ hl]
    cases h : appendCurve contour _ with
    | ok c1 => simp
    | error f => simp [appendCurve_eq_error h]

theorem Stmt.smoothBezier2To_none {s : Builder} (dest : Vec2) (absolute : Bool)
    (hl : s.object.contours.getLast? = none) :
    Stmt.smoothBezier2To s dest absolute = { state := s, fault := some .assertion } := by
  have h0 := (numContours_eq_zero_iff s).mpr hl
  simp [Stmt.smoothBezier2To, Stmt.loggerAssert, Stopped.andThen, h0]

theorem Stmt.smoothBezier2To_some {s : Builder} {contour : Contour} (dest : Vec2) (absolute : Bool)
    (hl : s.object.contours.getLast? = some contour) :
    Stmt.smoothBezier2To s dest absolute =
      match appendCurve contour
          { p0 := s.cursor
            as := .bezier2 (smoothControl2 contour s.cursor)
              (if absolute then dest else dest + smoothControl2 contour s.cursor)
            moveToP0 := s.moveToP0 } with
      | .error f => { state := s, fault := some f }
      | .ok contour1 =>
        { state := { object := s.object.setLastContour contour1
                     cursor := if absolute then dest else dest + smoothControl2 contour s.cursor
                     moveToP0 := false }
          fault := none } := by
  have hpos := numContours_pos_of_getLast? hl
  simp only [Stmt.smoothBezier2To, Stmt.loggerAssert, Stopped.andThen, hpos, gt_iff_lt, decide_True,
    if_true, Stmt.store, hl]
  cases appendCurve contour _ <;> rfl

theorem Stmt.smoothBezier2To_result (s : Builder) (dest : Vec2) (absolute : Bool) :
    (Stmt.smoothBezier2To s dest absolute).result = Svg.smoothBezier2To s dest absolute := by
  cases hl : s.object.contours.getLast? with
  | none => simp [Stmt.smoothBezier2To_none _ _ hl, Stopped.result, Svg.smoothBezier2To, hl]
  | some contour =>
    simp only [Stmt.smoothBezier2To_some _ _ hl, Svg.smoothBezier2To, hl]
    cases appendCurve contour _ <;> rfl

theorem Stmt.smoothBezier2To_fault_assertion_iff (s : Builder) (dest : Vec2) (absolute : Bool) :
    (Stmt.smoothBezier2To s dest absolute).fault = some .assertion ↔ s.object.numContours = 0 := by
  rw [numContours_eq_zero_iff]
  cases hl : s.object.contours.getLast? with
  | none => simp [Stmt.smoothBezier2To_none _ _ hl]
  | some contour =>
    simp only [Stmt.smoothBezier2To_some _ _ hl]
    cases h : appendCurve contour _ with
    | ok c1 => simp
    | error f => simp [appendCurve_eq_error h]

theorem Stmt.smoothBezier3To_none {s : Builder} (control1 dest : Vec2) (absolute : Bool)
    (hl : s.object.contours.getLast? = none) :
    Stmt.smoothBezier3To s control1 dest absolute = { state := s, fault := some .assertion } := by
  have h0 := (numContours_eq_zero_iff s).mpr hl
  simp [Stmt.smoothBezier3To, Stmt.loggerAssert, Stopped.andThen, h0]

theorem Stmt.smoothBezier3To_some {s : Builder} {contour : Contour} (control1 dest : Vec2) (absolute : Bool)
    (hl : s.object.contours.getLast? = some contour) :
    Stmt.smoothBezier3To s control1 dest absolute =
      match appendCurve contour
          { p0 := s.cursor
            as := .bezier3 (smoothControl3 contour s.cursor)
              (if absolute then control1 else control1 + smoothControl3 contour s.cursor)
              (if absolute then dest
                else dest + (if absolute then control1
                  else control1 + smoothControl3 contour s.cursor))
            moveToP0 := s.moveToP0 } with
      | .error f => { state := s, fault := some f }
      | .ok contour1 =>
        { state := { object := s.object.setLastContour contour1
                     cursor := if absolute then dest
                       else dest + (if absolute then control1
                         else control1 + smoothControl3 contour s.cursor)
                     moveToP0 := false }
          fault := none } := by
  have hpos := numContours_pos_of_getLast? hl
  simp only [Stmt.smoothBezier3To, Stmt.loggerAssert, Stopped.andThen, hpos, gt_iff_lt, decide_True,
    if_true, Stmt.store, hl]
  cases appendCurve contour _ <;> rfl

theorem Stmt.smoothBezier3To_result (s : Builder) (control1 dest : Vec2) (absolute : Bool) :
    (Stmt.smoothBezier3To s control1 dest absolute).result = Svg.smoothBezier3To s control1 dest absolute := by
  cases hl : s.object.contours.getLast? with
  | none => simp [Stmt.smoothBezier3To_none _ _ _ hl, Stopped.result, Svg.smoothBezier3To, hl]
  | some contour =>
    simp only [Stmt.smoothBezier3To_some _ _ _ hl, Svg.smoothBezier3To, hl]
    cases appendCurve contour _ <;> rfl

theorem Stmt.smoothBezier3To_fault_assertion_iff (s : Builder) (control1 dest : Vec2) (absolute : Bool) :
    (Stmt.smoothBezier3To s control1 dest absolute).fault = some .assertion ↔ s.object.numContours = 0 := by
  rw [numContours_eq_zero_iff]
  cases hl : s.object.contours.getLast? with
  | none => simp [Stmt.smoothBezier3To_none _ _ _ hl]
  | some contour =>
    simp only [Stmt.smoothBezier3To_some _ _ _ hl]
    cases h : appendCurve contour _ with
    | ok c1 => simp
    | error f => simp [appendCurve_eq_error h]

theorem Stmt.closeContour_none {s : Builder} (lineToEndpoint isHole : Bool)
    (hl : s.object.contours.getLast? = none) :
    Stmt.closeContour s lineToEndpoint isHole = { state := s, fault := some .assertion } := by
  have h0 := (numContours_eq_zero_iff s).mpr hl
  simp [Stmt.closeContour, Stmt.loggerAssert, Stopped.andThen, h0]

theorem Stmt.closeContour_empty {s : Builder} {contour : Contour} (lineToEndpoint isHole : Bool)
    (hl : s.object.contours.getLast? = some contour) (hc : contour.curves = []) :
    Stmt.closeContour s lineToEndpoint isHole = { state := s, fault := some .assertion } := by
  have hpos := numContours_pos_of_getLast? hl
  simp [Stmt.closeContour, Stmt.loggerAssert, Stopped.andThen, hpos, Stmt.lastNumCurves, hl,
    Contour.numCurves, hc]

theorem Stmt.closeContour_cons {s : Builder} {contour : Contour} {first : Curve}
    {rest : List Curve} (lineToEndpoint isHole : Bool)
    (hl : s.object.contours.getLast? = some contour) (hc : contour.curves = first :: rest) :
    Stmt.closeContour s lineToEndpoint isHole =
      (if lineToEndpoint then
          Stmt.lineTo
            { s with object := s.object.setLastContour { contour with isHole := isHole } }
            first.p0 true
        else
          { state :=
              { s with object := s.object.setLastContour { contour with isHole := isHole } }
            fault := none }).andThen
        fun s3 => { state := { s3 with cursor := ⟨0, 0⟩ }, fault := none } := by
  have hpos := numContours_pos_of_getLast? hl
  simp [Stmt.closeContour, Stmt.loggerAssert, Stopped.andThen, hpos, Stmt.lastNumCurves, hl,
    Contour.numCurves, hc, getLast?_setLastContour]

theorem Stmt.closeContour_result (s : Builder) (lineToEndpoint isHole : Bool) :
    (Stmt.closeContour s lineToEndpoint isHole).result
      = Svg.closeContour s lineToEndpoint isHole := by
  cases hl : s.object.contours.getLast? with
  | none => simp [Stmt.closeContour_none _ _ hl, Stopped.result, Svg.closeContour, hl]
  | some contour =>
    cases hc : contour.curves with
    | nil =>
      simp [Stmt.closeContour_empty _ _ hl hc, Stopped.result, Svg.closeContour, hl,
        Contour.numCurves, hc]
    | cons first rest =>
      rw [Stmt.closeContour_cons _ _ hl hc]
      simp only [Svg.closeContour, hl, Contour.numCurves, hc, List.length_cons,
        Nat.add_one_ne_zero, if_false]
      cases lineToEndpoint with
      | false => simp [Stopped.andThen, Stopped.result]
      | true =>
        simp only [if_true]
        rw [← Stmt.lineTo_result]
        generalize Stmt.lineTo _ first.p0 true = o
        obtain ⟨st, ft⟩ := o
        cases ft <;> simp [Stopped.andThen, Stopped.result]

theorem Stmt.closeContour_fault_assertion_iff (s : Builder) (lineToEndpoint isHole : Bool) :
    (Stmt.closeContour s lineToEndpoint isHole).fault = some .assertion ↔
      (s.object.numContours = 0 ∨
        ∃ contour, s.object.contours.getLast? = some contour ∧ contour.numCurves = 0) := by
  rw [numContours_eq_zero_iff]
  cases hl : s.object.contours.getLast? with
  | none => simp [Stmt.closeContour_none _ _ hl]
  | some contour =>
    cases hc : contour.curves with
    | nil => simp [Stmt.closeContour_empty _ _ hl hc, Contour.numCurves, hc]
    | cons first rest =>
      rw [Stmt.closeContour_cons _ _ hl hc]
      have hrhs : ¬ (some contour = none ∨
          ∃ c, some contour = some c ∧ c.numCurves = 0) := by
        rintro (h | ⟨c, h1, h2⟩)
        · cases h
        · injection h1 with h1
          subst h1
          simp [Contour.numCurves, hc] at h2
      refine iff_of_false ?_ hrhs
      cases lineToEndpoint with
      | false => simp [Stopped.andThen]
      | true =>
        simp only [if_true]
        have hne : (Stmt.lineTo
            { s with object := s.object.setLastContour { contour with isHole := isHole } }
            first.p0 true).fault ≠ some .assertion := by
          rw [Ne, Stmt.lineTo_fault_assertion_iff, numContours_eq_zero_iff]
          simp [getLast?_setLastContour]
        generalize Stmt.lineTo _ first.p0 true = o at hne
        obtain ⟨st, ft⟩ := o
        cases ft with
        | none => simp [Stopped.andThen]
        | some f => simpa [Stopped.andThen] using hne

theorem Stmt.closeContour_state_of_assertion (s : Builder) (lineToEndpoint isHole : Bool)
    (h : (Stmt.closeContour s lineToEndpoint isHole).fault = some .assertion) :
    (Stmt.closeContour s lineToEndpoint isHole).state = s := by
  rcases (Stmt.closeContour_fault_assertion_iff s lineToEndpoint isHole).mp h with h0 | h0
  · rw [Stmt.closeContour_none _ _ ((numContours_eq_zero_iff s).mp h0)]
  · obtain ⟨contour, hl, hn⟩ := h0
    rw [Stmt.closeContour_empty _ _ hl (List.length_eq_zero.mp hn)]

theorem Stopped.result_eq_error_iff (o : Stopped) (f : Fault) :
    o.result = .error f ↔ o.fault = some f := by
  obtain ⟨st, ft⟩ := o
  cases ft <;> simp [Stopped.result]

theorem Stmt.state_of_assertion_of_none {s : Builder} {o : Stopped}
    (hnone : s.object.contours.getLast? = none → o = { state := s, fault := some .assertion })
    (hiff : o.fault = some .assertion ↔ s.object.numContours = 0)
    (h : o.fault = some .assertion) : o.state = s := by
  rw [hnone ((numContours_eq_zero_iff s).mp (hiff.mp h))]

/-- C11: `closeContour` stops at an assertion exactly when the object has no
contour or its last contour has no curve; `lineTo`, `bezier2To`, `bezier3To`,
`smoothBezier2To` and `smoothBezier3To` stop at an assertion exactly when the
object has no contour.  Followed statement by statement (which gives the same
results), a call that stops at an assertion has written nothing: the object,
the cursor and the pending flag are those before the call. -/
theorem assertion_exactly_without_contour (s : Builder) (lineToEndpoint isHole absolute : Bool)
    (p q r : Vec2) :
    ((closeContour s lineToEndpoint isHole = .error .assertion ↔
        (s.object.numContours = 0 ∨
          ∃ contour, s.object.contours.getLast? = some contour ∧ contour.numCurves = 0)) ∧
      (lineTo s p absolute = .error .assertion ↔ s.object.numContours = 0) ∧
      (bezier2To s p q absolute = .error .assertion ↔ s.object.numContours = 0) ∧
      (bezier3To s p q r absolute = .error .assertion ↔ s.object.numContours = 0) ∧
      (smoothBezier2To s p absolute = .error .assertion ↔ s.object.numContours = 0) ∧
      (smoothBezier3To s p q absolute = .error .assertion ↔ s.object.numContours = 0)) ∧
    (((Stmt.closeContour s lineToEndpoint isHole).result = closeContour s lineToEndpoint isHole ∧
        ((Stmt.closeContour s lineToEndpoint isHole).fault = some .assertion →
          (Stmt.closeContour s lineToEndpoint isHole).state = s)) ∧
      ((Stmt.lineTo s p absolute).result = lineTo s p absolute ∧
        ((Stmt.lineTo s p absolute).fault = some .assertion →
          (Stmt.lineTo s p absolute).state = s)) ∧
      ((Stmt.bezier2To s p q absolute).result = bezier2To s p q absolute ∧
        ((Stmt.bezier2To s p q absolute).fault = some .assertion →
          (Stmt.bezier2To s p q absolute).state = s)) ∧
      ((Stmt.bezier3To s p q r absolute).result = bezier3To s p q r absolute ∧
        ((Stmt.bezier3To s p q r absolute).fault = some .assertion →
          (Stmt.bezier3To s p q r absolute).state = s)) ∧
      ((Stmt.smoothBezier2To s p absolute).result = smoothBezier2To s p absolute ∧
        ((Stmt.smoothBezier2To s p absolute).fault = some .assertion →
          (Stmt.smoothBezier2To s p absolute).state = s)) ∧
      ((Stmt.smoothBezier3To s p q absolute).result = smoothBezier3To s p q absolute ∧
        ((Stmt.smoothBezier3To s p q absolute).fault = some .assertion →
          (Stmt.smoothBezier3To s p q absolute).state = s))) := by
  refine ⟨⟨?_, ?_, ?_, ?_, ?_, ?_⟩, ⟨?_, ?_⟩, ⟨?_, ?_⟩, ⟨?_, ?_⟩, ⟨?_, ?_⟩, ⟨?_, ?_⟩, ⟨?_, ?_⟩⟩
  · rw [← Stmt.closeContour_result, Stopped.result_eq_error_iff]
    exact Stmt.closeContour_fault_assertion_iff s lineToEndpoint isHole
  · rw [← Stmt.lineTo_result, Stopped.result_eq_error_iff]
    exact Stmt.lineTo_fault_assertion_iff s p absolute
  · rw [← Stmt.bezier2To_result, Stopped.result_eq_error_iff]
    exact Stmt.bezier2To_fault_assertion_iff s p q absolute
  · rw [← Stmt.bezier3To_result, Stopped.result_eq_error_iff]
    exact Stmt.bezier3To_fault_assertion_iff s p q r absolute
  · rw [← Stmt.smoothBezier2To_result, Stopped.result_eq_error_iff]
    exact Stmt.smoothBezier2To_fault_assertion_iff s p absolute
  · rw [← Stmt.smoothBezier3To_result, Stopped.result_eq_error_iff]
    exact Stmt.smoothBezier3To_fault_assertion_iff s p q absolute
  · exact Stmt.closeContour_result s lineToEndpoint isHole
  · exact Stmt.closeContour_state_of_assertion s lineToEndpoint isHole
  · exact Stmt.lineTo_result s p absolute
  · exact Stmt.state_of_assertion_of_none (Stmt.lineTo_none p absolute)
      (Stmt.lineTo_fault_assertion_iff s p absolute)
  · exact Stmt.bezier2To_result s p q absolute
  · exact Stmt.state_of_assertion_of_none (Stmt.bezier2To_none p q absolute)
      (Stmt.bezier2To_fault_assertion_iff s p q absolute)
  · exact Stmt.bezier3To_result s p q r absolute
  · exact Stmt.state_of_assertion_of_none (Stmt.bezier3To_none p q r absolute)
      (Stmt.bezier3To_fault_assertion_iff s p q r absolute)
  · exact Stmt.smoothBezier2To_result s p absolute
  · exact Stmt.state_of_assertion_of_none (Stmt.smoothBezier2To_none p absolute)
      (Stmt.smoothBezier2To_fault_assertion_iff s p absolute)
  · exact Stmt.smoothBezier3To_result s p q absolute
  · exact Stmt.state_of_assertion_of_none (Stmt.smoothBezier3To_none p q absolute)
      (Stmt.smoothBezier3To_fault_assertion_iff s p q absolute)

/-- Witness of C11: on the default object `lineTo` stops at the assertion;
closing a contour that has no curve stops at the assertion and writes nothing. -/
theorem assertion_exactly_without_contour_witness :
    (sampleStart.object.numContours = 0 ∧
        lineTo sampleStart ⟨1, 1⟩ true = .error .assertion) ∧
      ((Stmt.closeContour (sampleBuilder [sampleEmptyContour] ⟨2, 3⟩ true) true true).fault
          = some .assertion ∧
        (Stmt.closeContour (sampleBuilder [sampleEmptyContour] ⟨2, 3⟩ true) true true).state
          = sampleBuilder [sampleEmptyContour] ⟨2, 3⟩ true) :=
  ⟨⟨rfl, (assertion_exactly_without_contour sampleStart true true true ⟨1, 1⟩ ⟨0, 0⟩
      ⟨0, 0⟩).1.2.1.mpr rfl⟩,
    ⟨rfl, (assertion_exactly_without_contour (sampleBuilder [sampleEmptyContour] ⟨2, 3⟩ true)
      true true true ⟨0, 0⟩ ⟨0, 0⟩ ⟨0, 0⟩).2.1.2 rfl⟩⟩

/-! ## Bounding box -/

theorem standard_sampleCMath (eps : ℚ) : StandardCMath (sampleCMath eps) :=
  ⟨fun _ _ => rfl, fun _ _ => rfl, fun _ _ => rfl, fun _ _ _ => rfl⟩

/-- C12, the code at the failing input: for the single line from (-10,-4) to
(-1,-1) `calculateBBox` gives the maximum (FLT_MIN, FLT_MIN), the positive start
value of the merge, and not (-1,-1); for the line from (0,0) to (10,4) of the
claim it gives (0,0) and (10,4). -/
theorem calculateBBox_max_stays_at_FLT_MIN :
    ((sampleObject [sampleSegment ⟨-10, -4⟩ ⟨-1, -1⟩]).calculateBBox (sampleCMath 0)).bbox
        = ⟨⟨-10, -4⟩, ⟨FLT_MIN, FLT_MIN⟩⟩ ∧
      (⟨FLT_MIN, FLT_MIN⟩ : Vec2) ≠ ⟨-1, -1⟩ ∧
      ((sampleObject [sampleSegment ⟨0, 0⟩ ⟨10, 4⟩]).calculateBBox (sampleCMath 0)).bbox
        = ⟨⟨0, 0⟩, ⟨10, 4⟩⟩ := by
  refine ⟨?_, ?_, ?_⟩
  · simp [SvgObject.calculateBBox, sampleObject, sampleSegment, Curve.subBBox, sampleCMath,
      FLT_MAX, FLT_MIN]
    norm_num
  · simp [FLT_MIN]
    norm_num
  · simp [SvgObject.calculateBBox, sampleObject, sampleSegment, Curve.subBBox, sampleCMath,
      FLT_MAX, FLT_MIN]
    norm_num

theorem foldl_contours_without_curves {β : Type} (g : β → Curve → β) (contours : List Contour)
    (h : ∀ c ∈ contours, c.curves = []) (b : β) :
    contours.foldl (fun acc contour => contour.curves.foldl g acc) b = b := by
  induction contours generalizing b with
  | nil => rfl
  | cons c rest ih =>
    simp only [List.foldl_cons, h c (List.mem_cons_self _ _), List.foldl_nil]
    exact ih (fun x hx => h x (List.mem_cons_of_mem _ hx)) b

theorem FLT_MIN_lt_FLT_MAX : FLT_MIN < FLT_MAX := by
  unfold FLT_MIN FLT_MAX
  norm_num

/-- C13 as stated fails: for the default object (no contour) the box computed by
`calculateBBox` has its minimum above its maximum on the x axis. -/
theorem calculateBBox_empty_is_inverted :
    ¬ (((createDefault ⟨⟨0, 0⟩, ⟨0, 0⟩⟩).calculateBBox (sampleCMath 0)).bbox.min.x
        ≤ ((createDefault ⟨⟨0, 0⟩, ⟨0, 0⟩⟩).calculateBBox (sampleCMath 0)).bbox.max.x) := by
  simp [SvgObject.calculateBBox, createDefault, FLT_MAX, FLT_MIN]
  norm_num

/-- C13 amended: for an object without curves (no contour, or only contours
without curves) `calculateBBox` yields the start value of its merge, an
inverted box: the minimum is (FLT_MAX, FLT_MAX) and the maximum lies below it
on both axes. -/
theorem calculateBBox_without_curves (m : CMath) (o : SvgObject)
    (h : ∀ c ∈ o.contours, c.curves = []) :
    (o.calculateBBox m).bbox.min = ⟨FLT_MAX, FLT_MAX⟩ ∧
      (o.calculateBBox m).bbox.max.x < (o.calculateBBox m).bbox.min.x ∧
      (o.calculateBBox m).bbox.max.y < (o.calculateBBox m).bbox.min.y := by
  have hb : (o.calculateBBox m).bbox = ⟨⟨FLT_MAX, FLT_MAX⟩, ⟨FLT_MIN, FLT_MIN⟩⟩ := by
    simp only [SvgObject.calculateBBox]
    exact foldl_contours_without_curves _ o.contours h _
  rw [hb]
  exact ⟨rfl, FLT_MIN_lt_FLT_MAX, FLT_MIN_lt_FLT_MAX⟩

/-- Witness of C13 amended: an object with two contours that hold no curve. -/
theorem calculateBBox_without_curves_witness :
    (∀ c ∈ (sampleObject [sampleEmptyContour, sampleEmptyContour]).contours, c.curves = []) ∧
      ((sampleObject [sampleEmptyContour, sampleEmptyContour]).calculateBBox
          (sampleCMath 0)).bbox.min = ⟨FLT_MAX, FLT_MAX⟩ ∧
      ((sampleObject [sampleEmptyContour, sampleEmptyContour]).calculateBBox
          (sampleCMath 0)).bbox.max.x
        < ((sampleObject [sampleEmptyContour, sampleEmptyContour]).calculateBBox
          (sampleCMath 0)).bbox.min.x ∧
      ((sampleObject [sampleEmptyContour, sampleEmptyContour]).calculateBBox
          (sampleCMath 0)).bbox.max.y
        < ((sampleObject [sampleEmptyContour, sampleEmptyContour]).calculateBBox
          (sampleCMath 0)).bbox.min.y :=
  ⟨by decide,
    calculateBBox_without_curves (sampleCMath 0)
      (sampleObject [sampleEmptyContour, sampleEmptyContour]) (by decide)⟩

/-! ## Approximate perimeter -/

theorem foldl_add_eq_sum {α : Type} (f : α → ℚ) (l : List α) (acc : ℚ) :
    l.foldl (fun a x => a + f x) acc = acc + (l.map f).sum := by
  induction l generalizing acc with
  | nil => simp
  | cons x rest ih =>
    simp only [List.foldl_cons, List.map_cons, List.sum_cons, ih]
    ring

theorem foldl_foldl_add_eq_sum (f : Curve → ℚ) (contours : List Contour) (acc : ℚ) :
    contours.foldl (fun a contour => contour.curves.foldl (fun b curve => b + f curve) a) acc
      = acc + (contours.map fun contour => (contour.curves.map f).sum).sum := by
  induction contours generalizing acc with
  | nil => simp
  | cons c rest ih =>
    simp only [List.foldl_cons, List.map_cons, List.sum_cons, ih, foldl_add_eq_sum]
    ring

theorem approxLength_eq_specCurveEstimate (m : CMath) (curve : Curve) :
    curve.approxLength m = specCurveEstimate m curve := by
  obtain ⟨p0, dat, flag⟩ := curve
  cases dat <;> simp only [Curve.approxLength, specCurveEstimate] <;> ring

theorem sampleLength_three_four : sampleLength ⟨3 - 0, 4 - 0⟩ = 5 := by
  have h : Int.toNat 25 = 25 := rfl
  simp [sampleLength]
  norm_num [h]

/-- C14: `calculateApproximatePerimeter` sets `approximatePerimeter` to the sum,
over all curves of all contours, of the estimate of the specification (the
distance of the end points for a line, half of chord plus control polygon for a
quadratic and a cubic) and changes nothing else; when the external `length` is
the Euclidean one at the vector (3,4), i.e. not negative with square 3² + 4²,
the object made of the single line from (0,0) to (3,4) gets exactly 5. -/
theorem perimeter_is_sum_of_estimates (m : CMath) (o : SvgObject) :
    ((o.calculateApproximatePerimeter m).approximatePerimeter
        = (o.contours.map fun contour =>
            (contour.curves.map (specCurveEstimate m)).sum).sum ∧
      (o.calculateApproximatePerimeter m).contours = o.contours ∧
      (o.calculateApproximatePerimeter m).bbox = o.bbox) ∧
    (0 ≤ m.length (⟨3, 4⟩ - ⟨0, 0⟩) →
      m.length (⟨3, 4⟩ - ⟨0, 0⟩) ^ 2 = 3 ^ 2 + 4 ^ 2 →
      ((sampleObject [sampleSegment ⟨0, 0⟩ ⟨3, 4⟩]).calculateApproximatePerimeter
        m).approximatePerimeter = 5) := by
  refine ⟨⟨?_, rfl, rfl⟩, ?_⟩
  · simp only [SvgObject.calculateApproximatePerimeter, approxLength_eq_specCurveEstimate,
      foldl_foldl_add_eq_sum, zero_add]
  · intro h0 hsq
    have h5 : m.length (⟨3, 4⟩ - ⟨0, 0⟩) = 5 := by
      have hfac : (m.length (⟨3, 4⟩ - ⟨0, 0⟩) - 5) * (m.length (⟨3, 4⟩ - ⟨0, 0⟩) + 5) = 0 := by
        ring_nf
        ring_nf at hsq
        linarith
      rcases mul_eq_zero.mp hfac with h | h
      · linarith
      · linarith
    simp [SvgObject.calculateApproximatePerimeter, sampleObject, sampleSegment,
      Curve.approxLength, h5]

/-- Witness of C14: with the sample Euclidean length the line from (0,0) to
(3,4) has perimeter 5. -/
theorem perimeter_is_sum_of_estimates_witness :
    0 ≤ sampleEuclid.length (⟨3, 4⟩ - ⟨0, 0⟩) ∧
      sampleEuclid.length (⟨3, 4⟩ - ⟨0, 0⟩) ^ 2 = 3 ^ 2 + 4 ^ 2 ∧
      ((sampleObject [sampleSegment ⟨0, 0⟩ ⟨3, 4⟩]).calculateApproximatePerimeter
        sampleEuclid).approximatePerimeter = 5 := by
  have h5 : sampleEuclid.length (⟨3, 4⟩ - ⟨0, 0⟩) = 5 := sampleLength_three_four
  have h0 : (0 : ℚ) ≤ sampleEuclid.length (⟨3, 4⟩ - ⟨0, 0⟩) := by rw [h5]; norm_num
  have hsq : sampleEuclid.length (⟨3, 4⟩ - ⟨0, 0⟩) ^ 2 = 3 ^ 2 + 4 ^ 2 := by rw [h5]; norm_num
  exact ⟨h0, hsq,
    (perimeter_is_sum_of_estimates sampleEuclid (sampleObject [])).2 h0 hsq⟩

/-! ## Normalization -/

theorem mapPointToUnit_eq {m : CMath} (hm : StandardCMath m) (min max p : Vec2) :
    mapPointToUnit m min max p
      = ⟨(p.x - min.x) / (max.x - min.x), (p.y - min.y) / (max.y - min.y)⟩ := by
  simp [mapPointToUnit, hm.mapRange_eq]

theorem mapPointToUnit_unit {m : CMath} (hm : StandardCMath m) (p : Vec2) :
    mapPointToUnit m ⟨0, 0⟩ ⟨1, 1⟩ p = p := by
  rw [mapPointToUnit_eq hm]
  simp

theorem mapToUnit_unit {m : CMath} (hm : StandardCMath m) (curve : Curve) :
    curve.mapToUnit m ⟨0, 0⟩ ⟨1, 1⟩ = curve := by
  obtain ⟨p0, dat, flag⟩ := curve
  cases dat <;> simp [Curve.mapToUnit, mapPointToUnit_unit hm]

theorem normalizeRange_explicit (m : CMath) (o : SvgObject) (min max : Vec2)
    (hset : ¬ (min.x = FLT_MAX ∧ min.y = FLT_MAX ∧ max.x = FLT_MIN ∧ max.y = FLT_MIN)) :
    o.normalizeRange m min max = (min, max) := by
  simp only [SvgObject.normalizeRange, if_neg hset]

theorem unit_range_is_explicit :
    ¬ ((⟨0, 0⟩ : Vec2).x = FLT_MAX ∧ (⟨0, 0⟩ : Vec2).y = FLT_MAX ∧
      (⟨1, 1⟩ : Vec2).x = FLT_MIN ∧ (⟨1, 1⟩ : Vec2).y = FLT_MIN) := by
  simp [FLT_MAX]

theorem normalize_unit {m : CMath} (hm : StandardCMath m) (o : SvgObject) :
    o.normalize m ⟨0, 0⟩ ⟨1, 1⟩ = o := by
  have hmap : (fun curve : Curve => curve.mapToUnit m ⟨0, 0⟩ ⟨1, 1⟩) = id :=
    funext (mapToUnit_unit hm)
  have hc : (fun contour : Contour =>
      ({ contour with curves := contour.curves.map (Curve.mapToUnit m ⟨0, 0⟩ ⟨1, 1⟩) } : Contour))
      = id := by
    funext contour
    show ({ contour with
      curves := contour.curves.map (fun curve : Curve => curve.mapToUnit m ⟨0, 0⟩ ⟨1, 1⟩) }
      : Contour) = contour
    rw [hmap, List.map_id]
  simp only [SvgObject.normalize, normalizeRange_explicit m o _ _ unit_range_is_explicit, hc,
    List.map_id]

/-- C15 as stated fails: with the explicit range (0,0)-(2,2) the line from (0,0)
to (2,2) is sent to the line ending at (1,1) by one call of `normalize` and to
the line ending at (1/2,1/2) by two calls. -/
theorem normalize_twice_differs :
    (⟨0, 0⟩ : Vec2).x < (⟨2, 2⟩ : Vec2).x ∧ (⟨0, 0⟩ : Vec2).y < (⟨2, 2⟩ : Vec2).y ∧
      ((sampleObject [sampleSegment ⟨0, 0⟩ ⟨2, 2⟩]).normalize (sampleCMath 0) ⟨0, 0⟩ ⟨2, 2⟩)
        = sampleObject [sampleSegment ⟨0, 0⟩ ⟨1, 1⟩] ∧
      (((sampleObject [sampleSegment ⟨0, 0⟩ ⟨2, 2⟩]).normalize (sampleCMath 0) ⟨0, 0⟩
          ⟨2, 2⟩).normalize (sampleCMath 0) ⟨0, 0⟩ ⟨2, 2⟩)
        = sampleObject [sampleSegment ⟨0, 0⟩ ⟨1 / 2, 1 / 2⟩] ∧
      sampleObject [sampleSegment ⟨0, 0⟩ ⟨1 / 2, 1 / 2⟩]
        ≠ sampleObject [sampleSegment ⟨0, 0⟩ ⟨1, 1⟩] := by
  have hset : ¬ ((⟨0, 0⟩ : Vec2).x = FLT_MAX ∧ (⟨0, 0⟩ : Vec2).y = FLT_MAX ∧
      (⟨2, 2⟩ : Vec2).x = FLT_MIN ∧ (⟨2, 2⟩ : Vec2).y = FLT_MIN) := by
    simp [FLT_MAX]
  have h1 : ((sampleObject [sampleSegment ⟨0, 0⟩ ⟨2, 2⟩]).normalize (sampleCMath 0) ⟨0, 0⟩
      ⟨2, 2⟩) = sampleObject [sampleSegment ⟨0, 0⟩ ⟨1, 1⟩] := by
    simp [SvgObject.normalize, normalizeRange_explicit _ _ _ _ hset, sampleObject,
      sampleSegment, Curve.mapToUnit, mapPointToUnit, sampleCMath]
  refine ⟨by norm_num, by norm_num, h1, ?_, ?_⟩
  · rw [h1]
    simp [SvgObject.normalize, normalizeRange_explicit _ _ _ _ hset, sampleObject,
      sampleSegment, Curve.mapToUnit, mapPointToUnit, sampleCMath]
  · simp [sampleObject, sampleSegment]

/-- C15 amended: with an explicitly supplied range `normalize` uses the range
as given and sends every coordinate `x` of every point to
`(x - min) / (max - min)` on its axis, at every call; with the explicit range
(0,0)-(1,1) a call leaves the object as it is, so that two calls yield the same
geometry as one. -/
theorem normalize_explicit_range (m : CMath) (o : SvgObject) (min max : Vec2)
    (hm : StandardCMath m)
    (hset : ¬ (min.x = FLT_MAX ∧ min.y = FLT_MAX ∧ max.x = FLT_MIN ∧ max.y = FLT_MIN)) :
    o.normalizeRange m min max = (min, max) ∧
      (o.normalize m min max).contours = o.contours.map (fun contour =>
        { contour with curves := contour.curves.map (Curve.mapToUnit m min max) }) ∧
      (∀ p : Vec2, mapPointToUnit m min max p
        = ⟨(p.x - min.x) / (max.x - min.x), (p.y - min.y) / (max.y - min.y)⟩) ∧
      o.normalize m ⟨0, 0⟩ ⟨1, 1⟩ = o ∧
      (o.normalize m ⟨0, 0⟩ ⟨1, 1⟩).normalize m ⟨0, 0⟩ ⟨1, 1⟩ = o.normalize m ⟨0, 0⟩ ⟨1, 1⟩ := by
  refine ⟨normalizeRange_explicit m o min max hset, ?_, mapPointToUnit_eq hm min max,
    normalize_unit hm o, ?_⟩
  · simp only [SvgObject.normalize, normalizeRange_explicit m o min max hset]
  · rw [normalize_unit hm o, normalize_unit hm o]

/-- Witness of C15 amended: the range (0,0)-(2,2) on the line from (0,0) to
(2,2). -/
theorem normalize_explicit_range_witness :
    StandardCMath (sampleCMath 0) ∧
      ¬ ((⟨0, 0⟩ : Vec2).x = FLT_MAX ∧ (⟨0, 0⟩ : Vec2).y = FLT_MAX ∧
        (⟨2, 2⟩ : Vec2).x = FLT_MIN ∧ (⟨2, 2⟩ : Vec2).y = FLT_MIN) ∧
      (sampleObject [sampleSegment ⟨0, 0⟩ ⟨2, 2⟩]).normalize (sampleCMath 0) ⟨0, 0⟩ ⟨1, 1⟩
        = sampleObject [sampleSegment ⟨0, 0⟩ ⟨2, 2⟩] :=
  ⟨standard_sampleCMath 0, by simp [FLT_MAX],
    (normalize_explicit_range (sampleCMath 0) (sampleObject [sampleSegment ⟨0, 0⟩ ⟨2, 2⟩])
      ⟨0, 0⟩ ⟨2, 2⟩ (standard_sampleCMath 0) (by simp [FLT_MAX])).2.2.2.1⟩

/-- C16, the code at the failing input: for the line from (-3,-2) to (-1,-1)
`normalize` with the "unset" range scans the range (-3,-2)-(FLT_MIN, FLT_MIN),
so the largest coordinates -1 and -1 are sent to 2 / (3 + FLT_MIN) and
1 / (2 + FLT_MIN), below 1. -/
theorem normalize_unset_range_keeps_FLT_MIN :
    (sampleObject [sampleSegment ⟨-3, -2⟩ ⟨-1, -1⟩]).normalizeRange (sampleCMath 0)
        ⟨FLT_MAX, FLT_MAX⟩ ⟨FLT_MIN, FLT_MIN⟩ = (⟨-3, -2⟩, ⟨FLT_MIN, FLT_MIN⟩) ∧
      (sampleObject [sampleSegment ⟨-3, -2⟩ ⟨-1, -1⟩]).normalize (sampleCMath 0)
        ⟨FLT_MAX, FLT_MAX⟩ ⟨FLT_MIN, FLT_MIN⟩
        = sampleObject [sampleSegment ⟨0, 0⟩ ⟨2 / (3 + FLT_MIN), 1 / (2 + FLT_MIN)⟩] ∧
      2 / (3 + FLT_MIN) < 1 ∧ 1 / (2 + FLT_MIN) < 1 := by
  have hr : (sampleObject [sampleSegment ⟨-3, -2⟩ ⟨-1, -1⟩]).normalizeRange (sampleCMath 0)
      ⟨FLT_MAX, FLT_MAX⟩ ⟨FLT_MIN, FLT_MIN⟩ = (⟨-3, -2⟩, ⟨FLT_MIN, FLT_MIN⟩) := by
    simp [SvgObject.normalizeRange, sampleObject, sampleSegment, Curve.scanRange, sampleCMath,
      FLT_MAX, FLT_MIN]
    norm_num
  refine ⟨hr, ?_, ?_, ?_⟩
  · simp only [SvgObject.normalize, hr]
    simp [sampleObject, sampleSegment, Curve.mapToUnit, mapPointToUnit, sampleCMath, FLT_MIN]
    norm_num
  · unfold FLT_MIN
    norm_num
  · unfold FLT_MIN
    norm_num

/-! ## Interpolation: pairing of the contours -/

theorem length_contourLoop (lessContours moreContours : SvgObject) (skip : Nat) (t : ℚ) :
    ∀ (remaining lessContouri moreContouri : Nat),
      (contourLoop lessContours moreContours skip t remaining lessContouri moreContouri).length
        = remaining := by
  intro remaining
  induction remaining with
  | zero => intro _ _; rfl
  | succ n ih =>
    intro li mi
    simp only [contourLoop, List.length_cons, ih]

theorem clamp_step (a skip count : Nat) (hskip : 1 ≤ skip) (hcount : 1 ≤ count) :
    (if Min.min a (count - 1) + skip ≥ count then count - 1 else Min.min a (count - 1) + skip)
      = Min.min (a + skip) (count - 1) := by
  simp only [Nat.min_def]
  split_ifs <;> omega

theorem getElem?_contourLoop (lessContours moreContours : SvgObject) (skip : Nat) (t : ℚ)
    (hskip : 1 ≤ skip) (hmore : 1 ≤ moreContours.numContours) :
    ∀ (remaining lessContouri moreContouri k : Nat), k < remaining →
      lessContouri + remaining ≤ lessContours.numContours →
      moreContouri = Min.min (lessContouri * skip) (moreContours.numContours - 1) →
      ∃ moveTo curves,
        (contourLoop lessContours moreContours skip t remaining lessContouri moreContouri)[k]?
          = some (.path (lessContouri + k)
              (Min.min ((lessContouri + k) * skip) (moreContours.numContours - 1))
              moveTo curves) := by
  intro remaining
  induction remaining with
  | zero => intro _ _ k hk; omega
  | succ n ih =>
    intro li mi k hk hli hmi
    cases k with
    | zero =>
      have e1 : lessContours.numContours = lessContours.contours.length := rfl
      have e2 : moreContours.numContours = moreContours.contours.length := rfl
      have h1 : li < lessContours.contours.length := by omega
      have h2 : mi < moreContours.contours.length := by
        have := Nat.min_le_right (li * skip) (moreContours.numContours - 1)
        omega
      simp only [contourLoop, List.getElem?_cons_zero, List.getElem?_eq_getElem h1,
        List.getElem?_eq_getElem h2, Nat.add_zero, ← hmi]
      exact ⟨_, _, rfl⟩
    | succ k =>
      simp only [contourLoop, List.getElem?_cons_succ]
      have hnext : (if mi + skip ≥ moreContours.numContours then moreContours.numContours - 1
          else mi + skip) = Min.min ((li + 1) * skip) (moreContours.numContours - 1) := by
        rw [hmi, Nat.add_mul, Nat.one_mul]
        exact clamp_step (li * skip) skip moreContours.numContours hskip hmore
      obtain ⟨mv, cs, h⟩ := ih (li + 1) _ k (by omega) (by omega) hnext
      refine ⟨mv, cs, ?_⟩
      rw [h]
      have : li + 1 + k = li + (k + 1) := by omega
      rw [this]

/-- C17: when both objects have at least one contour, the path part of the
interpolation takes exactly `lessCount` turns, `lessCount` being the smaller
and `moreCount` the larger number of contours; turn `k` reads contour `k` of
the object with fewer contours and contour `min (k * skip) (moreCount - 1)` of
the other one, with `skip = max (moreCount / lessCount) 1`, and both contours
exist. -/
theorem interpolation_pairs_contours (src dst : SvgObject) (t : ℚ)
    (h : 1 ≤ Min.min src.numContours dst.numContours) :
    ∃ steps, render2DInterpolationPaths src dst t = some steps ∧
      steps.length = Min.min src.numContours dst.numContours ∧
      ∀ k, k < Min.min src.numContours dst.numContours →
        (∃ moveTo curves, steps[k]? = some (.path k
          (Min.min
            (k * Max.max (Max.max src.numContours dst.numContours
              / Min.min src.numContours dst.numContours) 1)
            (Max.max src.numContours dst.numContours - 1))
          moveTo curves)) ∧
        Min.min
            (k * Max.max (Max.max src.numContours dst.numContours
              / Min.min src.numContours dst.numContours) 1)
            (Max.max src.numContours dst.numContours - 1)
          < Max.max src.numContours dst.numContours := by
  by_cases hle : src.numContours ≤ dst.numContours
  · have hmin : Min.min src.numContours dst.numContours = src.numContours := Nat.min_eq_left hle
    have hmax : Max.max src.numContours dst.numContours = dst.numContours := Nat.max_eq_right hle
    rw [hmin] at h
    rw [hmin, hmax]
    have hne : ¬ src.numContours = 0 := by omega
    have hgt : ¬ src.numContours > dst.numContours := by omega
    refine ⟨_, by simp only [render2DInterpolationPaths, hle, if_true, hgt, if_false, hne]; rfl,
      length_contourLoop _ _ _ _ _ _ _, ?_⟩
    intro k hk
    constructor
    · have := getElem?_contourLoop src dst
        (Max.max (dst.numContours / src.numContours) 1) t (Nat.le_max_right _ _) (by omega)
        src.numContours 0 0 k hk (by omega) (by simp)
      simpa using this
    · have := Nat.min_le_right
        (k * Max.max (dst.numContours / src.numContours) 1) (dst.numContours - 1)
      omega
  · have hlt : dst.numContours < src.numContours := by omega
    have hmin : Min.min src.numContours dst.numContours = dst.numContours :=
      Nat.min_eq_right (by omega)
    have hmax : Max.max src.numContours dst.numContours = src.numContours :=
      Nat.max_eq_left (by omega)
    rw [hmin] at h
    rw [hmin, hmax]
    have hne : ¬ dst.numContours = 0 := by omega
    have hgt : src.numContours > dst.numContours := hlt
    refine ⟨_, by simp only [render2DInterpolationPaths, hle, if_false, hgt, if_true, hne]; rfl,
      length_contourLoop _ _ _ _ _ _ _, ?_⟩
    intro k hk
    constructor
    · have := getElem?_contourLoop dst src
        (Max.max (src.numContours / dst.numContours) 1) t (Nat.le_max_right _ _) (by omega)
        dst.numContours 0 0 k hk (by omega) (by simp)
      simpa using this
    · have := Nat.min_le_right
        (k * Max.max (src.numContours / dst.numContours) 1) (src.numContours - 1)
      omega

/-- Witness of C17, with the example of the claim: one contour against three
contours takes one turn, which pairs contour 0 with contour 0. -/
theorem interpolation_pairs_contours_witness :
    1 ≤ Min.min sampleOneContour.numContours sampleThreeContours.numContours ∧
      render2DInterpolationPaths sampleOneContour sampleThreeContours 0
        = some [.path 0 0 (some ⟨10, 10⟩) [.bezierTo 0 ⟨10, 10⟩ ⟨20, 20⟩ ⟨20, 20⟩]] ∧
      ∃ steps, render2DInterpolationPaths sampleOneContour sampleThreeContours 0 = some steps ∧
        steps.length = Min.min sampleOneContour.numContours sampleThreeContours.numContours ∧
        ∀ k, k < Min.min sampleOneContour.numContours sampleThreeContours.numContours →
          (∃ moveTo curves, steps[k]? = some (.path k
            (Min.min
              (k * Max.max (Max.max sampleOneContour.numContours sampleThreeContours.numContours
                / Min.min sampleOneContour.numContours sampleThreeContours.numContours) 1)
              (Max.max sampleOneContour.numContours sampleThreeContours.numContours - 1))
            moveTo curves)) ∧
          Min.min
              (k * Max.max (Max.max sampleOneContour.numContours sampleThreeContours.numContours
                / Min.min sampleOneContour.numContours sampleThreeContours.numContours) 1)
              (Max.max sampleOneContour.numContours sampleThreeContours.numContours - 1)
            < Max.max sampleOneContour.numContours sampleThreeContours.numContours := by
  refine ⟨by decide, ?_,
    interpolation_pairs_contours sampleOneContour sampleThreeContours 0 (by decide)⟩
  simp [render2DInterpolationPaths, contourLoop, interpolateContour, curveLoop, interpolate,
    asBezier3, sampleOneContour, sampleThreeContours, sampleObject, sampleSegment,
    SvgObject.numContours, Contour.numCurves]

/-! ## Interpolation: the curve loop -/

/-- C18, the code at the failing input: a contour with one curve paired with a
contour with two curves.  The bound check `curvei > numCurves` lets `curvei = 1`
pass although the first contour stores one curve only, so `curves[1]` of that
contour is read; no error is logged. -/
theorem interpolation_reads_one_past_the_end :
    (sampleSegment ⟨0, 0⟩ ⟨4, 0⟩).numCurves = 1 ∧
      (sampleTwoSegments ⟨0, 0⟩ ⟨1, 1⟩ ⟨2, 2⟩).numCurves = 2 ∧
      render2DInterpolationPaths (sampleObject [sampleSegment ⟨0, 0⟩ ⟨4, 0⟩])
          (sampleObject [sampleTwoSegments ⟨0, 0⟩ ⟨1, 1⟩ ⟨2, 2⟩]) (1 / 2)
        = some [.path 0 0 (some ⟨0, 0⟩)
            [.bezierTo 0 ⟨0, 0⟩ ⟨5 / 2, 1 / 2⟩ ⟨5 / 2, 1 / 2⟩, .overread 1]] := by
  refine ⟨rfl, rfl, ?_⟩
  simp [render2DInterpolationPaths, contourLoop, interpolateContour, curveLoop, interpolate,
    asBezier3, sampleObject, sampleSegment, sampleTwoSegments, SvgObject.numContours,
    Contour.numCurves]
  norm_num

/-- C19, the code at the failing input: a contour without curves paired with a
contour with one curve.  No `nvgMoveTo` is emitted, but the curve loop still
takes a turn: `curves[0]` of the empty contour is read and `nvgBezierTo` is
called. -/
theorem interpolation_enters_loop_for_empty_contour :
    sampleEmptyContour.numCurves = 0 ∧
      render2DInterpolationPaths (sampleObject [sampleEmptyContour])
          (sampleObject [sampleSegment ⟨0, 0⟩ ⟨4, 0⟩]) (1 / 2)
        = some [.path 0 0 none [.overread 0]] := by
  refine ⟨rfl, ?_⟩
  simp [render2DInterpolationPaths, contourLoop, interpolateContour, curveLoop,
    sampleObject, sampleSegment, sampleEmptyContour, SvgObject.numContours, Contour.numCurves]

/-! ## Interpolation: the emitted points -/

theorem interpolate_zero (a b : Vec2) : interpolate a b 0 = a := by
  simp [interpolate]

theorem interpolate_one (a b : Vec2) : interpolate a b 1 = b := by
  simp [interpolate]

/-- C20, the code at the failing input: a source with two contours and a
destination with one.  The object with fewer contours, here the destination, is
the start of the interpolation: at `t = 0` the emitted points are those of the
destination line (10,10)-(20,20), at `t = 1` those of the source line
(0,0)-(4,0). -/
theorem interpolation_runs_from_fewer_contours :
    render2DInterpolationPaths sampleTwoContours sampleOneContour 0
        = some [.path 0 0 (some ⟨10, 10⟩) [.bezierTo 0 ⟨10, 10⟩ ⟨20, 20⟩ ⟨20, 20⟩]] ∧
      render2DInterpolationPaths sampleTwoContours sampleOneContour 1
        = some [.path 0 0 (some ⟨0, 0⟩) [.bezierTo 0 ⟨0, 0⟩ ⟨4, 0⟩ ⟨4, 0⟩]] ∧
      asBezier3 ⟨⟨0, 0⟩, .line ⟨4, 0⟩, false⟩ = (⟨0, 0⟩, ⟨4, 0⟩, ⟨4, 0⟩) ∧
      asBezier3 ⟨⟨10, 10⟩, .line ⟨20, 20⟩, false⟩ = (⟨10, 10⟩, ⟨20, 20⟩, ⟨20, 20⟩) := by
  refine ⟨?_, ?_, rfl, rfl⟩
  · simp [render2DInterpolationPaths, contourLoop, interpolateContour, curveLoop, interpolate,
      asBezier3, sampleOneContour, sampleTwoContours, sampleObject, sampleSegment,
      SvgObject.numContours, Contour.numCurves]
  · simp [render2DInterpolationPaths, contourLoop, interpolateContour, curveLoop, interpolate,
      asBezier3, sampleOneContour, sampleTwoContours, sampleObject, sampleSegment,
      SvgObject.numContours, Contour.numCurves]

/-- For two contours with the same number of curves every turn of the curve
loop reads stored curves and emits the interpolation from the curve of
`lessCurves` (at `t = 0`) to the curve of `moreCurves` (at `t = 1`). -/
theorem getElem?_curveLoop_of_equal_counts (lessCurves moreCurves : Contour) (t : ℚ)
    (heq : lessCurves.numCurves = moreCurves.numCurves) :
    ∀ (remaining curvei k : Nat), k < remaining → curvei + remaining ≤ lessCurves.numCurves →
      ∃ a b, lessCurves.curves[curvei + k]? = some a ∧ moreCurves.curves[curvei + k]? = some b ∧
        (curveLoop lessCurves moreCurves t remaining curvei)[k]?
          = some (.bezierTo (curvei + k)
              (interpolate (asBezier3 a).1 (asBezier3 b).1 t)
              (interpolate (asBezier3 a).2.1 (asBezier3 b).2.1 t)
              (interpolate (asBezier3 a).2.2 (asBezier3 b).2.2 t)) := by
  intro remaining
  induction remaining with
  | zero => intro _ k hk; omega
  | succ n ih =>
    intro i k hk hi
    have e1 : lessCurves.numCurves = lessCurves.curves.length := rfl
    have e2 : moreCurves.numCurves = moreCurves.curves.length := rfl
    have hcheck : ¬ (i > lessCurves.numCurves ∨ i > moreCurves.numCurves) := by omega
    cases k with
    | zero =>
      have h1 : i < lessCurves.curves.length := by omega
      have h2 : i < moreCurves.curves.length := by omega
      refine ⟨lessCurves.curves[i], moreCurves.curves[i], ?_, ?_, ?_⟩
      · simp [List.getElem?_eq_getElem h1]
      · simp [List.getElem?_eq_getElem h2]
      · simp only [curveLoop, if_neg hcheck, List.getElem?_cons_zero,
          List.getElem?_eq_getElem h1, List.getElem?_eq_getElem h2, Nat.add_zero]
    | succ k =>
      obtain ⟨a, b, ha, hb, h⟩ := ih (i + 1) k (by omega) (by omega)
      have hidx : i + 1 + k = i + (k + 1) := by omega
      rw [hidx] at ha hb h
      refine ⟨a, b, ha, hb, ?_⟩
      simp only [curveLoop, if_neg hcheck, List.getElem?_cons_succ]
      exact h

/-! ## Interpolation: degree elevation -/

/-- Claim C21: in interpolation a quadratic `(p0, p1, p2)` is promoted to the
cubic `(p0, p0/3 + 2 p1/3, 2 p1/3 + p2/3, p2)`, and at every parameter `s` the
cubic Bézier polynomial of the promoted points is the quadratic Bézier
polynomial of `(p0, p1, p2)`. -/
theorem promoted_quadratic_traces_same_curve (p0 p1 p2 : Vec2) (flag : Bool) (s : ℚ) :
    asBezier3 ⟨p0, .bezier2 p1 p2, flag⟩
        = (((1 : ℚ) / 3) * p0 + ((2 : ℚ) / 3) * p1, ((2 : ℚ) / 3) * p1 + ((1 : ℚ) / 3) * p2, p2)
      ∧ bezier3Point p0 (asBezier3 ⟨p0, .bezier2 p1 p2, flag⟩).1
          (asBezier3 ⟨p0, .bezier2 p1 p2, flag⟩).2.1 (asBezier3 ⟨p0, .bezier2 p1 p2, flag⟩).2.2 s
        = bezier2Point p0 p1 p2 s := by
  refine ⟨rfl, ?_⟩
  obtain ⟨x0, y0⟩ := p0
  obtain ⟨x1, y1⟩ := p1
  obtain ⟨x2, y2⟩ := p2
  simp only [asBezier3, bezier3Point, bezier2Point, vec2_mul_mk, vec2_add_mk, Vec2.mk.injEq]
  constructor <;> ring

/-! ## Interpolation: the rotation -/

/-- Claim C22, the code at the failing input: between a source rotated by 10
degrees about z and a destination with rotation `(40, 0, 90)`, the angle handed
to the drawing backend at `t = 1` is 40, the x rotation of the destination, and
not its z rotation 90. -/
theorem interpolation_rotates_towards_x_of_destination :
    interpolationRotate (sampleParent ⟨0, 0, 10⟩) (sampleParent ⟨40, 0, 90⟩) 1 = some 40
      ∧ (sampleParent ⟨40, 0, 90⟩).rotation.z = 90 := by
  refine ⟨?_, rfl⟩
  simp only [interpolationRotate, interpolatedRotation, sampleParent]
  norm_num

/-! ## The atlas cache: size of the surface -/

theorem generateSvgCache_size_le (width height : ℕ) (s : SvgCache) :
    (generateSvgCache width height s).width ≤ 4096
      ∧ (generateSvgCache width height s).height ≤ 4096 := by
  unfold generateSvgCache
  split
  · exact ⟨le_refl _, le_refl _⟩
  · rename_i h
    push_neg at h
    exact h

theorem growCache_of_4096 (s : SvgCache) (hw : s.width = 4096) (hh : s.height = 4096) :
    (growCache s).width = 4096 ∧ (growCache s).height = 4096 := by
  simp [growCache, generateSvgCache, hw, hh]

theorem renderCreateAnimation_size (s : SvgCache) (obj : SvgObject) (parent : AnimObject)
    (offset svgScale : Vec2) (isSvgGroup : Bool) (hw : s.width = 4096) (hh : s.height = 4096) :
    (renderCreateAnimation s obj parent offset svgScale isSvgGroup).cache.width = 4096
      ∧ (renderCreateAnimation s obj parent offset svgScale isSvgGroup).cache.height = 4096 := by
  unfold renderCreateAnimation
  simp only []
  split_ifs <;>
    simp [checkLineHeight, incrementCacheCurrentX, incrementCacheCurrentY, growCache,
      generateSvgCache, hw, hh]

theorem run_size (s : SvgCache) (op : CacheOp) (hw : s.width = 4096) (hh : s.height = 4096) :
    (op.run s).width = 4096 ∧ (op.run s).height = 4096 := by
  cases op with
  | init => simp [CacheOp.run, init, generateSvgCache]
  | endFrame => exact ⟨hw, hh⟩
  | incrementCacheCurrentY => exact ⟨hw, hh⟩
  | incrementCacheCurrentX d => exact ⟨hw, hh⟩
  | checkLineHeight h => exact ⟨hw, hh⟩
  | growCache => exact growCache_of_4096 s hw hh
  | renderCreateAnimation obj parent offset svgScale isSvgGroup =>
    exact renderCreateAnimation_size s obj parent offset svgScale isSvgGroup hw hh

theorem runCache_size (ops : List CacheOp) (s : SvgCache) (hw : s.width = 4096)
    (hh : s.height = 4096) :
    (runCache s ops).width = 4096 ∧ (runCache s ops).height = 4096 := by
  induction ops generalizing s with
  | nil => exact ⟨hw, hh⟩
  | cons op rest ih =>
    have h := run_size s op hw hh
    exact ih (op.run s) h.1 h.2

/-- Claim C28: `growCache` on a square surface of edge `w` (with `2 * w` inside
the 32 bit range of the parameters) gives the square surface of edge
`min (2 * w) 4096`; a surface made by `growCache` never exceeds 4096 by 4096;
and in every state reached from `init` by the writers of the packer the surface
is 4096 by 4096 and `growCache` leaves it so. -/
theorem growCache_doubles_up_to_4096 (s : SvgCache) (hsquare : s.width = s.height)
    (hfit : s.width * 2 < 2 ^ 32) (s0 : SvgCache) (ops : List CacheOp) :
    ((growCache s).width = Min.min (2 * s.width) 4096
        ∧ (growCache s).height = Min.min (2 * s.width) 4096)
      ∧ ((growCache s).width ≤ 4096 ∧ (growCache s).height ≤ 4096)
      ∧ ((runCache (init s0) ops).width = 4096 ∧ (runCache (init s0) ops).height = 4096
        ∧ (growCache (runCache (init s0) ops)).width = 4096
        ∧ (growCache (runCache (init s0) ops)).height = 4096) := by
  refine ⟨?_, generateSvgCache_size_le _ _ s, ?_⟩
  · have hmod : s.width * 2 % 2 ^ 32 = s.width * 2 := Nat.mod_eq_of_lt hfit
    unfold growCache generateSvgCache
    rw [← hsquare, hmod]
    by_cases h : s.width * 2 > 4096
    · simp only [h, or_self, if_true]
      constructor <;> omega
    · simp only [h, or_self, if_false]
      constructor <;> omega
  · have hi : (init s0).width = 4096 ∧ (init s0).height = 4096 := by
      simp [init, generateSvgCache]
    have hr := runCache_size ops (init s0) hi.1 hi.2
    exact ⟨hr.1, hr.2, growCache_of_4096 _ hr.1 hr.2⟩

/-- Witness of C28: a surface of 1024 by 1024 grows to 2048 by 2048, and after
`init`, a placement and a `growCache` the surface is 4096 by 4096. -/
theorem growCache_doubles_up_to_4096_witness :
    ((growCache ⟨0, ⟨0, 0⟩, 1024, 1024⟩).width = Min.min (2 * 1024) 4096
        ∧ (growCache ⟨0, ⟨0, 0⟩, 1024, 1024⟩).height = Min.min (2 * 1024) 4096)
      ∧ ((growCache ⟨0, ⟨0, 0⟩, 1024, 1024⟩).width ≤ 4096
        ∧ (growCache ⟨0, ⟨0, 0⟩, 1024, 1024⟩).height ≤ 4096)
      ∧ ((runCache (init staticStart) [.incrementCacheCurrentX 10, .growCache]).width = 4096
        ∧ (runCache (init staticStart) [.incrementCacheCurrentX 10, .growCache]).height = 4096
        ∧ (growCache (runCache (init staticStart)
            [.incrementCacheCurrentX 10, .growCache])).width = 4096
        ∧ (growCache (runCache (init staticStart)
            [.incrementCacheCurrentX 10, .growCache])).height = 4096) :=
  growCache_doubles_up_to_4096 ⟨0, ⟨0, 0⟩, 1024, 1024⟩ rfl (by decide) staticStart
    [.incrementCacheCurrentX 10, .growCache]

/-! ## The members of a group -/

theorem mem_groupLoop (toDraw : ℚ) (n k a : ℕ) (i : ℕ) (p : ℚ) :
    (i, p) ∈ groupLoop toDraw n (List.range' a k) a ↔
      a ≤ i ∧ i < a + k ∧ p = (toDraw - i) / (if i = n - 1 then 1 else 2)
        ∧ (i = a ∨ (i : ℚ) < toDraw) := by
  induction k generalizing a with
  | zero =>
    simp only [List.range'_zero, groupLoop, List.not_mem_nil, false_iff]
    rintro ⟨h1, h2, -, -⟩
    omega
  | succ k ih =>
    rw [List.range'_succ]
    simp only [groupLoop, List.mem_cons, Prod.mk.injEq]
    have hcast : ((a : ℚ) + 1) = ((a + 1 : ℕ) : ℚ) := by push_cast; ring
    constructor
    · rintro (⟨rfl, rfl⟩ | h)
      · exact ⟨le_refl _, by omega, rfl, Or.inl rfl⟩
      · split at h
        · simp at h
        · rename_i hlt
          rw [hcast] at h hlt
          rw [ih] at h
          obtain ⟨h1, h2, h3, h4⟩ := h
          refine ⟨by omega, by omega, h3, Or.inr ?_⟩
          rcases h4 with rfl | h4
          · exact not_le.mp hlt
          · exact h4
    · rintro ⟨h1, h2, h3, h4⟩
      by_cases hia : i = a
      · left
        subst hia
        exact ⟨rfl, h3⟩
      · right
        have hlt : (i : ℚ) < toDraw := by
          rcases h4 with h4 | h4
          · exact absurd h4 hia
          · exact h4
        have hai : ((a + 1 : ℕ) : ℚ) ≤ (i : ℚ) := by
          have : a + 1 ≤ i := by omega
          exact_mod_cast this
        have hnot : ¬ ((a : ℚ) + 1 ≥ toDraw) := by
          rw [hcast]
          exact not_le.mpr (lt_of_le_of_lt hai hlt)
        rw [if_neg hnot, hcast, ih]
        exact ⟨by omega, by omega, h3, Or.inr hlt⟩

theorem mem_groupMemberCalls (t : ℚ) (n : ℕ) (i : ℕ) (p : ℚ) :
    (i, p) ∈ groupMemberCalls t n ↔
      i < n ∧ p = (t * n - i) / (if i = n - 1 then 1 else 2) ∧ (i = 0 ∨ (i : ℚ) < t * n) := by
  have h := mem_groupLoop (t * n) n n 0 i p
  unfold groupMemberCalls
  rw [List.range_eq_range']
  simp only [Nat.cast_zero] at h
  rw [h]
  simp

theorem groupLoop_indices_prefix (toDraw : ℚ) (n : ℕ) (l : List ℕ) (d : ℚ) :
    (groupLoop toDraw n l d).map Prod.fst <+: l := by
  induction l generalizing d with
  | nil => simp [groupLoop]
  | cons i rest ih =>
    simp only [groupLoop, List.map_cons]
    split
    · simp [List.prefix_cons_inj]
    · rw [List.prefix_cons_inj]
      exact ih _

/-- Claim C30: in a group of `n` members rendered at time `t`, member `i` is
rendered if and only if `i = 0` or `i < t * n`; the fraction it is given is
`(t * n - i) / 2`, and `t * n - i` for the last member; the members are visited
in order, each at most once; and at `t = 1` member `i` is rendered with a
fraction of at least 1. -/
theorem group_members_staggered (t : ℚ) (n i : ℕ) (hi : i < n) :
    ((∃ p, (i, p) ∈ groupMemberCalls t n) ↔ (i = 0 ∨ (i : ℚ) < t * n))
      ∧ (∀ p, (i, p) ∈ groupMemberCalls t n →
          p = if i = n - 1 then t * n - i else (t * n - i) / 2)
      ∧ (groupMemberCalls t n).map Prod.fst <+: List.range n
      ∧ ∃ p, (i, p) ∈ groupMemberCalls 1 n ∧ 1 ≤ p := by
  refine ⟨?_, ?_, groupLoop_indices_prefix _ _ _ _, ?_⟩
  · constructor
    · rintro ⟨p, hp⟩
      exact ((mem_groupMemberCalls t n i p).mp hp).2.2
    · intro h
      exact ⟨_, (mem_groupMemberCalls t n i _).mpr ⟨hi, rfl, h⟩⟩
  · intro p hp
    have h := ((mem_groupMemberCalls t n i p).mp hp).2.1
    rw [h]
    split <;> simp
  · have hlt : (i : ℚ) < 1 * n := by
      rw [one_mul]
      exact_mod_cast hi
    refine ⟨_, (mem_groupMemberCalls 1 n i _).mpr ⟨hi, rfl, Or.inr hlt⟩, ?_⟩
    by_cases hlast : i = n - 1
    · rw [if_pos hlast]
      have : ((n : ℚ)) = (i : ℚ) + 1 := by
        have : n = i + 1 := by omega
        exact_mod_cast this
      rw [this]
      norm_num
    · rw [if_neg hlast]
      have : (i : ℚ) + 2 ≤ (n : ℚ) := by
        have : i + 2 ≤ n := by omega
        exact_mod_cast this
      rw [le_div_iff₀ (by norm_num)]
      linarith

/-- Witness of C30: a group of three members at `t = 1/2` renders members 0
and 1 with the fractions 3/4 and 1/4; member 1 satisfies `1 < 3/2`. -/
theorem group_members_staggered_witness :
    groupMemberCalls (1 / 2) 3 = [(0, 3 / 4), (1, 1 / 4)]
      ∧ ((∃ p, (1, p) ∈ groupMemberCalls (1 / 2) 3) ↔ ((1 : ℕ) = 0 ∨ ((1 : ℕ) : ℚ) < 1 / 2 * (3 : ℕ)))
      ∧ (∀ p, (1, p) ∈ groupMemberCalls (1 / 2) 3 →
          p = if (1 : ℕ) = 3 - 1 then (1 / 2 : ℚ) * (3 : ℕ) - (1 : ℕ)
            else ((1 / 2 : ℚ) * (3 : ℕ) - (1 : ℕ)) / 2)
      ∧ (groupMemberCalls (1 / 2) 3).map Prod.fst <+: List.range 3
      ∧ ∃ p, (1, p) ∈ groupMemberCalls 1 3 ∧ 1 ≤ p := by
  refine ⟨?_, group_members_staggered (1 / 2) 3 1 (by decide)⟩
  simp only [groupMemberCalls, List.range, List.range.loop, groupLoop]
  norm_num

/-! ## The atlas cache: rows -/

theorem growCache_cursor (s : SvgCache) :
    (growCache s).cacheCurrentPos = s.cacheCurrentPos
      ∧ (growCache s).cacheLineHeight = s.cacheLineHeight := by
  unfold growCache generateSvgCache
  split <;> exact ⟨rfl, rfl⟩

theorem renderCreateAnimation_newRow (s : SvgCache) (r : Request) :
    ((renderCreateAnimation s r.obj r.parent ⟨0, 0⟩ r.svgScale false).newRow = true ↔
      s.cacheCurrentPos.x + r.parent.strokeWidth / 2 + r.totalWidth ≥ (s.width : ℚ)) := by
  simp only [renderCreateAnimation, Request.totalWidth, Bool.false_eq_true, if_false,
    decide_eq_true_eq]
  constructor <;> intro h <;> linarith

theorem renderCreateAnimation_same_row (s : SvgCache) (r : Request)
    (h : (renderCreateAnimation s r.obj r.parent ⟨0, 0⟩ r.svgScale false).newRow = false) :
    (renderCreateAnimation s r.obj r.parent ⟨0, 0⟩ r.svgScale false).svgTextureOffset
        = ⟨s.cacheCurrentPos.x + r.parent.strokeWidth / 2,
           s.cacheCurrentPos.y + r.parent.strokeWidth / 2⟩
      ∧ (renderCreateAnimation s r.obj r.parent ⟨0, 0⟩ r.svgScale false).cache.cacheCurrentPos
        = ⟨s.cacheCurrentPos.x + (r.totalWidth + 3), s.cacheCurrentPos.y⟩
      ∧ (renderCreateAnimation s r.obj r.parent ⟨0, 0⟩ r.svgScale false).cache.cacheLineHeight
        = Max.max s.cacheLineHeight r.totalHeight := by
  simp only [renderCreateAnimation, Bool.false_eq_true, if_false] at h ⊢
  simp only [h, Bool.false_eq_true, if_false, if_true, eq_self_iff_true]
  split_ifs <;>
    simp [checkLineHeight, incrementCacheCurrentX, cachePadding, Request.totalWidth,
      Request.totalHeight, growCache_cursor, div_eq_mul_inv]

theorem renderCreateAnimation_new_row (s : SvgCache) (r : Request)
    (h : (renderCreateAnimation s r.obj r.parent ⟨0, 0⟩ r.svgScale false).newRow = true) :
    (renderCreateAnimation s r.obj r.parent ⟨0, 0⟩ r.svgScale false).svgTextureOffset
        = ⟨0 + r.parent.strokeWidth / 2,
           s.cacheCurrentPos.y + (s.cacheLineHeight + 3) + r.parent.strokeWidth / 2⟩
      ∧ (renderCreateAnimation s r.obj r.parent ⟨0, 0⟩ r.svgScale false).cache.cacheCurrentPos
        = ⟨0 + (r.totalWidth + 3), s.cacheCurrentPos.y + (s.cacheLineHeight + 3)⟩
      ∧ (renderCreateAnimation s r.obj r.parent ⟨0, 0⟩ r.svgScale false).cache.cacheLineHeight
        = Max.max 0 r.totalHeight := by
  simp only [renderCreateAnimation, Bool.false_eq_true, if_false] at h ⊢
  simp only [h, Bool.false_eq_true, if_false, if_true, eq_self_iff_true]
  split_ifs <;>
    simp [checkLineHeight, incrementCacheCurrentX, incrementCacheCurrentY, cachePadding,
      Request.totalWidth, Request.totalHeight, growCache_cursor, div_eq_mul_inv]

theorem foldl_max_facts (row : List ℚ) (a : ℚ) :
    (row.foldl Max.max a = a ∨ row.foldl Max.max a ∈ row) ∧ a ≤ row.foldl Max.max a
      ∧ ∀ x ∈ row, x ≤ row.foldl Max.max a := by
  induction row generalizing a with
  | nil => simp
  | cons y rest ih =>
    simp only [List.foldl_cons, List.mem_cons, forall_eq_or_imp]
    obtain ⟨h1, h2, h3⟩ := ih (Max.max a y)
    refine ⟨?_, le_trans (le_max_left a y) h2, le_trans (le_max_right a y) h2, h3⟩
    rcases h1 with h1 | h1
    · rw [h1]
      rcases max_choice a y with h | h
      · exact Or.inl h
      · exact Or.inr (Or.inl h)
    · exact Or.inr (Or.inr h1)

theorem isRowMaximum_foldl (row : List ℚ) (h : ∀ x ∈ row, 0 ≤ x) :
    IsRowMaximum row (row.foldl Max.max 0) := by
  obtain ⟨h1, -, h3⟩ := foldl_max_facts row 0
  cases row with
  | nil => exact Or.inl ⟨rfl, rfl⟩
  | cons y rest =>
    right
    refine ⟨?_, h3⟩
    rcases h1 with h1 | h1
    · have hy : y ≤ 0 := by
        have := h3 y (List.mem_cons_self _ _)
        rwa [h1] at this
      have hy0 : y = 0 := le_antisymm hy (h y (List.mem_cons_self _ _))
      rw [h1, ← hy0]
      exact List.mem_cons_self _ _
    · exact h1

theorem placeAll_invariant (requests : List Request) (s : SvgCache) (row : List ℚ)
    (hs : s.cacheLineHeight = row.foldl Max.max 0) (hrow : ∀ x ∈ row, 0 ≤ x)
    (hreq : ∀ r ∈ requests, 0 ≤ r.totalHeight) (e : Placed) (he : e ∈ placeAll s row requests) :
    e.before.cacheLineHeight = e.row.foldl Max.max 0 ∧ (∀ x ∈ e.row, 0 ≤ x)
      ∧ e.outcome
        = renderCreateAnimation e.before e.request.obj e.request.parent ⟨0, 0⟩
            e.request.svgScale false := by
  induction requests generalizing s row with
  | nil => simp [placeAll] at he
  | cons r rest ih =>
    simp only [placeAll, List.mem_cons] at he
    have hr : 0 ≤ r.totalHeight := hreq r (List.mem_cons_self _ _)
    rcases he with rfl | he
    · exact ⟨hs, hrow, rfl⟩
    · refine ih _ _ ?_ ?_ (fun q hq => hreq q (List.mem_cons_of_mem _ hq)) he
      · cases hn : (renderCreateAnimation s r.obj r.parent ⟨0, 0⟩ r.svgScale false).newRow with
        | true =>
          rw [(renderCreateAnimation_new_row s r hn).2.2]
          simp
        | false =>
          rw [(renderCreateAnimation_same_row s r hn).2.2, hs]
          simp [List.foldl_append]
      · intro x hx
        split at hx
        · simp only [List.mem_singleton] at hx
          rw [hx]
          exact hr
        · rw [List.mem_append, List.mem_singleton] at hx
          rcases hx with hx | hx
          · exact hrow x hx
          · rw [hx]
            exact hr

/-- Claim C26: in a sequence of placements of single shapes (of total heights
that are not negative) that starts in the state left by `init` at program
start, a placement moves to a new row exactly when its right edge
`cursor.x + strokeWidth / 2 + total width` reaches or exceeds the width of the
surface.  A placement that does not keeps the cursor row.  A placement that
does finds the row height equal to the maximum `M` of the total heights placed
in the finished row, and `incrementCacheCurrentY` sets `cursor.x` to 0, the row
height to 0 and raises `cursor.y` by `M + 3`; the shape is placed there, and
the cursor and row height afterwards are those of a row holding this shape
only. -/
theorem new_row_once_per_overflow (requests : List Request)
    (hheights : ∀ r ∈ requests, 0 ≤ r.totalHeight) (e : Placed)
    (he : e ∈ placeAll (init staticStart) [] requests) :
    (e.outcome.newRow = true ↔
        e.before.cacheCurrentPos.x + e.request.parent.strokeWidth / 2 + e.request.totalWidth
          ≥ (e.before.width : ℚ))
      ∧ (e.outcome.newRow = false →
          e.outcome.cache.cacheCurrentPos
            = ⟨e.before.cacheCurrentPos.x + (e.request.totalWidth + 3), e.before.cacheCurrentPos.y⟩)
      ∧ (e.outcome.newRow = true →
          ∃ M, IsRowMaximum e.row M ∧ e.before.cacheLineHeight = M
            ∧ incrementCacheCurrentY e.before
              = { e.before with
                  cacheCurrentPos := ⟨0, e.before.cacheCurrentPos.y + (M + 3)⟩
                  cacheLineHeight := 0 }
            ∧ e.outcome.svgTextureOffset
              = ⟨0 + e.request.parent.strokeWidth / 2,
                 e.before.cacheCurrentPos.y + (M + 3) + e.request.parent.strokeWidth / 2⟩
            ∧ e.outcome.cache.cacheCurrentPos
              = ⟨0 + (e.request.totalWidth + 3), e.before.cacheCurrentPos.y + (M + 3)⟩
            ∧ e.outcome.cache.cacheLineHeight = e.request.totalHeight) := by
  obtain ⟨h1, h2, h3⟩ := placeAll_invariant requests (init staticStart) [] rfl (by simp)
    hheights e he
  have hmem : e.request ∈ requests := by
    clear h1 h2 h3
    generalize init staticStart = s at he
    generalize ([] : List ℚ) = row at he
    induction requests generalizing s row with
    | nil => simp [placeAll] at he
    | cons r rest ih =>
      simp only [placeAll, List.mem_cons] at he
      rcases he with rfl | he
      · exact List.mem_cons_self _ _
      · exact List.mem_cons_of_mem _
          (ih (fun q hq => hheights q (List.mem_cons_of_mem _ hq)) _ _ he)
  rw [h3]
  refine ⟨renderCreateAnimation_newRow _ _, fun hn => (renderCreateAnimation_same_row _ _ hn).2.1,
    fun hn => ?_⟩
  have hnew := renderCreateAnimation_new_row _ _ hn
  refine ⟨e.row.foldl Max.max 0, isRowMaximum_foldl _ h2, h1, ?_, ?_, ?_, ?_⟩
  · simp [incrementCacheCurrentY, cachePadding, h1]
  · rw [hnew.1, h1]
  · rw [hnew.2.1, h1]
  · rw [hnew.2.2]
    exact max_eq_right (hheights _ hmem)

theorem samplePlaced_mem : samplePlaced ∈ placeAll (init staticStart) [] sampleRequests := by
  simp only [sampleRequests, placeAll, List.mem_cons]
  right
  left
  simp [samplePlaced, renderCreateAnimation, init, staticStart, generateSvgCache, sampleRequest,
    sampleBox, sampleStroke, sampleParent, checkLineHeight, incrementCacheCurrentX,
    incrementCacheCurrentY, growCache, cachePadding, Request.totalHeight]
  norm_num

/-- Witness of C26: a box of 4000 by 10 and then a box of 200 by 20, from the
initial state.  The second placement starts a new row: the finished row has
the maximum 10, the cursor goes to `(0, 13)`, and afterwards it is at
`(203, 13)` with row height 20. -/
theorem new_row_once_per_overflow_witness :
    (∀ r ∈ sampleRequests, 0 ≤ r.totalHeight)
      ∧ samplePlaced ∈ placeAll (init staticStart) [] sampleRequests
      ∧ samplePlaced.outcome.newRow = true
      ∧ ∃ M, IsRowMaximum [10] M ∧ (10 : ℚ) = M
          ∧ incrementCacheCurrentY samplePlaced.before
            = { samplePlaced.before with
                cacheCurrentPos := ⟨0, samplePlaced.before.cacheCurrentPos.y + (M + 3)⟩
                cacheLineHeight := 0 }
          ∧ samplePlaced.outcome.svgTextureOffset
            = ⟨0 + samplePlaced.request.parent.strokeWidth / 2,
               samplePlaced.before.cacheCurrentPos.y + (M + 3)
                + samplePlaced.request.parent.strokeWidth / 2⟩
          ∧ samplePlaced.outcome.cache.cacheCurrentPos
            = ⟨0 + (samplePlaced.request.totalWidth + 3),
               samplePlaced.before.cacheCurrentPos.y + (M + 3)⟩
          ∧ samplePlaced.outcome.cache.cacheLineHeight = samplePlaced.request.totalHeight := by
  have hh : ∀ r ∈ sampleRequests, 0 ≤ r.totalHeight := by
    intro r hr
    simp only [sampleRequests, List.mem_cons, List.mem_singleton, List.not_mem_nil, or_false] at hr
    rcases hr with rfl | rfl <;>
      simp [Request.totalHeight, sampleRequest, sampleBox, sampleStroke, sampleParent]
  exact ⟨hh, samplePlaced_mem, rfl,
    (new_row_once_per_overflow sampleRequests hh samplePlaced samplePlaced_mem).2.2 rfl⟩

/-! ## The atlas cache: the bottom edge -/

/-- Claim C27, the code at the failing input: from the initial state a box of
10 by 4000 is placed, then a box of 4090 by 200.  The second placement moves to
a new row at `y = 4003`, where its bottom edge `4003 + 200` is beyond the height
4096 of the surface; the bottom edge check was made with the cursor of the row
before (`0 + 200`), and `growCache` is not called. -/
theorem placed_below_surface_without_growCache :
    (renderCreateAnimation (init staticStart) (sampleBox 10 4000) (sampleStroke 0) ⟨0, 0⟩ ⟨1, 1⟩
        false).cache
        = { cacheLineHeight := 4000, cacheCurrentPos := ⟨13, 0⟩, width := 4096, height := 4096 }
      ∧ renderCreateAnimation
          { cacheLineHeight := 4000, cacheCurrentPos := ⟨13, 0⟩, width := 4096, height := 4096 }
          (sampleBox 4090 200) (sampleStroke 0) ⟨0, 0⟩ ⟨1, 1⟩ false
        = { cache :=
              { cacheLineHeight := 200, cacheCurrentPos := ⟨4093, 4003⟩, width := 4096
                height := 4096 }
            newRow := true
            grew := false
            svgTextureOffset := ⟨0, 4003⟩ }
      ∧ (4003 : ℚ) + (sampleStroke 0).strokeWidth / 2 + 200 ≥ ((4096 : ℕ) : ℚ) := by
  refine ⟨?_, ?_, ?_⟩
  · simp [renderCreateAnimation, init, staticStart, generateSvgCache, sampleBox, sampleStroke,
      sampleParent, checkLineHeight, incrementCacheCurrentX, incrementCacheCurrentY, growCache,
      cachePadding]
    norm_num
  · simp [renderCreateAnimation, generateSvgCache, sampleBox, sampleStroke,
      sampleParent, checkLineHeight, incrementCacheCurrentX, incrementCacheCurrentY, growCache,
      cachePadding]
    norm_num
  · simp [sampleStroke, sampleParent]
    norm_num

/-! ## The create animation: the stroke pass on lines -/

theorem vec2_mul_right_mk (x y k : ℚ) : (⟨x, y⟩ : Vec2) * k = ⟨x * k, y * k⟩ := rfl

theorem pointAt_one (curve : Curve) : pointAt curve 1 = curve.endPoint := by
  obtain ⟨⟨x0, y0⟩, dat, flag⟩ := curve
  generalize hE : Curve.endPoint ⟨⟨x0, y0⟩, dat, flag⟩ = e
  obtain ⟨ex, ey⟩ := e
  simp only [pointAt, hE]
  show (⟨(ex - x0) * 1 + x0, (ey - y0) * 1 + y0⟩ : Vec2) = ⟨ex, ey⟩
  congr 1 <;> ring

theorem strokeCurve_line (m : CMath) (curve : Curve) (p1 : Vec2) (h : curve.as = .line p1)
    (left : ℚ) :
    strokeCurve m curve left
      = (.lineTo (pointAt curve
          (if left < lineLength m curve then left / lineLength m curve else 1)),
        lineLength m curve) := by
  have he : curve.endPoint = p1 := by simp [Curve.endPoint, h]
  unfold strokeCurve
  simp only [h, lineLength, he]
  split
  · simp only [pointAt, he]
  · rw [pointAt_one, he]

theorem lineTargets_append (a b : List NvgCmd) :
    lineTargets (a ++ b) = lineTargets a ++ lineTargets b := by
  induction a with
  | nil => rfl
  | cons c rest ih =>
    cases c <;> simp [lineTargets, ih]

theorem revealFractions_neg (m : CMath) (curves : List Curve) (left : ℚ) (h : left < 0) :
    revealFractions m curves left = [] := by
  cases curves with
  | nil => rfl
  | cons c rest => simp [revealFractions, h]

theorem lineTargets_strokeCurves (m : CMath) (B : ℚ) (curves more : List Curve)
    (hlines : ∀ c ∈ curves, ∃ p1, c.as = .line p1) (d : ℚ) :
    lineTargets (strokeCurves m B curves d).1
        ++ (if (strokeCurves m B curves d).2 > B then []
            else List.zipWith pointAt more (revealFractions m more (B - (strokeCurves m B curves d).2)))
      = List.zipWith pointAt (curves ++ more) (revealFractions m (curves ++ more) (B - d)) := by
  induction curves generalizing d with
  | nil =>
    simp only [strokeCurves, lineTargets, List.nil_append]
    split
    · rename_i h
      rw [revealFractions_neg m more _ (by linarith)]
      simp
    · rfl
  | cons c rest ih =>
    obtain ⟨p1, hp1⟩ := hlines c (List.mem_cons_self _ _)
    have ih2 := ih (fun q hq => hlines q (List.mem_cons_of_mem _ hq)) (d + lineLength m c)
    simp only [strokeCurves, List.cons_append, revealFractions]
    by_cases hneg : B - d < 0
    · simp only [hneg, if_true, lineTargets, List.nil_append, List.zipWith_nil_right]
      rw [if_pos (by linarith)]
    · simp only [hneg, if_false, strokeCurve_line m c p1 hp1, List.zipWith_cons_cons]
      rw [lineTargets_append]
      have hmove : lineTargets (if c.moveToP0 = true then [NvgCmd.moveTo c.p0] else []) = [] := by
        split <;> rfl
      rw [hmove]
      simp only [List.nil_append, lineTargets, List.cons_append]
      rw [ih2]
      have e : B - (d + lineLength m c) = B - d - lineLength m c := by ring
      rw [e]
      rfl

theorem lineTargets_strokeStyle (parent : AnimObject) (p : ℚ) :
    lineTargets (strokeStyle parent p) = [] := by
  unfold strokeStyle
  split <;> rfl

theorem lineTargets_strokeContours (m : CMath) (parent : AnimObject) (p B : ℚ)
    (contours : List Contour)
    (hlines : ∀ c ∈ (contours.map fun contour => contour.curves).flatten, ∃ p1, c.as = .line p1)
    (d : ℚ) :
    lineTargets (strokeContours m parent p B contours d)
      = List.zipWith pointAt (contours.map fun contour => contour.curves).flatten
          (revealFractions m (contours.map fun contour => contour.curves).flatten (B - d)) := by
  induction contours generalizing d with
  | nil => simp [strokeContours, lineTargets, revealFractions]
  | cons contour rest ih =>
    have hrest : ∀ c ∈ (rest.map fun contour => contour.curves).flatten,
        ∃ p1, c.as = .line p1 := by
      intro c hc
      apply hlines c
      simp only [List.map_cons, List.flatten_cons, List.mem_append]
      exact Or.inr hc
    have hcur : ∀ c ∈ contour.curves, ∃ p1, c.as = .line p1 := by
      intro c hc
      apply hlines c
      simp only [List.map_cons, List.flatten_cons, List.mem_append]
      exact Or.inl hc
    simp only [strokeContours, List.map_cons, List.flatten_cons]
    cases hc : contour.curves with
    | nil =>
      simp only [List.nil_append, lineTargets]
      split
      · rename_i h
        rw [revealFractions_neg m _ _ (by linarith)]
        simp [lineTargets]
      · exact ih hrest d
    | cons first others =>
      simp only []
      rw [lineTargets_append]
      have h1 := lineTargets_strokeCurves m B contour.curves
        (rest.map fun contour => contour.curves).flatten hcur d
      rw [hc] at h1
      rw [← h1]
      simp only [lineTargets, List.append_eq, lineTargets_append, lineTargets_strokeStyle,
        List.nil_append]
      congr 1
      split
      · rfl
      · exact ih hrest _

theorem revealFractions_bounds (m : CMath) (curves : List Curve)
    (left : ℚ) : ∀ f ∈ revealFractions m curves left, 0 ≤ f ∧ f ≤ 1 := by
  induction curves generalizing left with
  | nil => simp [revealFractions]
  | cons c rest ih =>
    intro f hf
    simp only [revealFractions] at hf
    split at hf
    · simp at hf
    · rename_i hneg
      rw [List.mem_cons] at hf
      rcases hf with rfl | hf
      · split
        · rename_i hlt
          have hpos : 0 < lineLength m c := lt_of_le_of_lt (not_lt.mp hneg) hlt
          exact ⟨div_nonneg (not_lt.mp hneg) hpos.le, (div_le_one hpos).mpr hlt.le⟩
        · exact ⟨zero_le_one, le_refl _⟩
      · exact ih _ f hf

theorem revealFractions_sum (m : CMath) (hlen : ∀ v, 0 ≤ m.length v) (curves : List Curve)
    (left : ℚ) (hleft : 0 ≤ left) :
    (List.zipWith (fun c f => f * lineLength m c) curves (revealFractions m curves left)).sum
      = Min.min left (curves.map (lineLength m)).sum := by
  induction curves generalizing left with
  | nil => simp [revealFractions, hleft]
  | cons c rest ih =>
    have hrest : 0 ≤ (rest.map (lineLength m)).sum :=
      List.sum_nonneg (by
        intro x hx
        rw [List.mem_map] at hx
        obtain ⟨q, -, rfl⟩ := hx
        exact hlen _)
    simp only [revealFractions, not_lt.mpr hleft, if_false, List.zipWith_cons_cons, List.sum_cons,
      List.map_cons]
    by_cases hlt : left < lineLength m c
    · have hpos : 0 < lineLength m c := lt_of_le_of_lt hleft hlt
      rw [if_pos hlt, revealFractions_neg m rest _ (by linarith)]
      simp only [List.zipWith_nil_right, List.sum_nil, add_zero]
      rw [div_mul_cancel₀ _ hpos.ne', min_eq_left (by linarith)]
    · rw [if_neg hlt, ih _ (by linarith), one_mul]
      rcases le_total (left - lineLength m c) (rest.map (lineLength m)).sum with h | h
      · rw [min_eq_left h, min_eq_left (by linarith)]
        ring
      · rw [min_eq_right h, min_eq_right (by linarith)]

theorem revealFractions_index (m : CMath) (curves : List Curve) (left : ℚ) (i : ℕ) (c : Curve)
    (f : ℚ) (hc : curves[i]? = some c) (hf : (revealFractions m curves left)[i]? = some f) :
    0 ≤ left - ((curves.take i).map (lineLength m)).sum
      ∧ f = if left - ((curves.take i).map (lineLength m)).sum < lineLength m c
          then (left - ((curves.take i).map (lineLength m)).sum) / lineLength m c else 1 := by
  induction curves generalizing left i with
  | nil => simp at hc
  | cons c0 rest ih =>
    simp only [revealFractions] at hf
    split at hf
    · simp at hf
    · rename_i hneg
      cases i with
      | zero =>
        simp only [List.getElem?_cons_zero, Option.some.injEq] at hc hf
        subst hc
        simp only [List.take_zero, List.map_nil, List.sum_nil, sub_zero]
        exact ⟨not_lt.mp hneg, hf.symm⟩
      | succ j =>
        simp only [List.getElem?_cons_succ] at hc hf
        have := ih _ j hc hf
        simp only [List.take_succ_cons, List.map_cons, List.sum_cons]
        have e : left - (lineLength m c0 + ((rest.take j).map (lineLength m)).sum)
            = left - lineLength m c0 - ((rest.take j).map (lineLength m)).sum := by ring
        rw [e]
        exact this

theorem revealFractions_partial_last (m : CMath) (curves : List Curve) (left : ℚ) (i : ℕ) (f : ℚ)
    (hf : (revealFractions m curves left)[i]? = some f) (hlt : f < 1) :
    i + 1 = (revealFractions m curves left).length := by
  induction curves generalizing left i with
  | nil => simp [revealFractions] at hf
  | cons c0 rest ih =>
    simp only [revealFractions] at hf ⊢
    split at hf
    · simp at hf
    · rename_i hneg
      rw [if_neg hneg]
      cases i with
      | zero =>
        simp only [List.getElem?_cons_zero, Option.some.injEq] at hf
        by_cases hp : left < lineLength m c0
        · rw [revealFractions_neg m rest _ (by linarith)]
          rfl
        · rw [if_neg hp] at hf
          linarith
      | succ j =>
        simp only [List.getElem?_cons_succ] at hf
        simp only [List.length_cons]
        rw [ih _ j hf]

theorem revealFractions_length_le (m : CMath) (curves : List Curve) (left : ℚ) :
    (revealFractions m curves left).length ≤ curves.length := by
  induction curves generalizing left with
  | nil => simp [revealFractions]
  | cons c rest ih =>
    simp only [revealFractions]
    split
    · simp
    · simp only [List.length_cons]
      exact Nat.succ_le_succ (ih _)

theorem lineTargets_map (f : Vec2 → Vec2) (cmds : List NvgCmd) :
    lineTargets (cmds.map (NvgCmd.mapPoints f)) = (lineTargets cmds).map f := by
  induction cmds with
  | nil => rfl
  | cons c rest ih =>
    cases c <;> simp [lineTargets, NvgCmd.mapPoints, ih]

theorem sum_flatten_map (g : Curve → ℚ) (contours : List Contour) :
    (((contours.map fun contour => contour.curves).flatten).map g).sum
      = (contours.map fun contour => (contour.curves.map g).sum).sum := by
  induction contours with
  | nil => simp
  | cons c rest ih =>
    simp only [List.map_cons, List.flatten_cons, List.map_append, List.sum_append, List.sum_cons,
      ih]

theorem approxLength_line (m : CMath) (curve : Curve) (p1 : Vec2) (h : curve.as = .line p1) :
    curve.approxLength m = lineLength m curve := by
  simp [Curve.approxLength, lineLength, Curve.endPoint, h]

theorem sampleCMath_length_nonneg (eps : ℚ) (v : Vec2) : 0 ≤ (sampleCMath eps).length v := by
  simp only [sampleCMath]
  positivity

theorem samplePath_lines : ∀ c ∈ allCurves samplePath, ∃ p1, c.as = .line p1 := by
  intro c hc
  simp only [allCurves, samplePath, sampleTwoSegments, List.map_cons, List.map_nil,
    List.flatten_cons, List.flatten_nil, List.append_nil, List.mem_cons, List.not_mem_nil,
    or_false] at hc
  rcases hc with rfl | rfl
  · exact ⟨_, rfl⟩
  · exact ⟨_, rfl⟩

theorem samplePath_perimeter :
    samplePath.approximatePerimeter
      = (samplePath.calculateApproximatePerimeter (sampleCMath 0)).approximatePerimeter := by
  simp [SvgObject.calculateApproximatePerimeter, samplePath, sampleTwoSegments,
    Curve.approxLength, sampleCMath, vec2_sub_mk]
  norm_num

/-! ## The create animation: the fill pass -/

theorem drawCommands_append (a b : List NvgCmd) :
    drawCommands (a ++ b) = drawCommands a ++ drawCommands b := by
  induction a with
  | nil => rfl
  | cons c rest ih =>
    cases c <;> simp [drawCommands, ih]

theorem drawCommands_map (f : Vec2 → Vec2) (cmds : List NvgCmd) :
    drawCommands (cmds.map (NvgCmd.mapPoints f)) = (drawCommands cmds).map (NvgCmd.mapPoints f) := by
  induction cmds with
  | nil => rfl
  | cons c rest ih =>
    cases c <;> simp [drawCommands, NvgCmd.mapPoints, ih]

theorem fillCurve_cases (curve : Curve) :
    fillCurve curve = .lineTo curve.endPoint
      ∨ ∃ p1 p2, fillCurve curve = .bezierTo p1 p2 curve.endPoint := by
  obtain ⟨p0, dat, flag⟩ := curve
  cases dat with
  | line p1 => exact Or.inl rfl
  | bezier2 p1 p2 => exact Or.inr ⟨_, _, rfl⟩
  | bezier3 p1 p2 p3 => exact Or.inr ⟨_, _, rfl⟩

theorem drawCommands_fillCurve (curve : Curve) (rest : List NvgCmd) :
    drawCommands (fillCurve curve :: rest) = fillCurve curve :: drawCommands rest := by
  rcases fillCurve_cases curve with h | ⟨p1, p2, h⟩ <;> rw [h] <;> rfl

theorem mem_map_mapPoints (f : Vec2 → Vec2) (cmds : List NvgCmd) (x : NvgCmd)
    (hx : ∀ c, NvgCmd.mapPoints f c = x ↔ c = x) :
    x ∈ cmds.map (NvgCmd.mapPoints f) ↔ x ∈ cmds := by
  rw [List.mem_map]
  constructor
  · rintro ⟨c, hc, h⟩
    rw [(hx c).mp h] at hc
    exact hc
  · intro h
    exact ⟨x, h, (hx x).mpr rfl⟩

theorem mapPoints_eq_strokeColor (f : Vec2 → Vec2) (r g b a : ℕ) (c : NvgCmd) :
    NvgCmd.mapPoints f c = .strokeColor r g b a ↔ c = .strokeColor r g b a := by
  cases c <;> simp [NvgCmd.mapPoints]

theorem percentToFadeIn_eq (m : CMath) (t : ℚ) (textureOffset svgScale : Vec2) (reverse : Bool)
    (obj : SvgObject) (isSvgGroup : Bool) :
    (renderSetup m t textureOffset svgScale reverse obj isSvgGroup).percentToFadeIn
      = Max.max (Min.min
          (((renderSetup m t textureOffset svgScale reverse obj isSvgGroup).t - 8 / 10) / (2 / 10))
          1) 0 := by
  simp only [renderSetup]
  norm_num

theorem strokeCurve_cases (m : CMath) (curve : Curve) (left : ℚ) :
    (∃ p, (strokeCurve m curve left).1 = .lineTo p)
      ∨ ∃ p1 p2 p3, (strokeCurve m curve left).1 = .bezierTo p1 p2 p3 := by
  obtain ⟨p0, dat, flag⟩ := curve
  cases dat with
  | line p1 =>
    left
    simp only [strokeCurve]
    split
    · exact ⟨_, rfl⟩
    · exact ⟨_, rfl⟩
  | bezier2 p1 p2 =>
    right
    simp only [strokeCurve]
    split
    · exact ⟨_, _, _, rfl⟩
    · exact ⟨_, _, _, rfl⟩
  | bezier3 p1 p2 p3 =>
    right
    simp only [strokeCurve]
    split
    · exact ⟨_, _, _, rfl⟩
    · exact ⟨_, _, _, rfl⟩

theorem mem_strokeCurves (m : CMath) (B : ℚ) (curves : List Curve) (d : ℚ) (cmd : NvgCmd)
    (h : cmd ∈ (strokeCurves m B curves d).1) :
    (∃ p, cmd = .moveTo p) ∨ (∃ p, cmd = .lineTo p) ∨ ∃ p1 p2 p3, cmd = .bezierTo p1 p2 p3 := by
  induction curves generalizing d with
  | nil => simp [strokeCurves] at h
  | cons c rest ih =>
    simp only [strokeCurves] at h
    split at h
    · simp at h
    · simp only [List.mem_append, List.mem_cons] at h
      rcases h with h | h | h
      · split at h
        · simp only [List.mem_singleton] at h
          exact Or.inl ⟨_, h⟩
        · simp at h
      · rcases strokeCurve_cases m c (B - d) with ⟨p, hp⟩ | ⟨p1, p2, p3, hp⟩
        · exact Or.inr (Or.inl ⟨_, h.trans hp⟩)
        · exact Or.inr (Or.inr ⟨_, _, _, h.trans hp⟩)
      · exact ih _ h

theorem strokeColor_mem_strokeContours (m : CMath) (parent : AnimObject) (p B : ℚ)
    (contours : List Contour) (d : ℚ) (r g b a : ℕ)
    (h : NvgCmd.strokeColor r g b a ∈ strokeContours m parent p B contours d) :
    NvgCmd.strokeColor r g b a ∈ strokeStyle parent p := by
  induction contours generalizing d with
  | nil => simp [strokeContours] at h
  | cons contour rest ih =>
    simp only [strokeContours, List.mem_append, List.mem_cons, reduceCtorEq, false_or] at h
    rcases h with h | h
    · cases hc : contour.curves with
      | nil => simp [hc] at h
      | cons first others =>
        simp only [hc, List.mem_cons, List.mem_append, reduceCtorEq, false_or] at h
        rcases h with h | h
        · exact h
        · rcases mem_strokeCurves _ _ _ _ _ h with ⟨q, h⟩ | ⟨q, h⟩ | ⟨q1, q2, q3, h⟩ <;> cases h
    · split at h
      · simp at h
      · exact ih _ h

/-- Claim C25 as stated fails: with a parent of stroke width 2 and stroke alpha
255, at `t = 0.9` the progress of the fade is 1/2, and the stroke pass sets the
stroke colour with alpha 255, not with 255 times `1 - 1/2`. -/
theorem stroke_alpha_kept_with_stroke_width :
    (renderSetup (sampleCMath 0) (9 / 10) ⟨0, 0⟩ ⟨1, 1⟩ false samplePath false).percentToFadeIn
        = 1 / 2
      ∧ strokePass (sampleCMath 0) (9 / 10) (sampleStroke 2) ⟨0, 0⟩ ⟨1, 1⟩ false samplePath false
        = [.beginPath, .strokeColor 255 255 255 255, .strokeWidth 2, .moveTo ⟨0, 0⟩,
            .lineTo ⟨3, 0⟩, .lineTo ⟨3, 6⟩, .stroke] := by
  constructor
  · simp only [renderSetup]
    norm_num
  · simp [strokePass, strokePassLocal, strokeContours, strokeCurves, strokeCurve, strokeStyle,
      renderSetup, toTexture, NvgCmd.mapPoints, epsilonEqual, toUnsignedChar, samplePath,
      sampleTwoSegments, sampleStroke, sampleParent, sampleCMath, vec2_sub_mk, vec2_add_mk,
      vec2_mul_right_mk]
    norm_num [NvgCmd.mapPoints, toTexture]

/-- Claim C25, amended: every stroke colour that the stroke pass sets has the
red, green and blue of the parent; its alpha is the stroke alpha of the parent
times `1 - fade` (fraction dropped), with `fade = max (min ((tt - 0.8) / 0.2) 1) 0`
and `tt` the time after the optional reversal, when the stroke width of the
parent is within 0.01 of zero, and the stroke alpha of the parent unchanged for
every other stroke width. -/
theorem stroke_alpha_fades_without_stroke_width (m : CMath) (t : ℚ) (parent : AnimObject)
    (textureOffset svgScale : Vec2) (reverse : Bool) (obj : SvgObject) (isSvgGroup : Bool)
    (r g b a : ℕ)
    (h : NvgCmd.strokeColor r g b a
      ∈ strokePass m t parent textureOffset svgScale reverse obj isSvgGroup) :
    r = parent.strokeColor.r ∧ g = parent.strokeColor.g ∧ b = parent.strokeColor.b
      ∧ a = if |parent.strokeWidth| < 1 / 100 then
          toUnsignedChar ((parent.strokeColor.a : ℚ)
            * (1 - Max.max (Min.min (((if reverse then 1 - t else t) - 8 / 10) / (2 / 10)) 1) 0))
        else parent.strokeColor.a := by
  unfold strokePass strokePassLocal at h
  simp only [] at h
  rw [mem_map_mapPoints _ _ _ (mapPoints_eq_strokeColor _ r g b a)] at h
  split at h
  · have h2 := strokeColor_mem_strokeContours _ _ _ _ _ _ _ _ _ _ h
    rw [percentToFadeIn_eq] at h2
    unfold strokeStyle epsilonEqual at h2
    simp only [sub_zero, decide_eq_true_eq] at h2
    split at h2
    · rename_i hw
      simp only [List.mem_cons, NvgCmd.strokeColor.injEq, reduceCtorEq, List.not_mem_nil,
        or_false] at h2
      rw [if_pos hw]
      exact h2
    · rename_i hw
      simp only [List.mem_cons, NvgCmd.strokeColor.injEq, reduceCtorEq, List.not_mem_nil,
        or_false] at h2
      rw [if_neg hw]
      exact h2
  · simp at h

/-- Witness of the amended C25: with a parent of stroke width 0 and stroke
alpha 255, at `t = 0.9` the stroke pass sets the alpha 127, which is 255 times
`1 - 1/2` with the fraction dropped. -/
theorem stroke_alpha_fades_without_stroke_width_witness :
    NvgCmd.strokeColor 255 255 255 127
        ∈ strokePass (sampleCMath 0) (9 / 10) (sampleStroke 0) ⟨0, 0⟩ ⟨1, 1⟩ false samplePath false
      ∧ (255 = (sampleStroke 0).strokeColor.r ∧ 255 = (sampleStroke 0).strokeColor.g
        ∧ 255 = (sampleStroke 0).strokeColor.b
        ∧ 127 = if |(sampleStroke 0).strokeWidth| < 1 / 100 then
            toUnsignedChar (((sampleStroke 0).strokeColor.a : ℚ)
              * (1 - Max.max (Min.min
                  (((if false = true then 1 - 9 / 10 else 9 / 10 : ℚ) - 8 / 10) / (2 / 10)) 1) 0))
          else (sampleStroke 0).strokeColor.a) := by
  have hfloor : Int.floor ((255 : ℚ) * (1 - 1 / 2)) = 127 := by
    rw [Int.floor_eq_iff]
    constructor <;> norm_num
  have hmem : NvgCmd.strokeColor 255 255 255 127
      ∈ strokePass (sampleCMath 0) (9 / 10) (sampleStroke 0) ⟨0, 0⟩ ⟨1, 1⟩ false samplePath
          false := by
    have hp : (renderSetup (sampleCMath 0) (9 / 10) ⟨0, 0⟩ ⟨1, 1⟩ false samplePath
        false).percentToFadeIn = 1 / 2 := by
      simp only [renderSetup]
      norm_num
    have hl : (renderSetup (sampleCMath 0) (9 / 10) ⟨0, 0⟩ ⟨1, 1⟩ false samplePath
        false).lengthToDraw > 0 := by
      simp only [renderSetup, samplePath]
      norm_num
    unfold strokePass strokePassLocal
    simp only []
    rw [mem_map_mapPoints _ _ _ (mapPoints_eq_strokeColor _ _ _ _ _), if_pos hl, hp]
    simp only [samplePath, strokeContours, sampleTwoSegments, strokeStyle, epsilonEqual,
      sampleStroke, sampleParent, toUnsignedChar]
    norm_num [hfloor]
    exact Or.inr (Or.inl rfl)
  exact ⟨hmem, stroke_alpha_fades_without_stroke_width (sampleCMath 0) (9 / 10) (sampleStroke 0)
    ⟨0, 0⟩ ⟨1, 1⟩ false samplePath false 255 255 255 127 hmem⟩

/-! ## The create animation: the coordinate mapping -/

theorem toTexture_linear (m : CMath) (hm : StandardCMath m) (t : ℚ)
    (textureOffset svgScale : Vec2) (reverse : Bool) (obj : SvgObject) (isSvgGroup : Bool)
    (hx : obj.bbox.min.x < obj.bbox.max.x) (hy : obj.bbox.min.y < obj.bbox.max.y)
    (hsx : 0 < svgScale.x) (hsy : 0 < svgScale.y) (p : Vec2) :
    toTexture m svgScale (renderSetup m t textureOffset svgScale reverse obj isSvgGroup) p
      = ⟨(renderSetup m t textureOffset svgScale reverse obj isSvgGroup).minCoord.x
            + (p.x - obj.bbox.min.x) * svgScale.x,
         (renderSetup m t textureOffset svgScale reverse obj isSvgGroup).minCoord.y
            + (p.y - obj.bbox.min.y) * svgScale.y⟩ := by
  obtain ⟨contours, perimeter, ⟨⟨ax, ay⟩, ⟨bx, by0⟩⟩⟩ := obj
  simp only at hx hy
  have hdx : bx - ax ≠ 0 := by linarith
  have hdy : by0 - ay ≠ 0 := by linarith
  have hsx0 : svgScale.x ≠ 0 := hsx.ne'
  have hsy0 : svgScale.y ≠ 0 := hsy.ne'
  simp only [toTexture, hm.mapRange_eq, renderSetup, Vec2.mk.injEq]
  generalize (textureOffset + if ¬isSvgGroup = true
    then m.max ⟨ax * svgScale.x, ay * svgScale.y⟩ ⟨0, 0⟩
    else ⟨ax * svgScale.x, ay * svgScale.y⟩) = c
  obtain ⟨cx, cy⟩ := c
  simp only [vec2_sub_mk, vec2_add_mk]
  have h1 : bx * svgScale.x - ax * svgScale.x ≠ 0 := by
    have : bx * svgScale.x - ax * svgScale.x = (bx - ax) * svgScale.x := by ring
    rw [this]
    exact mul_ne_zero hdx hsx0
  have h2 : by0 * svgScale.y - ay * svgScale.y ≠ 0 := by
    have : by0 * svgScale.y - ay * svgScale.y = (by0 - ay) * svgScale.y := by ring
    rw [this]
    exact mul_ne_zero hdy hsy0
  constructor
  · field_simp
    ring
  · field_simp
    ring

theorem minCoord_eq (m : CMath) (hm : StandardCMath m) (t : ℚ) (textureOffset svgScale : Vec2)
    (reverse : Bool) (obj : SvgObject) :
    (renderSetup m t textureOffset svgScale reverse obj false).minCoord
      = ⟨textureOffset.x + Max.max (obj.bbox.min.x * svgScale.x) 0,
         textureOffset.y + Max.max (obj.bbox.min.y * svgScale.y) 0⟩ := by
  obtain ⟨ox, oy⟩ := textureOffset
  simp [renderSetup, hm.max_eq, vec2_add_mk]

/-- Claim C29 as stated fails: for the shape with the box `(5,5)` to `(15,15)`,
scale 1 and texture offset `(100,100)`, the minimum corner of the box is sent
to `(105,105)` and the maximum corner to `(115,115)`, not to the texture offset
and to `(110,110)`. -/
theorem bbox_minimum_not_sent_to_offset :
    toTexture (sampleCMath 0) ⟨1, 1⟩
        (renderSetup (sampleCMath 0) 1 ⟨100, 100⟩ ⟨1, 1⟩ false sampleShifted false)
        sampleShifted.bbox.min = ⟨105, 105⟩
      ∧ toTexture (sampleCMath 0) ⟨1, 1⟩
        (renderSetup (sampleCMath 0) 1 ⟨100, 100⟩ ⟨1, 1⟩ false sampleShifted false)
        sampleShifted.bbox.max = ⟨115, 115⟩ := by
  constructor <;>
    norm_num [toTexture, renderSetup, sampleShifted, sampleCMath, vec2_add_mk, vec2_sub_mk]

/-- Claim C29, amended: for a shape that is not a member of a group, with a box
that is not degenerate and a positive scale, and with the external `max` and
`mapRange` as the claims read them, the coordinate mapping sends the minimum
corner of the box to the texture offset plus `max (bbox.min × scale) 0` (per
axis) and the maximum corner to that point plus size × scale; every point
between the corners is sent into the rectangle between these two points; and
the first of them is the texture offset exactly when `bbox.min × scale ≤ 0` on
both axes. -/
theorem bbox_maps_to_rectangle_at_clamped_minimum (m : CMath) (hm : StandardCMath m) (t : ℚ)
    (textureOffset svgScale : Vec2) (reverse : Bool) (obj : SvgObject)
    (hx : obj.bbox.min.x < obj.bbox.max.x) (hy : obj.bbox.min.y < obj.bbox.max.y)
    (hsx : 0 < svgScale.x) (hsy : 0 < svgScale.y) :
    toTexture m svgScale (renderSetup m t textureOffset svgScale reverse obj false) obj.bbox.min
        = ⟨textureOffset.x + Max.max (obj.bbox.min.x * svgScale.x) 0,
           textureOffset.y + Max.max (obj.bbox.min.y * svgScale.y) 0⟩
      ∧ toTexture m svgScale (renderSetup m t textureOffset svgScale reverse obj false)
          obj.bbox.max
        = ⟨textureOffset.x + Max.max (obj.bbox.min.x * svgScale.x) 0
              + (obj.bbox.max.x - obj.bbox.min.x) * svgScale.x,
           textureOffset.y + Max.max (obj.bbox.min.y * svgScale.y) 0
              + (obj.bbox.max.y - obj.bbox.min.y) * svgScale.y⟩
      ∧ (∀ p : Vec2, obj.bbox.min.x ≤ p.x → p.x ≤ obj.bbox.max.x → obj.bbox.min.y ≤ p.y →
          p.y ≤ obj.bbox.max.y →
          (textureOffset.x + Max.max (obj.bbox.min.x * svgScale.x) 0
              ≤ (toTexture m svgScale
                  (renderSetup m t textureOffset svgScale reverse obj false) p).x
            ∧ (toTexture m svgScale
                  (renderSetup m t textureOffset svgScale reverse obj false) p).x
              ≤ textureOffset.x + Max.max (obj.bbox.min.x * svgScale.x) 0
                + (obj.bbox.max.x - obj.bbox.min.x) * svgScale.x)
          ∧ (textureOffset.y + Max.max (obj.bbox.min.y * svgScale.y) 0
              ≤ (toTexture m svgScale
                  (renderSetup m t textureOffset svgScale reverse obj false) p).y
            ∧ (toTexture m svgScale
                  (renderSetup m t textureOffset svgScale reverse obj false) p).y
              ≤ textureOffset.y + Max.max (obj.bbox.min.y * svgScale.y) 0
                + (obj.bbox.max.y - obj.bbox.min.y) * svgScale.y))
      ∧ ((⟨textureOffset.x + Max.max (obj.bbox.min.x * svgScale.x) 0,
            textureOffset.y + Max.max (obj.bbox.min.y * svgScale.y) 0⟩ : Vec2) = textureOffset ↔
          obj.bbox.min.x * svgScale.x ≤ 0 ∧ obj.bbox.min.y * svgScale.y ≤ 0) := by
  have hlin := toTexture_linear m hm t textureOffset svgScale reverse obj false hx hy hsx hsy
  have hmin := minCoord_eq m hm t textureOffset svgScale reverse obj
  refine ⟨?_, ?_, ?_, ?_⟩
  · rw [hlin, hmin]
    simp
  · rw [hlin, hmin]
  · intro p h1 h2 h3 h4
    rw [hlin, hmin]
    simp only
    have a1 : 0 ≤ (p.x - obj.bbox.min.x) * svgScale.x := mul_nonneg (by linarith) hsx.le
    have a2 : (p.x - obj.bbox.min.x) * svgScale.x ≤ (obj.bbox.max.x - obj.bbox.min.x) * svgScale.x :=
      mul_le_mul_of_nonneg_right (by linarith) hsx.le
    have b1 : 0 ≤ (p.y - obj.bbox.min.y) * svgScale.y := mul_nonneg (by linarith) hsy.le
    have b2 : (p.y - obj.bbox.min.y) * svgScale.y ≤ (obj.bbox.max.y - obj.bbox.min.y) * svgScale.y :=
      mul_le_mul_of_nonneg_right (by linarith) hsy.le
    exact ⟨⟨by linarith, by linarith⟩, by linarith, by linarith⟩
  · obtain ⟨ox, oy⟩ := textureOffset
    simp only [Vec2.mk.injEq, add_right_eq_self, max_eq_right_iff]

/-- Witness of the amended C29: the shape with the box `(5,5)` to `(15,15)` at
scale 1 and texture offset `(100,100)`; the corners go to `(105,105)` and
`(115,115)`. -/
theorem bbox_maps_to_rectangle_at_clamped_minimum_witness :
    StandardCMath (sampleCMath 0)
      ∧ toTexture (sampleCMath 0) ⟨1, 1⟩
          (renderSetup (sampleCMath 0) 1 ⟨100, 100⟩ ⟨1, 1⟩ false sampleShifted false)
          sampleShifted.bbox.min
        = ⟨100 + Max.max (sampleShifted.bbox.min.x * 1) 0,
           100 + Max.max (sampleShifted.bbox.min.y * 1) 0⟩
      ∧ toTexture (sampleCMath 0) ⟨1, 1⟩
          (renderSetup (sampleCMath 0) 1 ⟨100, 100⟩ ⟨1, 1⟩ false sampleShifted false)
          sampleShifted.bbox.max
        = ⟨100 + Max.max (sampleShifted.bbox.min.x * 1) 0
              + (sampleShifted.bbox.max.x - sampleShifted.bbox.min.x) * 1,
           100 + Max.max (sampleShifted.bbox.min.y * 1) 0
              + (sampleShifted.bbox.max.y - sampleShifted.bbox.min.y) * 1⟩ :=
  ⟨standard_sampleCMath 0,
    (bbox_maps_to_rectangle_at_clamped_minimum (sampleCMath 0) (standard_sampleCMath 0) 1
      ⟨100, 100⟩ ⟨1, 1⟩ false sampleShifted (by norm_num [sampleShifted])
      (by norm_num [sampleShifted]) (by norm_num) (by norm_num)).1,
    (bbox_maps_to_rectangle_at_clamped_minimum (sampleCMath 0) (standard_sampleCMath 0) 1
      ⟨100, 100⟩ ⟨1, 1⟩ false sampleShifted (by norm_num [sampleShifted])
      (by norm_num [sampleShifted]) (by norm_num) (by norm_num)).2.1⟩

/-! ## The create animation: curves drawn in part -/

theorem partialBezier3_eq (p0 p1 p2 p3 : Vec2) (τ : ℚ) :
    partialBezier3 p0 p1 p2 p3 τ
      = (p0,
         (1 - τ) * p0 + τ * p1,
         ((1 - τ) ^ 2) * p0 + (2 * τ * (1 - τ)) * p1 + (τ ^ 2) * p2,
         bezier3Point p0 p1 p2 p3 τ) := by
  obtain ⟨x0, y0⟩ := p0
  obtain ⟨x1, y1⟩ := p1
  obtain ⟨x2, y2⟩ := p2
  obtain ⟨x3, y3⟩ := p3
  simp only [partialBezier3, bezier3Point, vec2_mul_mk, vec2_add_mk, Prod.mk.injEq, Vec2.mk.injEq]
  refine ⟨⟨?_, ?_⟩, ⟨?_, ?_⟩, ⟨?_, ?_⟩, ⟨?_, ?_⟩⟩ <;> ring

theorem strokeCurve_bezier3 (m : CMath) (p0 p1 p2 p3 : Vec2) (flag : Bool) (left : ℚ) :
    strokeCurve m ⟨p0, .bezier3 p1 p2 p3, flag⟩ left
      = (if left < (m.length (p3 - p0)
              + (m.length (p1 - p0) + m.length (p2 - p1) + m.length (p3 - p2))) / 2 then
          .bezierTo
            (partialBezier3 p0 p1 p2 p3 (left / ((m.length (p3 - p0)
              + (m.length (p1 - p0) + m.length (p2 - p1) + m.length (p3 - p2))) / 2))).2.1
            (partialBezier3 p0 p1 p2 p3 (left / ((m.length (p3 - p0)
              + (m.length (p1 - p0) + m.length (p2 - p1) + m.length (p3 - p2))) / 2))).2.2.1
            (partialBezier3 p0 p1 p2 p3 (left / ((m.length (p3 - p0)
              + (m.length (p1 - p0) + m.length (p2 - p1) + m.length (p3 - p2))) / 2))).2.2.2
        else .bezierTo p1 p2 p3,
        (m.length (p3 - p0)
          + (m.length (p1 - p0) + m.length (p2 - p1) + m.length (p3 - p2))) / 2) := by
  simp only [strokeCurve]
  split <;> rfl

/-- Claim C32: when a cubic `(p0, p1, p2, p3)` does not fit the length that is
left, the stroke pass emits the cubic `(q1, q2, q3)` (drawn from `p0`) that is
the left part of the de Casteljau subdivision at `τ = left / length`: at every
`s` the cubic Bézier polynomial of `(p0, q1, q2, q3)` is that of
`(p0, p1, p2, p3)` at `τ * s`, and `q3` is the point of the original curve at
`τ`. -/
theorem partial_cubic_is_left_subdivision (m : CMath) (p0 p1 p2 p3 : Vec2) (flag : Bool)
    (left : ℚ) (hshort : left < (strokeCurve m ⟨p0, .bezier3 p1 p2 p3, flag⟩ left).2) :
    ∃ q1 q2 q3,
      (strokeCurve m ⟨p0, .bezier3 p1 p2 p3, flag⟩ left).1 = .bezierTo q1 q2 q3
        ∧ (∀ s, bezier3Point p0 q1 q2 q3 s
            = bezier3Point p0 p1 p2 p3
                (left / (strokeCurve m ⟨p0, .bezier3 p1 p2 p3, flag⟩ left).2 * s))
        ∧ q3 = bezier3Point p0 p1 p2 p3
            (left / (strokeCurve m ⟨p0, .bezier3 p1 p2 p3, flag⟩ left).2) := by
  rw [strokeCurve_bezier3] at hshort ⊢
  simp only at hshort ⊢
  generalize (m.length (p3 - p0) + (m.length (p1 - p0) + m.length (p2 - p1)
    + m.length (p3 - p2))) / 2 = len at hshort ⊢
  rw [if_pos hshort, partialBezier3_eq]
  refine ⟨_, _, _, rfl, ?_, rfl⟩
  intro s
  generalize left / len = τ
  obtain ⟨x0, y0⟩ := p0
  obtain ⟨x1, y1⟩ := p1
  obtain ⟨x2, y2⟩ := p2
  obtain ⟨x3, y3⟩ := p3
  simp only [bezier3Point, vec2_mul_mk, vec2_add_mk, Vec2.mk.injEq]
  constructor <;> ring

theorem strokeCurve_sampleCubic :
    strokeCurve (sampleCMath 0) sampleCubic 3
      = (.bezierTo ⟨0, 3 / 2⟩ ⟨3 / 4, 9 / 4⟩ ⟨3 / 2, 9 / 4⟩, 6) := by
  simp [strokeCurve, sampleCubic, sampleCMath, partialBezier3, vec2_sub_mk, vec2_add_mk,
    vec2_mul_mk]
  norm_num

/-- Witness of C32: the cubic `(0,0)`, `(0,3)`, `(3,3)`, `(3,0)` has the
length estimate 6 with the sample length; with 3 left it is emitted up to
`τ = 1/2` as the cubic `(0, 3/2)`, `(3/4, 9/4)`, `(3/2, 9/4)`. -/
theorem partial_cubic_is_left_subdivision_witness :
    (3 : ℚ) < (strokeCurve (sampleCMath 0) sampleCubic 3).2
      ∧ strokeCurve (sampleCMath 0) sampleCubic 3
        = (.bezierTo ⟨0, 3 / 2⟩ ⟨3 / 4, 9 / 4⟩ ⟨3 / 2, 9 / 4⟩, 6)
      ∧ ∃ q1 q2 q3,
        (strokeCurve (sampleCMath 0) sampleCubic 3).1 = .bezierTo q1 q2 q3
          ∧ (∀ s, bezier3Point ⟨0, 0⟩ q1 q2 q3 s
              = bezier3Point ⟨0, 0⟩ ⟨0, 3⟩ ⟨3, 3⟩ ⟨3, 0⟩
                  (3 / (strokeCurve (sampleCMath 0) sampleCubic 3).2 * s))
          ∧ q3 = bezier3Point ⟨0, 0⟩ ⟨0, 3⟩ ⟨3, 3⟩ ⟨3, 0⟩
              (3 / (strokeCurve (sampleCMath 0) sampleCubic 3).2) := by
  have h : (3 : ℚ) < (strokeCurve (sampleCMath 0) sampleCubic 3).2 := by
    rw [strokeCurve_sampleCubic]
    norm_num
  exact ⟨h, strokeCurve_sampleCubic,
    partial_cubic_is_left_subdivision (sampleCMath 0) ⟨0, 0⟩ ⟨0, 3⟩ ⟨3, 3⟩ ⟨3, 0⟩ false 3 h⟩

/-- Claim C33, the code at the failing input: the quadratic `(0,0)`, `(1,1)`,
`(2,0)` has the length 3 in the stroke pass (sample length); with 3/2 left,
`τ = 1/2`, the emitted cubic ends at `(5/8, 1/2)`, while the point of the
quadratic at `1/2` is `(1, 1/2)`. -/
theorem partial_quadratic_ends_off_the_curve :
    strokeCurve (sampleCMath 0) sampleQuadratic (3 / 2)
        = (.bezierTo ⟨1 / 6, 1 / 6⟩ ⟨3 / 8, 3 / 8⟩ ⟨5 / 8, 1 / 2⟩, 3)
      ∧ bezier2Point ⟨0, 0⟩ ⟨1, 1⟩ ⟨2, 0⟩ ((3 / 2) / 3) = ⟨1, 1 / 2⟩ := by
  have h1 : |(2 : ℚ) / 3| = 2 / 3 := abs_of_pos (by norm_num)
  have h2 : |(1 : ℚ) / 3| = 1 / 3 := abs_of_pos (by norm_num)
  constructor
  · simp [strokeCurve, sampleQuadratic, sampleCMath, partialBezier3, vec2_sub_mk, vec2_add_mk,
      vec2_mul_mk, vec2_mul_right_mk]
    norm_num [h1, h2]
  · simp only [bezier2Point, vec2_mul_mk, vec2_add_mk, Vec2.mk.injEq]
    norm_num

/-- Claim C34, the code at the failing input: for the quadratic `(0,0)`,
`(1,1)`, `(2,0)` the fill pass and the stroke pass (curve drawn whole) emit the
cubic with the control points `(2/3, 2/3)` and `(1, 1)`; the degree elevated
cubic has the second control point `2/3 (1,1) + 1/3 (2,0) = (4/3, 2/3)`.  At
the parameter `1/2` the emitted cubic is at `(7/8, 5/8)`, the quadratic at
`(1, 1/2)`. -/
theorem quadratic_emitted_with_control_point_twice :
    fillCurve sampleQuadratic = .bezierTo ⟨2 / 3, 2 / 3⟩ ⟨1, 1⟩ ⟨2, 0⟩
      ∧ strokeCurve (sampleCMath 0) sampleQuadratic 3
        = (.bezierTo ⟨2 / 3, 2 / 3⟩ ⟨1, 1⟩ ⟨2, 0⟩, 3)
      ∧ ((2 : ℚ) / 3) * (⟨1, 1⟩ : Vec2) + ((1 : ℚ) / 3) * (⟨2, 0⟩ : Vec2) = ⟨4 / 3, 2 / 3⟩
      ∧ bezier3Point ⟨0, 0⟩ ⟨2 / 3, 2 / 3⟩ ⟨1, 1⟩ ⟨2, 0⟩ (1 / 2) = ⟨7 / 8, 5 / 8⟩
      ∧ bezier2Point ⟨0, 0⟩ ⟨1, 1⟩ ⟨2, 0⟩ (1 / 2) = ⟨1, 1 / 2⟩ := by
  have h1 : |(2 : ℚ) / 3| = 2 / 3 := abs_of_pos (by norm_num)
  have h2 : |(1 : ℚ) / 3| = 1 / 3 := abs_of_pos (by norm_num)
  refine ⟨?_, ?_, ?_, ?_, ?_⟩
  · simp [fillCurve, sampleQuadratic, vec2_add_mk, vec2_mul_mk]
    norm_num
  · simp [strokeCurve, sampleQuadratic, sampleCMath, partialBezier3, vec2_sub_mk, vec2_add_mk,
      vec2_mul_mk, vec2_mul_right_mk]
    norm_num [h1, h2]
  · simp only [vec2_mul_mk, vec2_add_mk, Vec2.mk.injEq]
    norm_num
  · simp only [bezier3Point, vec2_mul_mk, vec2_add_mk, Vec2.mk.injEq]
    norm_num
  · simp only [bezier2Point, vec2_mul_mk, vec2_add_mk, Vec2.mk.injEq]
    norm_num

/-! ## Interpolation: the clamp of the contour index -/

theorem skip_mul_le (less more k : ℕ) (h1 : 1 ≤ less) (hle : less ≤ more) (hk : k < less) :
    k * Max.max (more / less) 1 ≤ more - 1 := by
  have hq : 1 ≤ more / less := Nat.div_pos hle h1
  have hmax : Max.max (more / less) 1 = more / less := Nat.max_eq_left hq
  rw [hmax]
  have h2 : more / less * less ≤ more := Nat.div_mul_le_self more less
  have h3 : (k + 1) * (more / less) ≤ less * (more / less) := Nat.mul_le_mul_right _ hk
  rw [Nat.succ_mul, Nat.mul_comm less] at h3
  omega

theorem skip_mul_injective (skip j k : ℕ) (hskip : 1 ≤ skip) (h : j * skip = k * skip) :
    j = k :=
  Nat.eq_of_mul_eq_mul_right hskip h

/-- Claim C36: with at least one contour on both sides, `lessCount` the smaller
and `moreCount` the larger number of contours and
`skip = max (moreCount / lessCount) 1`: for every `k < lessCount` the product
`k * skip` is at most `moreCount - 1`, so the clamp leaves it unchanged and
turn `k` of the loop reads contour `k * skip` of the object with more contours;
and two different turns read different contours of that object. -/
theorem clamp_never_changes_a_read_index (src dst : SvgObject) (t : ℚ) (k : ℕ)
    (h : 1 ≤ Min.min src.numContours dst.numContours)
    (hk : k < Min.min src.numContours dst.numContours) :
    k * Max.max (Max.max src.numContours dst.numContours
          / Min.min src.numContours dst.numContours) 1
        ≤ Max.max src.numContours dst.numContours - 1
      ∧ Min.min
          (k * Max.max (Max.max src.numContours dst.numContours
            / Min.min src.numContours dst.numContours) 1)
          (Max.max src.numContours dst.numContours - 1)
        = k * Max.max (Max.max src.numContours dst.numContours
            / Min.min src.numContours dst.numContours) 1
      ∧ (∃ steps moveTo curves, render2DInterpolationPaths src dst t = some steps
          ∧ steps[k]? = some (.path k
              (k * Max.max (Max.max src.numContours dst.numContours
                / Min.min src.numContours dst.numContours) 1)
              moveTo curves))
      ∧ ∀ j, j < Min.min src.numContours dst.numContours → j ≠ k →
          j * Max.max (Max.max src.numContours dst.numContours
              / Min.min src.numContours dst.numContours) 1
            ≠ k * Max.max (Max.max src.numContours dst.numContours
              / Min.min src.numContours dst.numContours) 1 := by
  have hle : Min.min src.numContours dst.numContours ≤ Max.max src.numContours dst.numContours :=
    le_trans (Nat.min_le_left _ _) (Nat.le_max_left _ _)
  have hbound := skip_mul_le _ _ k h hle hk
  have hclamp := Nat.min_eq_left hbound
  refine ⟨hbound, hclamp, ?_, ?_⟩
  · by_cases hsd : src.numContours ≤ dst.numContours
    · have hmin : Min.min src.numContours dst.numContours = src.numContours :=
        Nat.min_eq_left hsd
      have hmax : Max.max src.numContours dst.numContours = dst.numContours :=
        Nat.max_eq_right hsd
      simp only [hmin, hmax] at hclamp h hk ⊢
      have hne : ¬ src.numContours = 0 := by omega
      have hgt : ¬ src.numContours > dst.numContours := by omega
      obtain ⟨moveTo, curves, hstep⟩ := getElem?_contourLoop src dst
        (Max.max (dst.numContours / src.numContours) 1) t (Nat.le_max_right _ _) (by omega)
        src.numContours 0 0 k hk (by omega) (by simp)
      rw [Nat.zero_add, hclamp] at hstep
      exact ⟨_, moveTo, curves,
        by simp only [render2DInterpolationPaths, hsd, if_true, hgt, if_false, hne], hstep⟩
    · have hlt : dst.numContours < src.numContours := by omega
      have hmin : Min.min src.numContours dst.numContours = dst.numContours :=
        Nat.min_eq_right (by omega)
      have hmax : Max.max src.numContours dst.numContours = src.numContours :=
        Nat.max_eq_left (by omega)
      simp only [hmin, hmax] at hclamp h hk ⊢
      have hne : ¬ dst.numContours = 0 := by omega
      obtain ⟨moveTo, curves, hstep⟩ := getElem?_contourLoop dst src
        (Max.max (src.numContours / dst.numContours) 1) t (Nat.le_max_right _ _) (by omega)
        dst.numContours 0 0 k hk (by omega) (by simp)
      rw [Nat.zero_add, hclamp] at hstep
      exact ⟨_, moveTo, curves,
        by simp only [render2DInterpolationPaths, hsd, if_false, hlt, gt_iff_lt, if_true, hne],
        hstep⟩
  · intro j _ hjk heq
    exact hjk (skip_mul_injective _ j k (Nat.le_max_right _ _) heq)

/-- Witness of C36: two contours against three contours, `skip = 1`; turn 1
reads contour 1 of the object with three contours. -/
theorem clamp_never_changes_a_read_index_witness :
    1 ≤ Min.min sampleTwoContours.numContours sampleThreeContours.numContours
      ∧ 1 < Min.min sampleTwoContours.numContours sampleThreeContours.numContours
      ∧ 1 * Max.max (Max.max sampleTwoContours.numContours sampleThreeContours.numContours
            / Min.min sampleTwoContours.numContours sampleThreeContours.numContours) 1
          ≤ Max.max sampleTwoContours.numContours sampleThreeContours.numContours - 1
      ∧ ∃ steps moveTo curves,
          render2DInterpolationPaths sampleTwoContours sampleThreeContours 0 = some steps
            ∧ steps[1]? = some (.path 1
                (1 * Max.max (Max.max sampleTwoContours.numContours
                    sampleThreeContours.numContours
                  / Min.min sampleTwoContours.numContours sampleThreeContours.numContours) 1)
                moveTo curves) :=
  ⟨by decide, by decide,
    (clamp_never_changes_a_read_index sampleTwoContours sampleThreeContours 0 1 (by decide)
      (by decide)).1,
    (clamp_never_changes_a_read_index sampleTwoContours sampleThreeContours 0 1 (by decide)
      (by decide)).2.2.1⟩

/-! ## Approximate perimeter: bounds -/

theorem vec2_sub_add_sub (a b c : Vec2) : c - a = (b - a) + (c - b) := by
  obtain ⟨ax, ay⟩ := a
  obtain ⟨bx, by0⟩ := b
  obtain ⟨cx, cy⟩ := c
  simp only [vec2_sub_mk, vec2_add_mk, Vec2.mk.injEq]
  constructor <;> ring

theorem approxLength_bounds (m : CMath) (hlen : ∀ v, 0 ≤ m.length v)
    (htri : ∀ a b, m.length (a + b) ≤ m.length a + m.length b) (curve : Curve) :
    0 ≤ curve.approxLength m ∧ lineLength m curve ≤ curve.approxLength m
      ∧ curve.approxLength m ≤ polygonLength m curve := by
  obtain ⟨p0, dat, flag⟩ := curve
  cases dat with
  | line p1 =>
    simp only [Curve.approxLength, lineLength, polygonLength, Curve.endPoint]
    exact ⟨hlen _, le_refl _, le_refl _⟩
  | bezier2 p1 p2 =>
    simp only [Curve.approxLength, lineLength, polygonLength, Curve.endPoint]
    have h1 : m.length (p2 - p0) ≤ m.length (p1 - p0) + m.length (p2 - p1) := by
      rw [vec2_sub_add_sub p0 p1 p2]
      exact htri _ _
    have a := hlen (p2 - p0)
    have b := hlen (p1 - p0)
    have c := hlen (p2 - p1)
    refine ⟨by positivity, ?_, ?_⟩ <;> linarith
  | bezier3 p1 p2 p3 =>
    simp only [Curve.approxLength, lineLength, polygonLength, Curve.endPoint]
    have h1 : m.length (p3 - p0)
        ≤ m.length (p1 - p0) + m.length (p2 - p1) + m.length (p3 - p2) := by
      rw [vec2_sub_add_sub p0 p2 p3, vec2_sub_add_sub p0 p1 p2]
      have := htri ((p1 - p0) + (p2 - p1)) (p3 - p2)
      have := htri (p1 - p0) (p2 - p1)
      linarith
    have a := hlen (p3 - p0)
    have b := hlen (p1 - p0)
    have c := hlen (p2 - p1)
    have d := hlen (p3 - p2)
    refine ⟨by positivity, ?_, ?_⟩ <;> linarith

theorem perimeter_eq_sum (m : CMath) (obj : SvgObject) :
    (obj.calculateApproximatePerimeter m).approximatePerimeter
      = ((allCurves obj).map fun c => c.approxLength m).sum := by
  simp only [SvgObject.calculateApproximatePerimeter, foldl_foldl_add_eq_sum, zero_add, allCurves]
  rw [sum_flatten_map]

/-- Claim C39: when the external `length` is never negative and satisfies the
triangle inequality, the length estimate of every curve is not negative, at
least the length of the chord from `p0` to the end point and at most the
length of the control polygon; the perimeter that
`calculateApproximatePerimeter` computes is at least the sum of the chords of
all curves; and it is 0 unless some contour has a curve. -/
theorem estimate_between_chord_and_polygon (m : CMath) (hlen : ∀ v, 0 ≤ m.length v)
    (htri : ∀ a b, m.length (a + b) ≤ m.length a + m.length b) (curve : Curve)
    (obj : SvgObject) :
    (0 ≤ curve.approxLength m ∧ lineLength m curve ≤ curve.approxLength m
        ∧ curve.approxLength m ≤ polygonLength m curve)
      ∧ ((allCurves obj).map (lineLength m)).sum
        ≤ (obj.calculateApproximatePerimeter m).approximatePerimeter
      ∧ ((obj.calculateApproximatePerimeter m).approximatePerimeter = 0
        ∨ ∃ contour ∈ obj.contours, contour.curves ≠ []) := by
  refine ⟨approxLength_bounds m hlen htri curve, ?_, ?_⟩
  · rw [perimeter_eq_sum]
    apply List.sum_le_sum
    intro c _
    exact (approxLength_bounds m hlen htri c).2.1
  · by_cases h : ∃ contour ∈ obj.contours, contour.curves ≠ []
    · exact Or.inr h
    · left
      push_neg at h
      rw [perimeter_eq_sum]
      have hall : allCurves obj = [] := by
        simp only [allCurves, List.flatten_eq_nil_iff, List.mem_map]
        rintro l ⟨contour, hc, rfl⟩
        exact h contour hc
      rw [hall]
      rfl

theorem sampleCMath_length_triangle (eps : ℚ) (a b : Vec2) :
    (sampleCMath eps).length (a + b) ≤ (sampleCMath eps).length a + (sampleCMath eps).length b := by
  obtain ⟨ax, ay⟩ := a
  obtain ⟨bx, by0⟩ := b
  simp only [sampleCMath, vec2_add_mk]
  have h1 := abs_add ax bx
  have h2 := abs_add ay by0
  linarith

/-- Witness of C39: with the sample length, for the cubic `(0,0)`, `(0,3)`,
`(3,3)`, `(3,0)` (chord 3, estimate 6, control polygon 9) and the shape of the
lines `(0,0)` to `(3,0)` to `(3,7)`. -/
theorem estimate_between_chord_and_polygon_witness :
    lineLength (sampleCMath 0) sampleCubic = 3 ∧ sampleCubic.approxLength (sampleCMath 0) = 6
      ∧ polygonLength (sampleCMath 0) sampleCubic = 9
      ∧ (0 ≤ sampleCubic.approxLength (sampleCMath 0)
        ∧ lineLength (sampleCMath 0) sampleCubic ≤ sampleCubic.approxLength (sampleCMath 0)
        ∧ sampleCubic.approxLength (sampleCMath 0) ≤ polygonLength (sampleCMath 0) sampleCubic)
      ∧ ((allCurves samplePath).map (lineLength (sampleCMath 0))).sum
        ≤ (samplePath.calculateApproximatePerimeter (sampleCMath 0)).approximatePerimeter
      ∧ ((samplePath.calculateApproximatePerimeter (sampleCMath 0)).approximatePerimeter = 0
        ∨ ∃ contour ∈ samplePath.contours, contour.curves ≠ []) := by
  refine ⟨?_, ?_, ?_, estimate_between_chord_and_polygon (sampleCMath 0)
    (sampleCMath_length_nonneg 0) (sampleCMath_length_triangle 0) sampleCubic samplePath⟩
  · simp [lineLength, sampleCubic, sampleCMath, Curve.endPoint, vec2_sub_mk]
  · simp [Curve.approxLength, sampleCubic, sampleCMath, vec2_sub_mk]
    norm_num
  · simp [polygonLength, sampleCubic, sampleCMath, vec2_sub_mk]
    norm_num

/-! ## The create animation: lengths of the stroke pass -/

theorem approxLength_nonneg (m : CMath) (hlen : ∀ v, 0 ≤ m.length v) (curve : Curve) :
    0 ≤ curve.approxLength m := by
  obtain ⟨p0, dat, flag⟩ := curve
  cases dat with
  | line p1 => exact hlen _
  | bezier2 p1 p2 =>
    simp only [Curve.approxLength]
    have a := hlen (p2 - p0)
    have b := hlen (p1 - p0)
    have c := hlen (p2 - p1)
    positivity
  | bezier3 p1 p2 p3 =>
    simp only [Curve.approxLength]
    have a := hlen (p3 - p0)
    have b := hlen (p1 - p0)
    have c := hlen (p2 - p1)
    have d := hlen (p3 - p2)
    positivity

theorem strokeCurve_length (m : CMath)
    (hhom : ∀ (k : ℚ) (v : Vec2), 0 ≤ k → m.length (k * v) = k * m.length v) (curve : Curve)
    (left : ℚ) : (strokeCurve m curve left).2 = curve.approxLength m := by
  obtain ⟨p0, dat, flag⟩ := curve
  cases dat with
  | line p1 =>
    simp only [strokeCurve, Curve.approxLength]
    split <;> rfl
  | bezier3 p1 p2 p3 =>
    simp only [strokeCurve, Curve.approxLength]
    split <;> rfl
  | bezier2 c e =>
    have h1 : ((1 : ℚ) / 3) * p0 + ((2 : ℚ) / 3) * c - p0 = ((2 : ℚ) / 3) * (c - p0) := by
      obtain ⟨x0, y0⟩ := p0
      obtain ⟨cx, cy⟩ := c
      simp only [vec2_mul_mk, vec2_add_mk, vec2_sub_mk, Vec2.mk.injEq]
      constructor <;> ring
    have h2 : ((2 : ℚ) / 3) * c + ((1 : ℚ) / 3) * c - (((1 : ℚ) / 3) * p0 + ((2 : ℚ) / 3) * c)
        = ((1 : ℚ) / 3) * (c - p0) := by
      obtain ⟨x0, y0⟩ := p0
      obtain ⟨cx, cy⟩ := c
      simp only [vec2_mul_mk, vec2_add_mk, vec2_sub_mk, Vec2.mk.injEq]
      constructor <;> ring
    have h3 : e - (((2 : ℚ) / 3) * c + ((1 : ℚ) / 3) * c) = e - c := by
      obtain ⟨ex, ey⟩ := e
      obtain ⟨cx, cy⟩ := c
      simp only [vec2_mul_mk, vec2_add_mk, vec2_sub_mk, Vec2.mk.injEq]
      constructor <;> ring
    have hval : (m.length (e - p0)
        + (m.length (((1 : ℚ) / 3) * p0 + ((2 : ℚ) / 3) * c - p0)
          + m.length (((2 : ℚ) / 3) * c + ((1 : ℚ) / 3) * c
              - (((1 : ℚ) / 3) * p0 + ((2 : ℚ) / 3) * c))
          + m.length (e - (((2 : ℚ) / 3) * c + ((1 : ℚ) / 3) * c)))) / 2
        = (m.length (e - p0) + (m.length (c - p0) + m.length (e - c))) / 2 := by
      rw [h1, h2, h3, hhom _ _ (by norm_num), hhom _ _ (by norm_num)]
      ring
    simp only [strokeCurve, Curve.approxLength]
    split <;> exact hval

theorem strokeCurve_full (m : CMath) (curve : Curve) (left : ℚ)
    (h : ¬ left < (strokeCurve m curve left).2) :
    (strokeCurve m curve left).1 = fillCurve curve := by
  obtain ⟨p0, dat, flag⟩ := curve
  cases dat with
  | line p1 =>
    simp only [strokeCurve, fillCurve] at h ⊢
    split
    · rename_i hlt
      simp only [hlt, if_true] at h
      exact absurd trivial h
    · rfl
  | bezier3 p1 p2 p3 =>
    simp only [strokeCurve, fillCurve] at h ⊢
    split
    · rename_i hlt
      simp only [hlt, if_true] at h
      exact absurd trivial h
    · rfl
  | bezier2 c e =>
    simp only [strokeCurve, fillCurve] at h ⊢
    split
    · rename_i hlt
      simp only [hlt, if_true] at h
      exact absurd trivial h
    · rfl

theorem drawCommands_strokeStyle (parent : AnimObject) (p : ℚ) :
    drawCommands (strokeStyle parent p) = [] := by
  unfold strokeStyle
  split <;> rfl

theorem drawCommands_strokeCurves_full (m : CMath) (hlen : ∀ v, 0 ≤ m.length v)
    (hhom : ∀ (k : ℚ) (v : Vec2), 0 ≤ k → m.length (k * v) = k * m.length v) (B : ℚ)
    (curves : List Curve) (d : ℚ)
    (h : d + (curves.map fun c => c.approxLength m).sum ≤ B) :
    drawCommands (strokeCurves m B curves d).1 = curves.map fillCurve
      ∧ (strokeCurves m B curves d).2 = d + (curves.map fun c => c.approxLength m).sum := by
  induction curves generalizing d with
  | nil => simp [strokeCurves, drawCommands]
  | cons c rest ih =>
    simp only [List.map_cons, List.sum_cons] at h ⊢
    have hc := approxLength_nonneg m hlen c
    have hrest : 0 ≤ (rest.map fun c => c.approxLength m).sum :=
      List.sum_nonneg (by
        intro x hx
        rw [List.mem_map] at hx
        obtain ⟨q, -, rfl⟩ := hx
        exact approxLength_nonneg m hlen q)
    have hneg : ¬ B - d < 0 := by linarith
    have hfull : ¬ B - d < (strokeCurve m c (B - d)).2 := by
      rw [strokeCurve_length m hhom]
      linarith
    obtain ⟨ih1, ih2⟩ := ih (d + c.approxLength m) (by linarith)
    simp only [strokeCurves, hneg, if_false, strokeCurve_length m hhom,
      strokeCurve_full m c (B - d) hfull, drawCommands_append, drawCommands_fillCurve, ih1, ih2]
    constructor
    · have hmove : drawCommands (if c.moveToP0 = true then [NvgCmd.moveTo c.p0] else []) = [] := by
        split <;> rfl
      rw [hmove]
      rfl
    · ring

theorem drawCommands_strokeContours_full (m : CMath) (hlen : ∀ v, 0 ≤ m.length v)
    (hhom : ∀ (k : ℚ) (v : Vec2), 0 ≤ k → m.length (k * v) = k * m.length v)
    (parent : AnimObject) (p B : ℚ) (contours : List Contour) (d : ℚ)
    (h : d + (((contours.map fun contour => contour.curves).flatten).map
        fun c => c.approxLength m).sum ≤ B) :
    drawCommands (strokeContours m parent p B contours d)
      = ((contours.map fun contour => contour.curves).flatten).map fillCurve := by
  induction contours generalizing d with
  | nil => simp [strokeContours, drawCommands]
  | cons contour rest ih =>
    simp only [List.map_cons, List.flatten_cons, List.map_append, List.sum_append] at h ⊢
    have hrest : 0 ≤ (((rest.map fun contour => contour.curves).flatten).map
        fun c => c.approxLength m).sum :=
      List.sum_nonneg (by
        intro x hx
        rw [List.mem_map] at hx
        obtain ⟨q, -, rfl⟩ := hx
        exact approxLength_nonneg m hlen q)
    obtain ⟨h1, h2⟩ := drawCommands_strokeCurves_full m hlen hhom B contour.curves d
      (by linarith)
    have ih2 := ih (d + (contour.curves.map fun c => c.approxLength m).sum) (by linarith)
    simp only [strokeContours]
    cases hc : contour.curves with
    | nil =>
      rw [hc] at ih2
      simp only [List.map_nil, List.sum_nil, add_zero] at ih2
      simp only [List.nil_append, drawCommands, List.map_nil]
      rw [if_neg (by simp only [hc, List.map_nil, List.sum_nil, add_zero] at h; linarith)]
      exact ih2
    | cons first others =>
      rw [hc] at h1 h2 ih2 h
      simp only [drawCommands_append, drawCommands, List.append_eq, drawCommands_strokeStyle,
        List.nil_append, h1, h2]
      rw [if_neg (by linarith)]
      rw [ih2]

/-- Claim C37: when the external `length` is never negative and positively
homogeneous, the length that the stroke pass adds to `lengthDrawn` for a curve
is the estimate that `calculateApproximatePerimeter` uses for it, for a line, a
quadratic and a cubic; and for a shape whose `approximatePerimeter` is up to
date and positive and a time `tt ≥ 1` (after the optional reversal) the drawing
commands of the stroke pass are those of all curves of all contours, in order,
each drawn whole as in the fill pass. -/
theorem stroke_lengths_are_perimeter_estimates (m : CMath) (hlen : ∀ v, 0 ≤ m.length v)
    (hhom : ∀ (k : ℚ) (v : Vec2), 0 ≤ k → m.length (k * v) = k * m.length v) (t tt : ℚ)
    (parent : AnimObject) (textureOffset svgScale : Vec2) (reverse : Bool) (obj : SvgObject)
    (isSvgGroup : Bool) (htt : tt = if reverse then 1 - t else t)
    (hP : obj.approximatePerimeter = (obj.calculateApproximatePerimeter m).approximatePerimeter)
    (hpos : 0 < obj.approximatePerimeter) (ht1 : 1 ≤ tt) :
    (∀ (curve : Curve) (left : ℚ), (strokeCurve m curve left).2 = curve.approxLength m)
      ∧ drawCommands (strokePassLocal m parent
          (renderSetup m t textureOffset svgScale reverse obj isSvgGroup) obj)
        = (allCurves obj).map fillCurve
      ∧ drawCommands (strokePass m t parent textureOffset svgScale reverse obj isSvgGroup)
        = (allCurves obj).map fun c => (fillCurve c).mapPoints
            (toTexture m svgScale
              (renderSetup m t textureOffset svgScale reverse obj isSvgGroup)) := by
  have hB : (renderSetup m t textureOffset svgScale reverse obj isSvgGroup).lengthToDraw
      = tt * obj.approximatePerimeter := by
    simp only [renderSetup, htt]
  have hBpos : 0 < tt * obj.approximatePerimeter := mul_pos (by linarith) hpos
  have hsum : ((allCurves obj).map fun c => c.approxLength m).sum = obj.approximatePerimeter := by
    rw [hP, perimeter_eq_sum]
  have hlocal : drawCommands (strokePassLocal m parent
      (renderSetup m t textureOffset svgScale reverse obj isSvgGroup) obj)
      = (allCurves obj).map fillCurve := by
    unfold strokePassLocal
    rw [hB, if_pos hBpos]
    apply drawCommands_strokeContours_full m hlen hhom
    rw [zero_add]
    have := hsum
    unfold allCurves at this
    rw [this]
    nlinarith
  refine ⟨strokeCurve_length m hhom, hlocal, ?_⟩
  unfold strokePass
  simp only []
  rw [drawCommands_map, hlocal, List.map_map]
  rfl

theorem sampleCMath_length_homogeneous (eps k : ℚ) (v : Vec2) (hk : 0 ≤ k) :
    (sampleCMath eps).length (k * v) = k * (sampleCMath eps).length v := by
  obtain ⟨x, y⟩ := v
  simp only [sampleCMath, vec2_mul_mk, abs_mul, abs_of_nonneg hk]
  ring

theorem sampleMixed_perimeter :
    sampleMixed.approximatePerimeter
      = (sampleMixed.calculateApproximatePerimeter (sampleCMath 0)).approximatePerimeter := by
  simp [SvgObject.calculateApproximatePerimeter, sampleMixed, sampleQuadratic,
    Curve.approxLength, sampleCMath, vec2_sub_mk]
  norm_num

/-- Witness of C37: the shape of the quadratic `(0,0)`, `(1,1)`, `(2,0)` and the
line to `(2,3)`, perimeter 6, at `t = 1`: both curves are drawn whole. -/
theorem stroke_lengths_are_perimeter_estimates_witness :
    (strokeCurve (sampleCMath 0) sampleQuadratic 0).2 = 3
      ∧ sampleQuadratic.approxLength (sampleCMath 0) = 3
      ∧ (∀ (curve : Curve) (left : ℚ),
          (strokeCurve (sampleCMath 0) curve left).2 = curve.approxLength (sampleCMath 0))
      ∧ drawCommands (strokePassLocal (sampleCMath 0) (sampleStroke 0)
          (renderSetup (sampleCMath 0) 1 ⟨0, 0⟩ ⟨1, 1⟩ false sampleMixed false) sampleMixed)
        = (allCurves sampleMixed).map fillCurve
      ∧ drawCommands (strokePass (sampleCMath 0) 1 (sampleStroke 0) ⟨0, 0⟩ ⟨1, 1⟩ false
          sampleMixed false)
        = (allCurves sampleMixed).map fun c => (fillCurve c).mapPoints
            (toTexture (sampleCMath 0) ⟨1, 1⟩
              (renderSetup (sampleCMath 0) 1 ⟨0, 0⟩ ⟨1, 1⟩ false sampleMixed false)) := by
  have h1 : |(2 : ℚ) / 3| = 2 / 3 := abs_of_pos (by norm_num)
  have h2 : |(1 : ℚ) / 3| = 1 / 3 := abs_of_pos (by norm_num)
  refine ⟨?_, ?_, stroke_lengths_are_perimeter_estimates (sampleCMath 0)
    (sampleCMath_length_nonneg 0) (fun k v hk => sampleCMath_length_homogeneous 0 k v hk) 1 1
    (sampleStroke 0) ⟨0, 0⟩ ⟨1, 1⟩ false sampleMixed false rfl sampleMixed_perimeter
    (by simp [sampleMixed]) (le_refl _)⟩
  · simp [strokeCurve, sampleQuadratic, sampleCMath, partialBezier3, vec2_sub_mk, vec2_add_mk,
      vec2_mul_mk, vec2_mul_right_mk]
    norm_num [h1, h2]
  · simp [Curve.approxLength, sampleQuadratic, sampleCMath, vec2_sub_mk]
    norm_num

/-! ## The create animation: the division of the stroke pass -/

theorem drawCommands_strokeCurve (m : CMath) (curve : Curve) (left : ℚ) (rest : List NvgCmd) :
    drawCommands ((strokeCurve m curve left).1 :: rest)
      = (strokeCurve m curve left).1 :: drawCommands rest := by
  rcases strokeCurve_cases m curve left with ⟨p, h⟩ | ⟨p1, p2, p3, h⟩ <;> rw [h] <;> rfl

theorem drawCommands_strokeCurves (m : CMath) (B : ℚ) (curves : List Curve) (d : ℚ) :
    drawCommands (strokeCurves m B curves d).1
      = (strokeCalls m B curves d).map fun x => (strokeCurve m x.1 x.2).1 := by
  induction curves generalizing d with
  | nil => rfl
  | cons c rest ih =>
    simp only [strokeCurves, strokeCalls]
    split
    · rfl
    · have hmove : drawCommands (if c.moveToP0 = true then [NvgCmd.moveTo c.p0] else []) = [] := by
        split <;> rfl
      simp only [drawCommands_append, hmove, List.nil_append, drawCommands_strokeCurve, ih,
        List.map_cons]

theorem drawCommands_strokeContours (m : CMath) (parent : AnimObject) (p B : ℚ)
    (contours : List Contour) (d : ℚ) :
    drawCommands (strokeContours m parent p B contours d)
      = (strokeContourCalls m B contours d).map fun x => (strokeCurve m x.1 x.2).1 := by
  induction contours generalizing d with
  | nil => rfl
  | cons contour rest ih =>
    simp only [strokeContours, strokeContourCalls, List.map_append]
    cases hc : contour.curves with
    | nil =>
      simp only [strokeCalls, strokeCurves, List.map_nil, List.nil_append, drawCommands]
      split
      · rfl
      · exact ih d
    | cons first others =>
      simp only [drawCommands_append, drawCommands, List.append_eq, drawCommands_strokeStyle,
        List.nil_append, drawCommands_strokeCurves]
      congr 1
      split
      · rfl
      · exact ih _

theorem strokeCalls_left_nonneg (m : CMath) (B : ℚ) (curves : List Curve) (d : ℚ)
    (x : Curve × ℚ) (hx : x ∈ strokeCalls m B curves d) : 0 ≤ x.2 := by
  induction curves generalizing d with
  | nil => simp [strokeCalls] at hx
  | cons c rest ih =>
    simp only [strokeCalls] at hx
    split at hx
    · simp at hx
    · rename_i hneg
      rw [List.mem_cons] at hx
      rcases hx with rfl | hx
      · exact not_lt.mp hneg
      · exact ih _ hx

theorem strokeContourCalls_left_nonneg (m : CMath) (B : ℚ) (contours : List Contour) (d : ℚ)
    (x : Curve × ℚ) (hx : x ∈ strokeContourCalls m B contours d) : 0 ≤ x.2 := by
  induction contours generalizing d with
  | nil => simp [strokeContourCalls] at hx
  | cons contour rest ih =>
    simp only [strokeContourCalls, List.mem_append] at hx
    rcases hx with hx | hx
    · exact strokeCalls_left_nonneg m B _ d x hx
    · split at hx
      · simp at hx
      · exact ih _ hx

/-- Claim C38: the drawing commands of the stroke pass are, turn by turn, those
of `strokeCurve` on the recorded curve and length left; and in every turn in
which the curve does not fit the length left, so that the fraction
`left / length` is computed, the length is strictly positive and the fraction
is at least 0 and less than 1. -/
theorem stroke_fraction_is_well_defined (m : CMath) (t : ℚ) (parent : AnimObject)
    (textureOffset svgScale : Vec2) (reverse : Bool) (obj : SvgObject) (isSvgGroup : Bool)
    (curve : Curve) (left : ℚ)
    (hcall : (curve, left) ∈ strokePassCalls m
      (renderSetup m t textureOffset svgScale reverse obj isSvgGroup) obj)
    (hshort : left < (strokeCurve m curve left).2) :
    drawCommands (strokePassLocal m parent
          (renderSetup m t textureOffset svgScale reverse obj isSvgGroup) obj)
        = (strokePassCalls m
            (renderSetup m t textureOffset svgScale reverse obj isSvgGroup) obj).map
            (fun x => (strokeCurve m x.1 x.2).1)
      ∧ 0 < (strokeCurve m curve left).2
      ∧ 0 ≤ left / (strokeCurve m curve left).2
      ∧ left / (strokeCurve m curve left).2 < 1 := by
  have hleft : 0 ≤ left := by
    unfold strokePassCalls at hcall
    split at hcall
    · exact strokeContourCalls_left_nonneg m _ _ _ _ hcall
    · simp at hcall
  have hpos : 0 < (strokeCurve m curve left).2 := lt_of_le_of_lt hleft hshort
  refine ⟨?_, hpos, div_nonneg hleft hpos.le, (div_lt_one hpos).mpr hshort⟩
  unfold strokePassLocal strokePassCalls
  split
  · exact drawCommands_strokeContours m parent _ _ _ _
  · rfl

/-- Witness of C38: in the shape of the lines `(0,0)` to `(3,0)` to `(3,7)` at
`t = 1/2` the second line is reached with 2 left of its length 7. -/
theorem stroke_fraction_is_well_defined_witness :
    ((⟨⟨3, 0⟩, .line ⟨3, 7⟩, false⟩ : Curve), (2 : ℚ)) ∈ strokePassCalls (sampleCMath 0)
        (renderSetup (sampleCMath 0) (1 / 2) ⟨0, 0⟩ ⟨1, 1⟩ false samplePath false) samplePath
      ∧ (2 : ℚ) < (strokeCurve (sampleCMath 0) ⟨⟨3, 0⟩, .line ⟨3, 7⟩, false⟩ 2).2
      ∧ 0 < (strokeCurve (sampleCMath 0) ⟨⟨3, 0⟩, .line ⟨3, 7⟩, false⟩ 2).2
      ∧ 0 ≤ 2 / (strokeCurve (sampleCMath 0) ⟨⟨3, 0⟩, .line ⟨3, 7⟩, false⟩ 2).2
      ∧ 2 / (strokeCurve (sampleCMath 0) ⟨⟨3, 0⟩, .line ⟨3, 7⟩, false⟩ 2).2 < 1 := by
  have hcall : ((⟨⟨3, 0⟩, .line ⟨3, 7⟩, false⟩ : Curve), (2 : ℚ)) ∈ strokePassCalls (sampleCMath 0)
      (renderSetup (sampleCMath 0) (1 / 2) ⟨0, 0⟩ ⟨1, 1⟩ false samplePath false) samplePath := by
    simp [strokePassCalls, strokeContourCalls, strokeCalls, strokeCurves, strokeCurve, renderSetup,
      samplePath, sampleTwoSegments, sampleCMath, vec2_sub_mk]
    norm_num
  have hshort : (2 : ℚ) < (strokeCurve (sampleCMath 0) ⟨⟨3, 0⟩, .line ⟨3, 7⟩, false⟩ 2).2 := by
    simp [strokeCurve, sampleCMath, vec2_sub_mk]
    norm_num
  exact ⟨hcall, hshort,
    (stroke_fraction_is_well_defined (sampleCMath 0) (1 / 2) (sampleStroke 0) ⟨0, 0⟩ ⟨1, 1⟩ false
      samplePath false _ 2 hcall hshort).2⟩

/-! ## Groups of shapes: the registry -/

theorem isUnique_foldl (id : String) (names : List String) (b : Bool) :
    names.foldl (fun isUnique name => if cString name = cString id then false else isUnique) b
      = true ↔ b = true ∧ ∀ name ∈ names, cString name ≠ cString id := by
  induction names generalizing b with
  | nil => simp
  | cons n rest ih =>
    simp only [List.foldl_cons, ih, List.mem_cons, forall_eq_or_imp]
    by_cases h : cString n = cString id
    · simp [h]
    · simp [h]

theorem pushSvgToGroup_new (group : SvgGroup) (obj : SvgObject) (id : String) (offset : Vec2)
    (h : ∀ name ∈ group.uniqueObjectNames, cString name ≠ cString id) :
    pushSvgToGroup group obj id offset
      = { group with
          objects := group.objects ++ [obj]
          objectOffsets := group.objectOffsets ++ [offset]
          uniqueObjects := group.uniqueObjects ++ [obj]
          uniqueObjectNames := group.uniqueObjectNames ++ [id] } := by
  unfold pushSvgToGroup
  simp only []
  rw [if_pos ((isUnique_foldl id _ true).mpr ⟨rfl, h⟩)]

theorem pushSvgToGroup_known (group : SvgGroup) (obj : SvgObject) (id : String) (offset : Vec2)
    (h : ¬ ∀ name ∈ group.uniqueObjectNames, cString name ≠ cString id) :
    pushSvgToGroup group obj id offset
      = { group with
          objects := group.objects ++ [obj]
          objectOffsets := group.objectOffsets ++ [offset] } := by
  unfold pushSvgToGroup
  simp only []
  rw [if_neg (fun hu => h ((isUnique_foldl id _ true).mp hu).2)]

theorem pushAll_snoc (group : SvgGroup) (calls : List Push) (call : Push) :
    pushAll group (calls ++ [call])
      = pushSvgToGroup (pushAll group calls) call.obj call.id call.offset := by
  simp [pushAll, List.foldl_append]

theorem pushAll_invariant (bbox : BBox) (calls : List Push) :
    (pushAll (createDefaultGroup bbox) calls).objects = calls.map (fun c => c.obj)
      ∧ (pushAll (createDefaultGroup bbox) calls).objectOffsets = calls.map (fun c => c.offset)
      ∧ ((pushAll (createDefaultGroup bbox) calls).uniqueObjectNames.map cString).Nodup
      ∧ (pushAll (createDefaultGroup bbox) calls).uniqueObjects.length
        = (pushAll (createDefaultGroup bbox) calls).uniqueObjectNames.length
      ∧ List.Sublist
          (List.zip (pushAll (createDefaultGroup bbox) calls).uniqueObjectNames
            (pushAll (createDefaultGroup bbox) calls).uniqueObjects)
          (calls.map fun c => (c.id, c.obj))
      ∧ (∀ c ∈ calls, cString c.id
          ∈ (pushAll (createDefaultGroup bbox) calls).uniqueObjectNames.map cString)
      ∧ (∀ entry ∈ List.zip (pushAll (createDefaultGroup bbox) calls).uniqueObjectNames
            (pushAll (createDefaultGroup bbox) calls).uniqueObjects,
          ∃ pre post offset, calls = pre ++ ⟨entry.2, entry.1, offset⟩ :: post
            ∧ ∀ c ∈ pre, cString c.id ≠ cString entry.1) := by
  induction calls using List.reverseRecOn with
  | nil =>
    simp [pushAll, createDefaultGroup]
  | append_singleton calls call ih =>
    obtain ⟨h1, h2, h3, h4, h5, h6, h7⟩ := ih
    rw [pushAll_snoc]
    generalize pushAll (createDefaultGroup bbox) calls = g at h1 h2 h3 h4 h5 h6 h7 ⊢
    by_cases hnew : ∀ name ∈ g.uniqueObjectNames, cString name ≠ cString call.id
    · rw [pushSvgToGroup_new g _ _ _ hnew]
      simp only [List.map_append, List.map_cons, List.map_nil]
      refine ⟨by rw [h1], by rw [h2], ?_, ?_, ?_, ?_, ?_⟩
      · rw [List.nodup_append]
        refine ⟨h3, List.nodup_singleton _, ?_⟩
        intro a ha hb
        rw [List.mem_singleton] at hb
        rw [List.mem_map] at ha
        obtain ⟨name, hname, rfl⟩ := ha
        exact hnew name hname hb
      · simp only [List.length_append, List.length_singleton, h4]
      · rw [List.zip_append h4.symm]
        exact List.Sublist.append h5 (List.Sublist.refl _)
      · intro c hc
        rw [List.mem_append, List.mem_singleton] at hc
        rw [List.mem_append]
        rcases hc with hc | rfl
        · exact Or.inl (h6 c hc)
        · exact Or.inr (by simp)
      · intro entry hentry
        rw [List.zip_append h4.symm, List.mem_append] at hentry
        rcases hentry with hentry | hentry
        · obtain ⟨pre, post, offset, hsplit, hpre⟩ := h7 entry hentry
          exact ⟨pre, post ++ [call], offset, by rw [hsplit]; simp, hpre⟩
        · simp only [List.zip_cons_cons, List.zip_nil_right, List.mem_singleton] at hentry
          subst hentry
          refine ⟨calls, [], call.offset, rfl, ?_⟩
          intro c hc heq
          have := h6 c hc
          rw [List.mem_map] at this
          obtain ⟨name, hname, hn⟩ := this
          exact hnew name hname (hn.trans heq)
    · rw [pushSvgToGroup_known g _ _ _ hnew]
      simp only [List.map_append, List.map_cons, List.map_nil]
      refine ⟨by rw [h1], by rw [h2], h3, h4, ?_, ?_, ?_⟩
      · exact h5.trans (List.sublist_append_left _ _)
      · intro c hc
        rw [List.mem_append, List.mem_singleton] at hc
        rcases hc with hc | rfl
        · exact h6 c hc
        · push_neg at hnew
          obtain ⟨name, hname, heq⟩ := hnew
          rw [List.mem_map]
          exact ⟨name, hname, heq⟩
      · intro entry hentry
        obtain ⟨pre, post, offset, hsplit, hpre⟩ := h7 entry hentry
        exact ⟨pre, post ++ [call], offset, by rw [hsplit]; simp, hpre⟩

/-- Claim C31: after any sequence of calls of `pushSvgToGroup` on a group from
`createDefaultGroup`, `numObjects` is the number of calls and the shapes and
offsets are stored in call order; no two names of the registry are equal (as
the strings `strcmp` compares, and so as stored); the registry pairs are, in
call order, a part of the pairs of name and shape of the calls; the name of
every call is in the registry; and every registry pair is the name and the
shape of a call before which no call had that name. -/
theorem registry_holds_first_occurrences (bbox : BBox) (calls : List Push) :
    (pushAll (createDefaultGroup bbox) calls).numObjects = calls.length
      ∧ (pushAll (createDefaultGroup bbox) calls).objects = calls.map (fun c => c.obj)
      ∧ (pushAll (createDefaultGroup bbox) calls).objectOffsets = calls.map (fun c => c.offset)
      ∧ ((pushAll (createDefaultGroup bbox) calls).uniqueObjectNames.map cString).Nodup
      ∧ (pushAll (createDefaultGroup bbox) calls).uniqueObjectNames.Nodup
      ∧ (pushAll (createDefaultGroup bbox) calls).uniqueObjects.length
        = (pushAll (createDefaultGroup bbox) calls).numUniqueObjects
      ∧ List.Sublist
          (List.zip (pushAll (createDefaultGroup bbox) calls).uniqueObjectNames
            (pushAll (createDefaultGroup bbox) calls).uniqueObjects)
          (calls.map fun c => (c.id, c.obj))
      ∧ (∀ c ∈ calls, cString c.id
          ∈ (pushAll (createDefaultGroup bbox) calls).uniqueObjectNames.map cString)
      ∧ (∀ entry ∈ List.zip (pushAll (createDefaultGroup bbox) calls).uniqueObjectNames
            (pushAll (createDefaultGroup bbox) calls).uniqueObjects,
          ∃ pre post offset, calls = pre ++ ⟨entry.2, entry.1, offset⟩ :: post
            ∧ ∀ c ∈ pre, cString c.id ≠ cString entry.1) := by
  obtain ⟨h1, h2, h3, h4, h5, h6, h7⟩ := pushAll_invariant bbox calls
  refine ⟨?_, h1, h2, h3, List.Nodup.of_map _ h3, h4, h5, h6, h7⟩
  simp only [SvgGroup.numObjects, h1, List.length_map]

/-- Witness of C31: the names `a`, `b`, `a` give three members and the
registry `a`, `b` with the shapes of the first and the second call. -/
theorem registry_holds_first_occurrences_witness :
    (pushAll (createDefaultGroup ⟨⟨0, 0⟩, ⟨0, 0⟩⟩) samplePushes).uniqueObjectNames = ["a", "b"]
      ∧ (pushAll (createDefaultGroup ⟨⟨0, 0⟩, ⟨0, 0⟩⟩) samplePushes).uniqueObjects
        = [sampleBox 1 1, sampleBox 2 2]
      ∧ (pushAll (createDefaultGroup ⟨⟨0, 0⟩, ⟨0, 0⟩⟩) samplePushes).numObjects
        = samplePushes.length
      ∧ ((pushAll (createDefaultGroup ⟨⟨0, 0⟩, ⟨0, 0⟩⟩) samplePushes).uniqueObjectNames.map
          cString).Nodup := by
  have h := registry_holds_first_occurrences ⟨⟨0, 0⟩, ⟨0, 0⟩⟩ samplePushes
  refine ⟨?_, ?_, h.1, h.2.2.2.1⟩
  · simp [pushAll, samplePushes, pushSvgToGroup, createDefaultGroup, cString]
  · simp [pushAll, samplePushes, pushSvgToGroup, createDefaultGroup, cString]

/-! ## Continuity of the stored curves -/

theorem chain_snoc (curves : List Curve) (curve : Curve)
    (hc : List.Chain' (fun prev cur : Curve => cur.moveToP0 = false → cur.p0 = prev.endPoint)
      curves)
    (hlast : ∀ last, curves.getLast? = some last → curve.moveToP0 = false →
      curve.p0 = last.endPoint) :
    List.Chain' (fun prev cur : Curve => cur.moveToP0 = false → cur.p0 = prev.endPoint)
      (curves ++ [curve]) := by
  rw [List.chain'_append]
  refine ⟨hc, List.chain'_singleton _, ?_⟩
  intro x hx y hy
  simp only [List.head?_cons, Option.mem_def, Option.some.injEq] at hy
  subst hy
  exact hlast x hx

theorem continuous_appended {s : Builder} {contour : Contour} (curve : Curve) (isHole : Bool)
    (hl : s.object.contours.getLast? = some contour) (hc : Continuous contour)
    (hsync : Synced s) (hp0 : curve.p0 = s.cursor) (hflag : curve.moveToP0 = s.moveToP0) :
    Continuous (appended { contour with isHole := isHole } curve) := by
  unfold Continuous appended
  apply chain_snoc _ _ hc
  intro last hlast hf
  rw [hp0]
  exact hsync (hflag ▸ hf) contour last hl hlast

theorem continuous_setLastContour {o : SvgObject} {c : Contour}
    (hall : ∀ x ∈ o.contours, Continuous x) (hc : Continuous c) :
    ∀ x ∈ (o.setLastContour c).contours, Continuous x := by
  intro x hx
  rcases mem_setLastContour hx with h | rfl
  · exact hall x h
  · exact hc

theorem synced_drawn (s : Builder) (contour : Contour) (curve : Curve) :
    Synced (drawn s contour curve) := by
  intro _ c last hc hlast
  simp only [drawn, getLast?_setLastContour, Option.some.injEq] at hc
  subst hc
  simp only [appended, List.getLast?_append, List.getLast?_singleton] at hlast
  have h : curve = last := by
    simpa [Option.or] using hlast
  subst h
  rfl

theorem inv_drawn {s : Builder} {contour : Contour} (curve : Curve)
    (hl : s.object.contours.getLast? = some contour)
    (hall : ∀ x ∈ s.object.contours, Continuous x) (hsync : Synced s)
    (hp0 : curve.p0 = s.cursor) (hflag : curve.moveToP0 = s.moveToP0) :
    (∀ x ∈ (drawn s contour curve).object.contours, Continuous x)
      ∧ Synced (drawn s contour curve) := by
  refine ⟨?_, synced_drawn s contour curve⟩
  apply continuous_setLastContour hall
  have := continuous_appended curve contour.isHole hl (hall contour (mem_of_getLast? hl)) hsync
    hp0 hflag
  exact this

theorem inv_run_drawing {m : CMath} {s s1 : Builder} {call : Call}
    (hd : call.isDrawing = true) (hrun : call.run m s = .ok s1)
    (hall : ∀ x ∈ s.object.contours, Continuous x) (hsync : Synced s) :
    (∀ x ∈ s1.object.contours, Continuous x) ∧ Synced s1 := by
  obtain ⟨contour, curve, hl, -, hp0, hflag, rfl⟩ := run_drawing_eq_ok hd hrun
  exact inv_drawn curve hl hall hsync hp0 hflag

theorem synced_of_empty_last {s : Builder} {others : List Contour} {contour : Contour}
    (h : s.object.contours = others ++ [contour]) (hc : contour.curves = []) : Synced s := by
  intro _ c last hcl hlast
  rw [h] at hcl
  simp only [List.getLast?_append, List.getLast?_singleton, Option.or, Option.some.injEq] at hcl
  subst hcl
  rw [hc] at hlast
  simp at hlast

theorem inv_beginContour (s : Builder) (firstPoint : Vec2)
    (hall : ∀ x ∈ s.object.contours, Continuous x) :
    (∀ x ∈ (beginContour s firstPoint).object.contours, Continuous x)
      ∧ Synced (beginContour s firstPoint) := by
  constructor
  · intro x hx
    simp only [beginContour, List.mem_append, List.mem_singleton] at hx
    rcases hx with hx | rfl
    · exact hall x hx
    · exact List.chain'_nil
  · exact synced_of_empty_last (s := beginContour s firstPoint) rfl rfl

theorem inv_moveTo (s : Builder) (point : Vec2) (absolute : Bool)
    (hall : ∀ x ∈ s.object.contours, Continuous x) :
    (∀ x ∈ (moveTo s point absolute).object.contours, Continuous x)
      ∧ Synced (moveTo s point absolute) := by
  unfold moveTo
  split
  · have h := inv_beginContour s point hall
    refine ⟨h.1, ?_⟩
    exact synced_of_empty_last
      (s := { beginContour s point with moveToP0 := false }) rfl rfl
  · refine ⟨hall, ?_⟩
    intro h
    simp at h

theorem inv_closeContour {s s1 : Builder} {lineToEndpoint isHole : Bool}
    (hrun : closeContour s lineToEndpoint isHole = .ok s1)
    (hall : ∀ x ∈ s.object.contours, Continuous x) (hsync : lineToEndpoint = true → Synced s) :
    ∀ x ∈ s1.object.contours, Continuous x := by
  obtain ⟨contour, first, rest, hl, -, h⟩ := closeContour_eq_ok hrun
  have hc := hall contour (mem_of_getLast? hl)
  rcases h with ⟨-, rfl⟩ | ⟨hlte, -, rfl⟩
  · exact continuous_setLastContour hall hc
  · exact continuous_setLastContour hall
      (continuous_appended _ isHole hl hc (hsync hlte) rfl rfl)

theorem inv_run {m : CMath} {s s1 : Builder} {call : Call} {rest : List Call} {closed : Bool}
    (hacc : closesAnswered closed (call :: rest) = true) (hrun : call.run m s = .ok s1)
    (hall : ∀ x ∈ s.object.contours, Continuous x) (hsync : closed = false → Synced s) :
    ∃ closed1, closesAnswered closed1 rest = true
      ∧ (∀ x ∈ s1.object.contours, Continuous x) ∧ (closed1 = false → Synced s1) := by
  cases call with
  | beginContour firstPoint =>
    simp only [closesAnswered] at hacc
    injection hrun with hrun
    subst hrun
    exact ⟨false, hacc, (inv_beginContour s firstPoint hall).1,
      fun _ => (inv_beginContour s firstPoint hall).2⟩
  | moveTo point absolute =>
    simp only [closesAnswered] at hacc
    injection hrun with hrun
    subst hrun
    exact ⟨false, hacc, (inv_moveTo s point absolute hall).1,
      fun _ => (inv_moveTo s point absolute hall).2⟩
  | closeContour lineToEndpoint isHole =>
    simp only [closesAnswered, Bool.and_eq_true, Bool.not_eq_true', Bool.and_eq_false_iff] at hacc
    refine ⟨true, hacc.2, inv_closeContour hrun hall ?_, fun h => by cases h⟩
    intro hlte
    rcases hacc.1 with h | h
    · exact hsync h
    · rw [hlte] at h
      cases h
  | arcTo radius xAxisRot largeArc sweep dst absolute =>
    simp only [closesAnswered, Bool.and_eq_true, Bool.not_eq_true'] at hacc
    have hs := hsync hacc.1
    simp only [Call.run, arcTo_eq] at hrun
    split at hrun
    · injection hrun with hrun
      subst hrun
      exact ⟨false, hacc.2, hall, fun _ => hs⟩
    · obtain ⟨contour, hl, -, rfl⟩ := lineTo_eq_ok hrun
      have := inv_drawn
        { p0 := s.cursor, as := .line (if absolute then dst else dst + s.cursor)
          moveToP0 := s.moveToP0 } hl hall hs rfl rfl
      exact ⟨false, hacc.2, this.1, fun _ => this.2⟩
  | lineTo point absolute =>
    simp only [closesAnswered, Bool.and_eq_true, Bool.not_eq_true'] at hacc
    have hd : (Call.lineTo point absolute).isDrawing = true := rfl
    have := inv_run_drawing hd hrun hall (hsync hacc.1)
    exact ⟨false, hacc.2, this.1, fun _ => this.2⟩
  | hzLineTo xPoint absolute =>
    simp only [closesAnswered, Bool.and_eq_true, Bool.not_eq_true'] at hacc
    have hd : (Call.hzLineTo xPoint absolute).isDrawing = true := rfl
    have := inv_run_drawing hd hrun hall (hsync hacc.1)
    exact ⟨false, hacc.2, this.1, fun _ => this.2⟩
  | vtLineTo yPoint absolute =>
    simp only [closesAnswered, Bool.and_eq_true, Bool.not_eq_true'] at hacc
    have hd : (Call.vtLineTo yPoint absolute).isDrawing = true := rfl
    have := inv_run_drawing hd hrun hall (hsync hacc.1)
    exact ⟨false, hacc.2, this.1, fun _ => this.2⟩
  | bezier2To control dest absolute =>
    simp only [closesAnswered, Bool.and_eq_true, Bool.not_eq_true'] at hacc
    have hd : (Call.bezier2To control dest absolute).isDrawing = true := rfl
    have := inv_run_drawing hd hrun hall (hsync hacc.1)
    exact ⟨false, hacc.2, this.1, fun _ => this.2⟩
  | bezier3To control0 control1 dest absolute =>
    simp only [closesAnswered, Bool.and_eq_true, Bool.not_eq_true'] at hacc
    have hd : (Call.bezier3To control0 control1 dest absolute).isDrawing = true := rfl
    have := inv_run_drawing hd hrun hall (hsync hacc.1)
    exact ⟨false, hacc.2, this.1, fun _ => this.2⟩
  | smoothBezier2To dest absolute =>
    simp only [closesAnswered, Bool.and_eq_true, Bool.not_eq_true'] at hacc
    have hd : (Call.smoothBezier2To dest absolute).isDrawing = true := rfl
    have := inv_run_drawing hd hrun hall (hsync hacc.1)
    exact ⟨false, hacc.2, this.1, fun _ => this.2⟩
  | smoothBezier3To control1 dest absolute =>
    simp only [closesAnswered, Bool.and_eq_true, Bool.not_eq_true'] at hacc
    have hd : (Call.smoothBezier3To control1 dest absolute).isDrawing = true := rfl
    have := inv_run_drawing hd hrun hall (hsync hacc.1)
    exact ⟨false, hacc.2, this.1, fun _ => this.2⟩

theorem inv_runCalls {m : CMath} (calls : List Call) :
    ∀ {s s1 : Builder} {closed : Bool}, closesAnswered closed calls = true →
      runCalls m s calls = .ok s1 → (∀ x ∈ s.object.contours, Continuous x) →
      (closed = false → Synced s) → ∀ x ∈ s1.object.contours, Continuous x := by
  induction calls with
  | nil =>
    intro s s1 closed _ h hall _
    injection h with h
    exact h ▸ hall
  | cons call rest ih =>
    intro s s1 closed hacc h hall hsync
    simp only [runCalls] at h
    cases hc : call.run m s with
    | error f => simp [hc] at h
    | ok s2 =>
      simp only [hc] at h
      obtain ⟨closed1, hacc1, hall1, hsync1⟩ := inv_run hacc hc hall hsync
      exact ih hacc1 h hall1 hsync1

theorem chain_getElem? {R : Curve → Curve → Prop} (curves : List Curve)
    (h : List.Chain' R curves) (i : ℕ) (prev cur : Curve) (hp : curves[i]? = some prev)
    (hc : curves[i + 1]? = some cur) : R prev cur := by
  induction curves generalizing i with
  | nil => simp at hp
  | cons a rest ih =>
    cases i with
    | zero =>
      cases rest with
      | nil => simp at hc
      | cons b more =>
        simp only [List.getElem?_cons_zero, List.getElem?_cons_succ, Option.some.injEq] at hp hc
        subst hp
        subst hc
        exact (List.chain'_cons.mp h).1
    | succ j =>
      simp only [List.getElem?_cons_succ] at hp hc
      exact ih (List.Chain'.tail h) j hp hc

/-- Claim C35: in the object left by a successful run of builder calls from
`createDefault` (whatever the cursor and the pending flag were), in which every
`closeContour` is followed by `beginContour` or `moveTo` before the next call
that stores a curve, every curve that is not the first of its contour and whose
flag `moveToP0` is not set starts at the end point of the curve before it. -/
theorem curves_start_where_the_previous_ends (m : CMath) (bbox : BBox) (cursor : Vec2)
    (pending : Bool) (calls : List Call) (s : Builder)
    (hcalls : closesAnswered false calls = true)
    (h : runCalls m { object := createDefault bbox, cursor := cursor, moveToP0 := pending } calls
      = .ok s) :
    ∀ contour ∈ s.object.contours, ∀ (i : ℕ) (prev cur : Curve),
      contour.curves[i]? = some prev → contour.curves[i + 1]? = some cur →
      cur.moveToP0 = false → cur.p0 = prev.endPoint := by
  intro contour hcontour i prev cur hp hc
  have hall := inv_runCalls calls hcalls h (by simp [createDefault])
    (fun _ => by
      intro _ c last hcl
      simp [createDefault] at hcl)
  exact chain_getElem? _ (hall contour hcontour) i prev cur hp hc

/-- Witness of C35: two lines, the closing line, a `moveTo` and one more line;
the closing line starts at `(4,3)`, where the second line ends, and the line
after the `moveTo` carries the flag. -/
theorem curves_start_where_the_previous_ends_witness :
    closesAnswered false sampleClosedRun = true
      ∧ runCalls (sampleCMath 0) sampleStart sampleClosedRun = .ok sampleClosedRunResult
      ∧ ∀ contour ∈ sampleClosedRunResult.object.contours, ∀ (i : ℕ) (prev cur : Curve),
          contour.curves[i]? = some prev → contour.curves[i + 1]? = some cur →
          cur.moveToP0 = false → cur.p0 = prev.endPoint := by
  have hrun : runCalls (sampleCMath 0) sampleStart sampleClosedRun = .ok sampleClosedRunResult := by
    rfl
  exact ⟨rfl, hrun,
    curves_start_where_the_previous_ends (sampleCMath 0) ⟨⟨0, 0⟩, ⟨0, 0⟩⟩ ⟨0, 0⟩ false
      sampleClosedRun sampleClosedRunResult rfl hrun⟩

/-! ## The atlas cache: rectangles -/

theorem placed_head (s : SvgCache) (r : Request) :
    ∃ y, (renderCreateAnimation s r.obj r.parent ⟨0, 0⟩ r.svgScale false).svgTextureOffset.y
          - r.parent.strokeWidth / 2 = y
      ∧ (renderCreateAnimation s r.obj r.parent ⟨0, 0⟩ r.svgScale false).cache.cacheCurrentPos.y
          = y
      ∧ (renderCreateAnimation s r.obj r.parent ⟨0, 0⟩ r.svgScale false).svgTextureOffset.x
          - r.parent.strokeWidth / 2 + r.totalWidth + 3
        = (renderCreateAnimation s r.obj r.parent ⟨0, 0⟩ r.svgScale false).cache.cacheCurrentPos.x
      ∧ r.totalHeight
        ≤ (renderCreateAnimation s r.obj r.parent ⟨0, 0⟩ r.svgScale false).cache.cacheLineHeight
      ∧ ((y = s.cacheCurrentPos.y
            ∧ (renderCreateAnimation s r.obj r.parent ⟨0, 0⟩ r.svgScale false).svgTextureOffset.x
                - r.parent.strokeWidth / 2 = s.cacheCurrentPos.x
            ∧ s.cacheLineHeight
              ≤ (renderCreateAnimation s r.obj r.parent ⟨0, 0⟩ r.svgScale
                  false).cache.cacheLineHeight)
          ∨ (y = s.cacheCurrentPos.y + (s.cacheLineHeight + 3)
            ∧ 0 ≤ (renderCreateAnimation s r.obj r.parent ⟨0, 0⟩ r.svgScale
                  false).cache.cacheLineHeight)) := by
  cases hn : (renderCreateAnimation s r.obj r.parent ⟨0, 0⟩ r.svgScale false).newRow with
  | false =>
    obtain ⟨h1, h2, h3⟩ := renderCreateAnimation_same_row s r hn
    rw [h1, h2, h3]
    refine ⟨s.cacheCurrentPos.y, by ring, rfl, by ring, le_max_right _ _, Or.inl ⟨rfl, by ring,
      le_max_left _ _⟩⟩
  | true =>
    obtain ⟨h1, h2, h3⟩ := renderCreateAnimation_new_row s r hn
    rw [h1, h2, h3]
    refine ⟨s.cacheCurrentPos.y + (s.cacheLineHeight + 3), by ring, rfl, by ring,
      le_max_right _ _, Or.inr ⟨rfl, le_max_left _ _⟩⟩

theorem placeAll_after (requests : List Request) (hw : ∀ r ∈ requests, 0 ≤ r.totalWidth)
    (s : SvgCache) (row : List ℚ) (b : Placed) (hb : b ∈ placeAll s row requests) :
    (b.origin.y = s.cacheCurrentPos.y ∧ s.cacheCurrentPos.x ≤ b.origin.x)
      ∨ s.cacheCurrentPos.y + s.cacheLineHeight + 3 ≤ b.origin.y := by
  induction requests generalizing s row with
  | nil => simp [placeAll] at hb
  | cons r rest ih =>
    simp only [placeAll, List.mem_cons] at hb
    obtain ⟨y, h1, h2, h3, h4, h5⟩ := placed_head s r
    rcases hb with rfl | hb
    · simp only [Placed.origin]
      rcases h5 with ⟨hy, hx, -⟩ | ⟨hy, -⟩
      · left
        exact ⟨by rw [h1, hy], by rw [hx]⟩
      · right
        rw [h1, hy]
        linarith
    · have hr := hw r (List.mem_cons_self _ _)
      have := ih (fun q hq => hw q (List.mem_cons_of_mem _ hq)) _ _ hb
      rw [h2, ← h3] at this
      rcases h5 with ⟨hy, hx, hl⟩ | ⟨hy, hl⟩
      · rcases this with ⟨t1, t2⟩ | t
        · left
          exact ⟨by rw [t1, hy], by linarith⟩
        · right
          linarith
      · right
        rcases this with ⟨t1, -⟩ | t
        · rw [t1, hy]
          linarith
        · linarith

theorem apart_disjoint (a b : Placed) (h : a.apart b) (p : Vec2) :
    ¬ (a.interior p ∧ b.interior p) := by
  rintro ⟨⟨a1, a2, a3, a4⟩, ⟨b1, b2, b3, b4⟩⟩
  rcases h with ⟨-, h⟩ | h <;> linarith

theorem placeAll_pairwise (requests : List Request) (hw : ∀ r ∈ requests, 0 ≤ r.totalWidth)
    (s : SvgCache) (row : List ℚ) :
    List.Pairwise (fun a b : Placed => a.apart b) (placeAll s row requests) := by
  induction requests generalizing s row with
  | nil => exact List.Pairwise.nil
  | cons r rest ih =>
    simp only [placeAll]
    rw [List.pairwise_cons]
    refine ⟨?_, ih (fun q hq => hw q (List.mem_cons_of_mem _ hq)) _ _⟩
    intro b hb
    obtain ⟨y, h1, h2, h3, h4, -⟩ := placed_head s r
    have := placeAll_after rest (fun q hq => hw q (List.mem_cons_of_mem _ hq)) _ _ b hb
    rw [h2, ← h3] at this
    simp only [Placed.apart, Placed.origin]
    rw [h1]
    simp only [Placed.origin] at this
    rcases this with ⟨t1, t2⟩ | t
    · left
      exact ⟨t1.symm, t2⟩
    · right
      linarith

/-- Claim C40: in a sequence of placements of single shapes of total widths
that are not negative, from the state left by `init` at program start, any two
placements are apart by the padding 3: the later one lies in the same row to
the right of the earlier one, or in a row below it; so no point lies in the
interior of both rectangles. -/
theorem placements_do_not_overlap (requests : List Request)
    (hw : ∀ r ∈ requests, 0 ≤ r.totalWidth) :
    List.Pairwise (fun a b : Placed => a.apart b ∧ ∀ p, ¬ (a.interior p ∧ b.interior p))
      (placeAll (init staticStart) [] requests) := by
  apply List.Pairwise.imp _ (placeAll_pairwise requests hw (init staticStart) [])
  intro a b h
  exact ⟨h, apart_disjoint a b h⟩

/-- Witness of C40: the boxes of 4000 by 10 and of 200 by 20 from the initial
state; the second is placed in the row below the first, at `(0, 13)`. -/
theorem placements_do_not_overlap_witness :
    (∀ r ∈ sampleRequests, 0 ≤ r.totalWidth)
      ∧ samplePlaced.origin = ⟨0, 13⟩
      ∧ List.Pairwise (fun a b : Placed => a.apart b ∧ ∀ p, ¬ (a.interior p ∧ b.interior p))
          (placeAll (init staticStart) [] sampleRequests) := by
  have hw : ∀ r ∈ sampleRequests, 0 ≤ r.totalWidth := by
    intro r hr
    simp only [sampleRequests, List.mem_cons, List.mem_singleton, List.not_mem_nil, or_false] at hr
    rcases hr with rfl | rfl <;>
      simp [Request.totalWidth, sampleRequest, sampleBox, sampleStroke, sampleParent]
  refine ⟨hw, ?_, placements_do_not_overlap sampleRequests hw⟩
  simp [Placed.origin, samplePlaced, sampleRequest, sampleStroke, sampleParent]

/-! ## The create animation: the segments of the stroke pass -/

theorem lineSegments_append (a b : List NvgCmd) (pen : Option Vec2) :
    lineSegments pen (a ++ b) = lineSegments pen a ++ lineSegments (penAfter pen a) b := by
  induction a generalizing pen with
  | nil => cases pen <;> simp [lineSegments, penAfter]
  | cons c rest ih =>
    cases c <;> cases pen <;> simp [lineSegments, penAfter, ih]

theorem lineSegments_strokeStyle (parent : AnimObject) (p : ℚ) (pen : Option Vec2) :
    lineSegments pen (strokeStyle parent p) = [] ∧ penAfter pen (strokeStyle parent p) = pen := by
  unfold strokeStyle
  split <;> cases pen <;> exact ⟨rfl, rfl⟩

theorem lineSegments_map (f : Vec2 → Vec2) (cmds : List NvgCmd) (pen : Option Vec2) :
    lineSegments (pen.map f) (cmds.map (NvgCmd.mapPoints f))
      = (lineSegments pen cmds).map fun seg => (f seg.1, f seg.2) := by
  induction cmds generalizing pen with
  | nil => cases pen <;> simp [lineSegments]
  | cons c rest ih =>
    cases c <;> cases pen <;>
      simp [lineSegments, NvgCmd.mapPoints, ← ih]

theorem lineSegments_strokeCurves (m : CMath) (B : ℚ) (curves : List Curve)
    (hlines : ∀ c ∈ curves, ∃ p1, c.as = .line p1)
    (hchain : List.Chain' (fun prev cur : Curve => cur.moveToP0 = false → cur.p0 = prev.endPoint)
      curves)
    (d : ℚ) (pen : Option Vec2)
    (hpen : ¬ B - d < 0 → ∀ c, curves.head? = some c → c.moveToP0 = true ∨ pen = some c.p0) :
    lineSegments pen (strokeCurves m B curves d).1
      = List.zipWith (fun c f => (c.p0, pointAt c f)) curves (revealFractions m curves (B - d)) := by
  induction curves generalizing d pen with
  | nil => cases pen <;> simp [strokeCurves, lineSegments, revealFractions]
  | cons c rest ih =>
    obtain ⟨p1, hp1⟩ := hlines c (List.mem_cons_self _ _)
    simp only [strokeCurves, revealFractions]
    by_cases hneg : B - d < 0
    · simp only [hneg, if_true, lineSegments, List.zipWith_nil_right]
    · simp only [hneg, if_false, strokeCurve_line m c p1 hp1, List.zipWith_cons_cons]
      have hstart : lineSegments pen
          ((if c.moveToP0 = true then [NvgCmd.moveTo c.p0] else [])
            ++ NvgCmd.lineTo (pointAt c
                (if B - d < lineLength m c then (B - d) / lineLength m c else 1))
              :: (strokeCurves m B rest (d + lineLength m c)).1)
          = (c.p0, pointAt c (if B - d < lineLength m c then (B - d) / lineLength m c else 1))
            :: lineSegments (some (pointAt c
                (if B - d < lineLength m c then (B - d) / lineLength m c else 1)))
              (strokeCurves m B rest (d + lineLength m c)).1 := by
        rcases hpen hneg c rfl with hflag | hp
        · simp only [hflag, if_true, List.singleton_append, lineSegments]
        · subst hp
          cases hf : c.moveToP0 <;> simp [lineSegments]
      rw [hstart]
      congr 1
      have e : B - d - lineLength m c = B - (d + lineLength m c) := by ring
      rw [e]
      apply ih (fun q hq => hlines q (List.mem_cons_of_mem _ hq)) (List.Chain'.tail hchain)
      intro hfit c2 hc2
      have hfull : ¬ B - d < lineLength m c := by linarith
      rw [if_neg hfull, pointAt_one]
      cases hrest : rest with
      | nil => simp [hrest] at hc2
      | cons c3 more =>
        rw [hrest] at hc2 hchain
        simp only [List.head?_cons, Option.some.injEq] at hc2
        subst hc2
        cases hflag : c3.moveToP0 with
        | true => exact Or.inl rfl
        | false =>
          right
          rw [(List.chain'_cons.mp hchain).1 hflag]

theorem zipWith_revealFractions_append {β : Type} (g : Curve → ℚ → β) (m : CMath) (B : ℚ)
    (curves more : List Curve) (hlines : ∀ c ∈ curves, ∃ p1, c.as = .line p1) (d : ℚ) :
    List.zipWith g (curves ++ more) (revealFractions m (curves ++ more) (B - d))
      = List.zipWith g curves (revealFractions m curves (B - d))
        ++ (if (strokeCurves m B curves d).2 > B then []
            else List.zipWith g more
              (revealFractions m more (B - (strokeCurves m B curves d).2))) := by
  induction curves generalizing d with
  | nil =>
    simp only [strokeCurves, List.nil_append, revealFractions, List.zipWith_nil_left]
    split
    · rw [revealFractions_neg m more _ (by linarith)]
      simp
    · rfl
  | cons c rest ih =>
    obtain ⟨p1, hp1⟩ := hlines c (List.mem_cons_self _ _)
    have ih2 := ih (fun q hq => hlines q (List.mem_cons_of_mem _ hq)) (d + lineLength m c)
    simp only [strokeCurves, List.cons_append, revealFractions]
    by_cases hneg : B - d < 0
    · simp only [hneg, if_true, List.zipWith_nil_right, List.nil_append]
      rw [if_pos (by linarith)]
    · simp only [hneg, if_false, strokeCurve_line m c p1 hp1, List.zipWith_cons_cons,
        List.cons_append]
      have e : B - d - lineLength m c = B - (d + lineLength m c) := by ring
      rw [e]
      congr 1

theorem lineSegments_strokeContours (m : CMath) (parent : AnimObject) (p B : ℚ)
    (contours : List Contour)
    (hlines : ∀ c ∈ (contours.map fun contour => contour.curves).flatten, ∃ p1, c.as = .line p1)
    (hcont : ∀ contour ∈ contours, Continuous contour) (d : ℚ) (pen : Option Vec2) :
    lineSegments pen (strokeContours m parent p B contours d)
      = List.zipWith (fun c f => (c.p0, pointAt c f))
          (contours.map fun contour => contour.curves).flatten
          (revealFractions m (contours.map fun contour => contour.curves).flatten (B - d)) := by
  induction contours generalizing d pen with
  | nil => cases pen <;> simp [strokeContours, lineSegments, revealFractions]
  | cons contour rest ih =>
    have hrest : ∀ c ∈ (rest.map fun contour => contour.curves).flatten,
        ∃ p1, c.as = .line p1 := by
      intro c hc
      apply hlines c
      simp only [List.map_cons, List.flatten_cons, List.mem_append]
      exact Or.inr hc
    have hcur : ∀ c ∈ contour.curves, ∃ p1, c.as = .line p1 := by
      intro c hc
      apply hlines c
      simp only [List.map_cons, List.flatten_cons, List.mem_append]
      exact Or.inl hc
    have hcrest : ∀ contour ∈ rest, Continuous contour :=
      fun x hx => hcont x (List.mem_cons_of_mem _ hx)
    have hchain := hcont contour (List.mem_cons_self _ _)
    unfold Continuous at hchain
    have hjoin := zipWith_revealFractions_append (fun c f => (c.p0, pointAt c f)) m B
      contour.curves (rest.map fun contour => contour.curves).flatten hcur d
    simp only [strokeContours, List.map_cons, List.flatten_cons]
    rw [hjoin]
    cases hc : contour.curves with
    | nil =>
      simp only [strokeCurves, List.nil_append, revealFractions, List.zipWith_nil_left]
      have hstroke : ∀ X : List NvgCmd,
          lineSegments pen (NvgCmd.stroke :: X) = lineSegments pen X := by
        intro X
        cases pen <;> rfl
      rw [hstroke]
      split
      · cases pen <;> rfl
      · exact ih hrest hcrest d pen
    | cons first others =>
      have hseg := lineSegments_strokeCurves m B contour.curves hcur hchain d (some first.p0)
        (fun _ c hhead => by
          rw [hc] at hhead
          simp only [List.head?_cons, Option.some.injEq] at hhead
          exact Or.inr (by rw [hhead]))
      rw [hc] at hseg
      simp only [List.append_eq, List.cons_append, List.append_assoc, lineSegments,
        lineSegments_append, (lineSegments_strokeStyle parent p none).1,
        (lineSegments_strokeStyle parent p none).2, List.nil_append, hseg]
      congr 1
      split
      · generalize penAfter (some first.p0) (strokeCurves m B (first :: others) d).1 = pen2
        cases pen2 <;> rfl
      · generalize penAfter (some first.p0) (strokeCurves m B (first :: others) d).1 = pen2
        have hstroke : ∀ X : List NvgCmd,
            lineSegments pen2 (NvgCmd.stroke :: X) = lineSegments pen2 X := by
          intro X
          cases pen2 <;> rfl
        rw [hstroke]
        exact ih hrest hcrest _ pen2

theorem pointAt_sub (curve : Curve) (f : ℚ) :
    pointAt curve f - curve.p0 = f * (curve.endPoint - curve.p0) := by
  obtain ⟨⟨x0, y0⟩, dat, flag⟩ := curve
  generalize hE : Curve.endPoint ⟨⟨x0, y0⟩, dat, flag⟩ = e
  obtain ⟨ex, ey⟩ := e
  simp only [pointAt, hE, vec2_sub_mk, vec2_mul_right_mk, vec2_add_mk, vec2_mul_mk,
    Vec2.mk.injEq]
  constructor <;> ring

theorem segment_lengths (m : CMath)
    (hhom : ∀ (k : ℚ) (v : Vec2), 0 ≤ k → m.length (k * v) = k * m.length v)
    (curves : List Curve) (fractions : List ℚ) (hf : ∀ f ∈ fractions, 0 ≤ f) :
    ((List.zipWith (fun c f => (c.p0, pointAt c f)) curves fractions).map
        fun seg => m.length (seg.2 - seg.1)).sum
      = (List.zipWith (fun c f => f * lineLength m c) curves fractions).sum := by
  induction curves generalizing fractions with
  | nil => simp
  | cons c rest ih =>
    cases fractions with
    | nil => simp
    | cons f more =>
      simp only [List.zipWith_cons_cons, List.map_cons, List.sum_cons]
      rw [ih more (fun x hx => hf x (List.mem_cons_of_mem _ hx)), pointAt_sub,
        hhom f _ (hf f (List.mem_cons_self _ _))]
      rfl

/-- Claim C23 as stated fails: the builder run `beginContour (0,0)`,
`lineTo (4,0)`, `closeContour`, `lineTo (0,3)` stores the lines `(0,0)-(4,0)`
and `(0,0)-(0,3)`, the second without the flag; with the Euclidean sample
length the perimeter is 7 and up to date.  At `t = 1` the stroke pass draws
from `(0,0)` to `(4,0)` and from there, not from the start point of the second
line, to `(0,3)`: the second segment is no part of its line, and the length
drawn is `4 + 5 = 9`, not `1 * 7`. -/
theorem stroke_draws_from_the_pen :
    runCalls sampleEuclid sampleStart sampleJumpRun = .ok sampleJumpResult
      ∧ sampleJump.contours = sampleJumpResult.object.contours
      ∧ sampleJump.approximatePerimeter
        = (sampleJump.calculateApproximatePerimeter sampleEuclid).approximatePerimeter
      ∧ (1 : ℚ) * sampleJump.approximatePerimeter = 7
      ∧ strokePassLocal sampleEuclid (sampleStroke 2)
          (renderSetup sampleEuclid 1 ⟨0, 0⟩ ⟨1, 1⟩ false sampleJump false) sampleJump
        = [.beginPath, .strokeColor 255 255 255 255, .strokeWidth 2, .moveTo ⟨0, 0⟩,
            .lineTo ⟨4, 0⟩, .lineTo ⟨0, 3⟩, .stroke]
      ∧ lineSegments none (strokePassLocal sampleEuclid (sampleStroke 2)
          (renderSetup sampleEuclid 1 ⟨0, 0⟩ ⟨1, 1⟩ false sampleJump false) sampleJump)
        = [(⟨0, 0⟩, ⟨4, 0⟩), (⟨4, 0⟩, ⟨0, 3⟩)]
      ∧ sampleEuclid.length (⟨4, 0⟩ - ⟨0, 0⟩) + sampleEuclid.length (⟨0, 3⟩ - ⟨4, 0⟩) = 9 := by
  have h16 : Int.toNat 16 = 16 := rfl
  have h9 : Int.toNat 9 = 9 := rfl
  have h25 : Int.toNat 25 = 25 := rfl
  have l4 : sampleLength ⟨4, 0⟩ = 4 := by
    simp [sampleLength]
    norm_num [h16]
  have l3 : sampleLength ⟨0, 3⟩ = 3 := by
    simp [sampleLength]
    norm_num [h9]
  have l5 : sampleLength ⟨-4, 3⟩ = 5 := by
    simp [sampleLength]
    norm_num [h25]
  refine ⟨rfl, rfl, ?_, ?_, ?_, ?_, ?_⟩
  · simp [SvgObject.calculateApproximatePerimeter, sampleJump, sampleJumpResult,
      Curve.approxLength, sampleEuclid, vec2_sub_mk, l4, l3]
    norm_num
  · simp [sampleJump]
  · simp [strokePassLocal, strokeContours, strokeCurves, strokeCurve, strokeStyle, renderSetup,
      epsilonEqual, toUnsignedChar, sampleJump, sampleJumpResult, sampleStroke, sampleParent,
      sampleEuclid, vec2_sub_mk, vec2_add_mk, vec2_mul_right_mk, l4, l3]
    norm_num
  · simp [strokePassLocal, strokeContours, strokeCurves, strokeCurve, strokeStyle, renderSetup,
      epsilonEqual, sampleJump, sampleJumpResult, sampleStroke, sampleParent, sampleEuclid,
      vec2_sub_mk, l4, l3, lineSegments]
    norm_num [lineSegments]
  · simp [sampleEuclid, vec2_sub_mk, l4, l5]
    norm_num

/-- Claim C23, amended: for a shape made of lines only in which every line that
is not the first of its contour and carries no flag starts at the end point of
the line before it, whose `approximatePerimeter` `P` is up to date and
positive, and a time `tt` (after the optional reversal) with `0 < tt ≤ 1`,
where the external `length` is never negative and positively homogeneous: the
straight segments that the stroke pass draws are, in order, for an initial part
of the lines of the shape, the segment from the start point `p0` of the line to
the point at the fraction `f` of the line; every fraction lies between 0 and 1;
the lengths of the segments add up to `tt * P`; line `i` is drawn while the
length `remaining` left for it is not negative, up to the fraction
`remaining / length` when that is less than the whole line; a line drawn in
part is the last one drawn; and the backend receives these segments with both
ends sent through the coordinate mapping. -/
theorem stroke_reveals_continuous_lines (m : CMath) (hlen : ∀ v, 0 ≤ m.length v)
    (hhom : ∀ (k : ℚ) (v : Vec2), 0 ≤ k → m.length (k * v) = k * m.length v) (t tt : ℚ)
    (parent : AnimObject) (textureOffset svgScale : Vec2) (reverse : Bool) (obj : SvgObject)
    (isSvgGroup : Bool) (htt : tt = if reverse then 1 - t else t)
    (hlines : ∀ c ∈ allCurves obj, ∃ p1, c.as = .line p1)
    (hcont : ∀ contour ∈ obj.contours, Continuous contour)
    (hP : obj.approximatePerimeter = (obj.calculateApproximatePerimeter m).approximatePerimeter)
    (hpos : 0 < obj.approximatePerimeter) (ht0 : 0 < tt) (ht1 : tt ≤ 1) :
    ∃ fractions : List ℚ,
      fractions.length ≤ (allCurves obj).length
        ∧ lineSegments none (strokePassLocal m parent
            (renderSetup m t textureOffset svgScale reverse obj isSvgGroup) obj)
          = List.zipWith (fun c f => (c.p0, pointAt c f)) (allCurves obj) fractions
        ∧ (∀ f ∈ fractions, 0 ≤ f ∧ f ≤ 1)
        ∧ ((lineSegments none (strokePassLocal m parent
              (renderSetup m t textureOffset svgScale reverse obj isSvgGroup) obj)).map
            fun seg => m.length (seg.2 - seg.1)).sum
          = tt * obj.approximatePerimeter
        ∧ (∀ i c f, (allCurves obj)[i]? = some c → fractions[i]? = some f →
            0 ≤ tt * obj.approximatePerimeter - (((allCurves obj).take i).map (lineLength m)).sum
              ∧ f = if tt * obj.approximatePerimeter
                      - (((allCurves obj).take i).map (lineLength m)).sum < lineLength m c
                  then (tt * obj.approximatePerimeter
                      - (((allCurves obj).take i).map (lineLength m)).sum) / lineLength m c
                  else 1)
        ∧ (∀ i f, fractions[i]? = some f → f < 1 → i + 1 = fractions.length)
        ∧ lineSegments none
            (strokePass m t parent textureOffset svgScale reverse obj isSvgGroup)
          = (List.zipWith (fun c f => (c.p0, pointAt c f)) (allCurves obj) fractions).map
              fun seg =>
                (toTexture m svgScale
                    (renderSetup m t textureOffset svgScale reverse obj isSvgGroup) seg.1,
                  toTexture m svgScale
                    (renderSetup m t textureOffset svgScale reverse obj isSvgGroup) seg.2) := by
  have hB : (renderSetup m t textureOffset svgScale reverse obj isSvgGroup).lengthToDraw
      = tt * obj.approximatePerimeter := by
    simp only [renderSetup, htt]
  have hBpos : 0 < tt * obj.approximatePerimeter := mul_pos ht0 hpos
  have hsum : ((allCurves obj).map (lineLength m)).sum = obj.approximatePerimeter := by
    rw [hP, perimeter_eq_sum]
    congr 1
    apply List.map_congr_left
    intro c hc
    obtain ⟨p1, hp1⟩ := hlines c hc
    exact (approxLength_line m c p1 hp1).symm
  have hseg : lineSegments none (strokePassLocal m parent
      (renderSetup m t textureOffset svgScale reverse obj isSvgGroup) obj)
      = List.zipWith (fun c f => (c.p0, pointAt c f)) (allCurves obj)
          (revealFractions m (allCurves obj) (tt * obj.approximatePerimeter)) := by
    unfold strokePassLocal
    rw [hB, if_pos hBpos]
    have := lineSegments_strokeContours m parent
      (renderSetup m t textureOffset svgScale reverse obj isSvgGroup).percentToFadeIn
      (tt * obj.approximatePerimeter) obj.contours hlines hcont 0 none
    rw [sub_zero] at this
    exact this
  have hbounds := revealFractions_bounds m (allCurves obj) (tt * obj.approximatePerimeter)
  refine ⟨revealFractions m (allCurves obj) (tt * obj.approximatePerimeter),
    revealFractions_length_le _ _ _, hseg, hbounds, ?_,
    fun i c f hc hf => revealFractions_index m _ _ i c f hc hf,
    fun i f hf hlt => revealFractions_partial_last m _ _ i f hf hlt, ?_⟩
  · rw [hseg, segment_lengths m hhom _ _ (fun f hf => (hbounds f hf).1),
      revealFractions_sum m hlen _ _ hBpos.le, hsum]
    apply min_eq_left
    nlinarith
  · unfold strokePass
    simp only []
    have := lineSegments_map (toTexture m svgScale
      (renderSetup m t textureOffset svgScale reverse obj isSvgGroup))
      (strokePassLocal m parent
        (renderSetup m t textureOffset svgScale reverse obj isSvgGroup) obj) none
    simp only [Option.map_none'] at this
    rw [this, hseg]

theorem samplePath_continuous : ∀ contour ∈ samplePath.contours, Continuous contour := by
  intro contour hc
  simp only [samplePath, List.mem_singleton] at hc
  subst hc
  simp [Continuous, sampleTwoSegments, Curve.endPoint]

/-- Witness of the amended C23, with the example of the claim: the shape of
the two lines `(0,0)` to `(3,0)` to `(3,7)` has perimeter 10; at `t = 1/2` the
stroke pass draws the first line whole and the second from `(3,0)` up to
`(3,2)`, a total length of 5. -/
theorem stroke_reveals_continuous_lines_witness :
    strokePass (sampleCMath 0) (1 / 2) (sampleStroke 0) ⟨0, 0⟩ ⟨1, 1⟩ false samplePath false
        = [.beginPath, .strokeColor 255 255 255 255, .strokeWidth 5, .moveTo ⟨0, 0⟩,
            .lineTo ⟨3, 0⟩, .lineTo ⟨3, 2⟩, .stroke]
      ∧ lineSegments none (strokePassLocal (sampleCMath 0) (sampleStroke 0)
          (renderSetup (sampleCMath 0) (1 / 2) ⟨0, 0⟩ ⟨1, 1⟩ false samplePath false) samplePath)
        = [(⟨0, 0⟩, ⟨3, 0⟩), (⟨3, 0⟩, ⟨3, 2⟩)]
      ∧ ∃ fractions : List ℚ,
        fractions.length ≤ (allCurves samplePath).length
          ∧ lineSegments none (strokePassLocal (sampleCMath 0) (sampleStroke 0)
              (renderSetup (sampleCMath 0) (1 / 2) ⟨0, 0⟩ ⟨1, 1⟩ false samplePath false)
              samplePath)
            = List.zipWith (fun c f => (c.p0, pointAt c f)) (allCurves samplePath) fractions
          ∧ (∀ f ∈ fractions, 0 ≤ f ∧ f ≤ 1)
          ∧ ((lineSegments none (strokePassLocal (sampleCMath 0) (sampleStroke 0)
                (renderSetup (sampleCMath 0) (1 / 2) ⟨0, 0⟩ ⟨1, 1⟩ false samplePath false)
                samplePath)).map
              fun seg => (sampleCMath 0).length (seg.2 - seg.1)).sum
            = 1 / 2 * samplePath.approximatePerimeter := by
  obtain ⟨fractions, h1, h2, h3, h4, -⟩ := stroke_reveals_continuous_lines (sampleCMath 0)
    (sampleCMath_length_nonneg 0) (fun k v hk => sampleCMath_length_homogeneous 0 k v hk)
    (1 / 2) (1 / 2) (sampleStroke 0) ⟨0, 0⟩ ⟨1, 1⟩ false samplePath false rfl samplePath_lines
    samplePath_continuous samplePath_perimeter (by simp [samplePath]) (by norm_num)
    (by norm_num)
  refine ⟨?_, ?_, fractions, h1, h2, h3, h4⟩
  · simp [strokePass, strokePassLocal, strokeContours, strokeCurves, strokeCurve, strokeStyle,
      renderSetup, toTexture, NvgCmd.mapPoints, epsilonEqual, toUnsignedChar, samplePath,
      sampleTwoSegments, sampleStroke, sampleParent, sampleCMath, vec2_sub_mk, vec2_add_mk,
      vec2_mul_right_mk]
    norm_num [NvgCmd.mapPoints, toTexture]
    rfl
  · simp [strokePassLocal, strokeContours, strokeCurves, strokeCurve, strokeStyle,
      renderSetup, epsilonEqual, samplePath, sampleTwoSegments, sampleStroke, sampleParent,
      sampleCMath, vec2_sub_mk, vec2_add_mk, vec2_mul_right_mk, lineSegments]
    norm_num [lineSegments]

end Svg

end MathAnim
